import Mathlib

/-!
# Verification of the `orchard` balanced-sequence-tree library

This file gives a shallow embedding, in Lean 4, of the core of the
`orchard` library: the generic augmented tree (`BasicTree`), the walker
(a zipper carrying context summaries), the AVL balancer (`src/trees/avl.rs`)
and the splay balancer (`src/trees/splay.rs`), together with the locator
primitives (`src/trees/methods/locator.rs`) and the walker summary helpers
(`src/trees/mod.rs`).

The repository snapshot does not contain `basic_tree.rs` (only its callers
are present), so the `BasicTree` / `BasicNode` / `BasicWalker` layer is
modelled from the specification (its §3 "Node", §4.2 "Basic tree / node" and
§4.3 "Basic walker"); every such definition is marked
`Modelled from the spec:` in its doc comment.  Everything else is translated
from the Rust sources.

Conventions:
* Rust `Option`-returning fallible operations return `Option` values.
* An operation that can `panic!` / `unwrap` / `assert!`-fail is modelled as
  an `Option`-valued function where `none` means the panic; a plain
  "refusal" return value (`None` / `Err(())` in Rust) is modelled *inside*
  the `some` (so `some none` is a refusal and `none` is a panic).
* The `u8` rank field of the AVL balancer is modelled as `Nat`; wrap-around
  of the `u8` would require a tree of height 255 (size ≥ 2^127), which no
  statement below reaches, so the overflow reduction `% 2^8` is omitted.
* Source loops are modelled with explicit fuel, with the fuel argument
  chosen (and proven) large enough at every call site.
-/

set_option maxHeartbeats 1600000

namespace Orchard

/-- The `Data` trait of `src/data/mod.rs` (as described by the spec §3/§6):
a client-supplied algebra of values, summaries and actions with their
operations.  The operation fields mirror `Summary::identity`/`combine`/
`singleton`, `Action::identity`/`compose`/`to_reverse` and the two `Acts`
instances (`act_inplace` on values and on summaries). -/
structure DataC where
  Value : Type
  Summary : Type
  Action : Type
  idS : Summary
  addS : Summary → Summary → Summary
  toSummary : Value → Summary
  idA : Action
  comp : Action → Action → Action
  toReverse : Action → Bool
  actV : Action → Value → Value
  actS : Action → Summary → Summary

/-- The algebra laws the spec (§3 "Algebra", §6) imposes as preconditions on
any client instance.  Only the laws actually used by the proofs below are
listed. -/
structure DataLaws (D : DataC) : Prop where
  idActV : ∀ v, D.actV D.idA v = v
  idRev : D.toReverse D.idA = false
  compActV : ∀ a b v, D.actV (D.comp a b) v = D.actV a (D.actV b v)
  compRev : ∀ a b, D.toReverse (D.comp a b) = xor (D.toReverse a) (D.toReverse b)

/-- `LocResult` from `src/trees/methods/locator.rs`. -/
inductive LocResult where
  | Accept
  | GoRight
  | GoLeft
deriving DecidableEq, Repr

/-- `locate_by_key` from `src/trees/methods/locator.rs` (lines 78–92):
the locator body matches on `node.get_key().cmp(key)` and returns
`Equal => Accept, Less => GoLeft, Greater => GoRight`.  `nodeKey` stands for
`node.get_key()` and `key` for the searched key. -/
def locateByKey {K : Type} [Ord K] (key : K) (nodeKey : K) : LocResult :=
  match compare nodeKey key with
  | Ordering.eq => LocResult.Accept
  | Ordering.lt => LocResult.GoLeft
  | Ordering.gt => LocResult.GoRight

/-- Modelled from the spec: the tree of §3 "Node"/"Tree" (`BasicTree` /
`BasicNode` of the missing `basic_tree.rs`).  A tree is `Empty` or a single
owned node carrying `value`, `left`, `right`, the cached `subtree_summary`,
the lazy `pending` action, and the balancer-specific `algData` (`T` in
`avl.rs`: the rank; `()` for the splay tree). -/
inductive BasicTree (D : DataC) (B : Type) : Type where
  | Empty : BasicTree D B
  | Root (value : D.Value) (left right : BasicTree D B)
      (summary : D.Summary) (pending : D.Action) (algData : B) : BasicTree D B

namespace BasicTree

variable {D : DataC} {B : Type}

/-- `BasicTree::is_empty`. -/
def isEmpty : BasicTree D B → Bool
  | Empty => true
  | Root _ _ _ _ _ _ => false

/-- `BasicTree::subtree_summary`: the cached summary (empty summary for the
empty tree). -/
def subtreeSummary : BasicTree D B → D.Summary
  | Empty => D.idS
  | Root _ _ _ s _ _ => s

/-- The `alg_data` of the root (`rank` for AVL trees reads this), with a
default for the empty tree. -/
def algDataD (d : B) : BasicTree D B → B
  | Empty => d
  | Root _ _ _ _ _ b => b

/-- Number of nodes. -/
def size : BasicTree D B → Nat
  | Empty => 0
  | Root _ l r _ _ _ => size l + size r + 1

/-- The action `a` applied to a list of values: every element is acted on,
and if the action carries the reverse bit the list is reversed.  This is the
denotation of applying an action to the in-order sequence of a segment
(spec §3 "Action"/"reverse bit"). -/
def applyA (a : D.Action) (l : List D.Value) : List D.Value :=
  if D.toReverse a then (l.map (D.actV a)).reverse else l.map (D.actV a)

/-- The logical in-order sequence of a tree: pending actions are applied on
the way down.  This is what iterating the tree yields (spec §4.2
`iter_subtree`, which propagates each visited node before recursing). -/
def seq : BasicTree D B → List D.Value
  | Empty => []
  | Root v l r _ a _ => applyA a (seq l ++ v :: seq r)

/-- Modelled from the spec: pushing an action onto a whole subtree
(the per-child part of §4.2 `propagate` and §4.3 `act_subtree`): compose
into the root's pending and apply to its cached `subtree_summary`. -/
def actTree (a : D.Action) : BasicTree D B → BasicTree D B
  | Empty => Empty
  | Root v l r s p b => Root v l r (D.actS a s) (D.comp a p) b

/-- Modelled from the spec: `propagate` (§4.2, §3 invariant 4): apply the
pending action to this node's immediate children (if the reverse bit is
set, swap the children first), apply it to the node's own value, then clear
the pending to the identity. -/
def propagate : BasicTree D B → BasicTree D B
  | Empty => Empty
  | Root v l r s a b =>
      let l1 := if D.toReverse a then r else l
      let r1 := if D.toReverse a then l else r
      Root (D.actV a v) (actTree a l1) (actTree a r1) s D.idA b

/-- Modelled from the spec: `rebuild` (§4.2): recompute the cached
`subtree_summary` from the children's cached summaries and this node's
value, in order `summary(L) ⊕ singleton(v) ⊕ summary(R)`. -/
def rebuild : BasicTree D B → BasicTree D B
  | Empty => Empty
  | Root v l r _ p b =>
      Root v l r (D.addS (subtreeSummary l) (D.addS (D.toSummary v) (subtreeSummary r))) p b

/-! ### Basic facts about the logical in-order sequence -/

theorem applyA_length (a : D.Action) (l : List D.Value) :
    (applyA a l).length = l.length := by
  unfold applyA
  split <;> simp

theorem applyA_nil (a : D.Action) : applyA a ([] : List D.Value) = [] := by
  unfold applyA
  split <;> simp

theorem applyA_id (hL : DataLaws D) (l : List D.Value) :
    applyA D.idA l = l := by
  simp [applyA, hL.idRev, List.map_id'', hL.idActV]

theorem applyA_comp (hL : DataLaws D) (a b : D.Action) (l : List D.Value) :
    applyA (D.comp a b) l = applyA a (applyA b l) := by
  simp only [applyA, hL.compRev]
  cases hb : D.toReverse b <;> cases ha : D.toReverse a <;>
    simp [List.map_map, Function.comp, hL.compActV]

theorem seq_actTree (hL : DataLaws D) (a : D.Action) (t : BasicTree D B) :
    (actTree a t).seq = applyA a t.seq := by
  cases t with
  | Empty => simp [actTree, seq, applyA_nil]
  | Root v l r s p b => simp [actTree, seq, applyA_comp hL]

theorem seq_propagate (hL : DataLaws D) (t : BasicTree D B) :
    t.propagate.seq = t.seq := by
  cases t with
  | Empty => rfl
  | Root v l r s a b =>
      have hid : D.actV D.idA = id := funext hL.idActV
      cases ha : D.toReverse a with
      | false => simp [propagate, ha, seq, seq_actTree hL, applyA, hL.idRev, hid]
      | true => simp [propagate, ha, seq, seq_actTree hL, applyA, hL.idRev, hid,
          List.reverse_append]

theorem seq_rebuild (t : BasicTree D B) : t.rebuild.seq = t.seq := by
  cases t <;> rfl

theorem size_actTree (a : D.Action) (t : BasicTree D B) :
    (actTree a t).size = t.size := by
  cases t <;> rfl

theorem size_propagate (t : BasicTree D B) : t.propagate.size = t.size := by
  cases t with
  | Empty => rfl
  | Root v l r s a b =>
      cases ha : D.toReverse a with
      | false => simp [propagate, ha, size, size_actTree]
      | true =>
          simp [propagate, ha, size, size_actTree]
          omega

theorem size_rebuild (t : BasicTree D B) : t.rebuild.size = t.size := by
  cases t <;> rfl

theorem isEmpty_propagate (t : BasicTree D B) : t.propagate.isEmpty = t.isEmpty := by
  cases t <;> rfl

theorem seq_root_length (v : D.Value) (l r : BasicTree D B) (s : D.Summary)
    (a : D.Action) (b : B) :
    (Root v l r s a b).seq.length = l.seq.length + r.seq.length + 1 := by
  rw [seq, applyA_length]
  simp
  omega

theorem seq_root_ne_nil (v : D.Value) (l r : BasicTree D B) (s : D.Summary)
    (a : D.Action) (b : B) : (Root v l r s a b).seq ≠ [] := by
  intro h
  have h2 := congrArg List.length h
  rw [seq_root_length] at h2
  simp at h2

theorem algDataD_propagate (d : B) (t : BasicTree D B) :
    t.propagate.algDataD d = t.algDataD d := by
  cases t <;> rfl

theorem isEmpty_iff_eq_empty (t : BasicTree D B) : t.isEmpty = true ↔ t = Empty := by
  cases t <;> simp [isEmpty]

/-! ### Rotations

Modelled from the spec (§4.2): standard BST rotations with pre-rotation
propagation of the node and the involved child, post-rotation rebuild of
the two affected nodes in child-then-parent order, and an optional
auxiliary rebuilder (`aux`) run on each rebuilt node — used by the AVL
balancer to also recompute the rank
(`rot_left_with_custom_rebuilder` etc.; the plain rotations use `aux = id`). -/

/-- Left rotation of the given subtree: the right child comes up.
Fails (`none`) if the tree is empty or has no right child. -/
def rotLeft (aux : BasicTree D B → BasicTree D B) (t : BasicTree D B) :
    Option (BasicTree D B) :=
  match t.propagate with
  | Empty => none
  | Root v l r s p b =>
      match r.propagate with
      | Empty => none
      | Root rv rl rr rs rp rb =>
          let newL := aux (rebuild (Root v l rl s p b))
          some (aux (rebuild (Root rv newL rr rs rp rb)))

/-- Right rotation of the given subtree: the left child comes up.
Fails (`none`) if the tree is empty or has no left child. -/
def rotRight (aux : BasicTree D B → BasicTree D B) (t : BasicTree D B) :
    Option (BasicTree D B) :=
  match t.propagate with
  | Empty => none
  | Root v l r s p b =>
      match l.propagate with
      | Empty => none
      | Root lv ll lr ls lp lb =>
          let newR := aux (rebuild (Root v lr r s p b))
          some (aux (rebuild (Root lv ll newR ls lp lb)))

/-- An auxiliary rebuilder is summary-preserving-at-the-sequence-level when
it only touches `algData` (as the AVL rank rebuilder does). -/
def SeqPreserving (aux : BasicTree D B → BasicTree D B) : Prop :=
  ∀ t : BasicTree D B, (aux t).seq = t.seq

theorem propagate_pending {t : BasicTree D B} {v : D.Value} {l r : BasicTree D B}
    {s : D.Summary} {p : D.Action} {b : B}
    (h : t.propagate = Root v l r s p b) : p = D.idA := by
  cases t with
  | Empty => exact absurd h (by simp [propagate])
  | Root v0 l0 r0 s0 a0 b0 =>
      simp only [propagate, Root.injEq] at h
      exact h.2.2.2.2.1.symm

theorem seq_rotLeft (hL : DataLaws D) {aux : BasicTree D B → BasicTree D B}
    (haux : SeqPreserving aux) {t t' : BasicTree D B}
    (h : rotLeft aux t = some t') : t'.seq = t.seq := by
  rw [← seq_propagate hL t]
  unfold rotLeft at h
  split at h
  · exact absurd h (by simp)
  · rename_i v l r s p b hp
    split at h
    · exact absurd h (by simp)
    · rename_i rv rl rr rs rp rb hr
      simp only [Option.some.injEq] at h
      subst h
      have hpe := propagate_pending hp
      have hrpe := propagate_pending hr
      subst hpe hrpe
      have hrs : r.seq = rl.seq ++ rv :: rr.seq := by
        rw [← seq_propagate hL r, hr]
        simp [seq, applyA_id hL]
      rw [hp]
      simp [haux _, seq_rebuild, seq, applyA_id hL, hrs]

theorem seq_rotRight (hL : DataLaws D) {aux : BasicTree D B → BasicTree D B}
    (haux : SeqPreserving aux) {t t' : BasicTree D B}
    (h : rotRight aux t = some t') : t'.seq = t.seq := by
  rw [← seq_propagate hL t]
  unfold rotRight at h
  split at h
  · exact absurd h (by simp)
  · rename_i v l r s p b hp
    split at h
    · exact absurd h (by simp)
    · rename_i lv ll lr ls lp lb hl
      simp only [Option.some.injEq] at h
      subst h
      have hpe := propagate_pending hp
      have hlpe := propagate_pending hl
      subst hpe hlpe
      have hls : l.seq = ll.seq ++ lv :: lr.seq := by
        rw [← seq_propagate hL l, hl]
        simp [seq, applyA_id hL]
      rw [hp]
      simp [haux _, seq_rebuild, seq, applyA_id hL, hls]

theorem isEmpty_rotLeft {aux : BasicTree D B → BasicTree D B}
    {t t' : BasicTree D B} (h : rotLeft aux t = some t') : t.isEmpty = false := by
  unfold rotLeft at h
  split at h
  · exact absurd h (by simp)
  · rename_i v l r s p b hp
    rw [← isEmpty_propagate, hp]
    rfl

theorem isEmpty_rotRight {aux : BasicTree D B → BasicTree D B}
    {t t' : BasicTree D B} (h : rotRight aux t = some t') : t.isEmpty = false := by
  unfold rotRight at h
  split at h
  · exact absurd h (by simp)
  · rename_i v l r s p b hp
    rw [← isEmpty_propagate, hp]
    rfl

end BasicTree

open BasicTree

/-! ## The basic walker

Modelled from the spec (§4.3 "Basic walker", §2 data flow): a telescope
over the tree plus, per frame, the two cached context summaries.  Each
descent propagates pending actions into children, keeping the visited path
clean, and records the parent (minus the entered child) in a frame; going
up pops the frame and rebuilds the parent's summary. -/

/-- One stack frame of a walker: the parent node minus the entered child.
`isLeft` records whether the walker descended into the left child;
`leftCtx`/`rightCtx` are the parent position's cached context summaries,
restored on `go_up`. -/
structure Frame (D : DataC) (B : Type) where
  isLeft : Bool
  value : D.Value
  sibling : BasicTree D B
  algData : B
  leftCtx : D.Summary
  rightCtx : D.Summary

/-- Modelled from the spec: `BasicWalker` — the current subtree, the stack
of frames (top first) and the current position's cached context summaries
(`left_context` = summary of everything strictly left of the current
subtree, `right_context` symmetric). -/
structure BasicWalker (D : DataC) (B : Type) where
  frames : List (Frame D B)
  cur : BasicTree D B
  leftCtx : D.Summary
  rightCtx : D.Summary

namespace BasicWalker

variable {D : DataC} {B : Type}

/-- `BasicWalker::new`: a walker at the root of the tree.  The root is
propagated on arrival so that the visited path is clean (spec §2). -/
def new (t : BasicTree D B) : BasicWalker D B :=
  { frames := [], cur := t.propagate, leftCtx := D.idS, rightCtx := D.idS }

/-- `SomeWalker::depth`. -/
def depth (w : BasicWalker D B) : Nat := w.frames.length

/-- `SomeEntry::is_empty` for the walker: is the current position empty. -/
def isEmpty (w : BasicWalker D B) : Bool := w.cur.isEmpty

/-- `SomeEntry::value` for the walker. -/
def value (w : BasicWalker D B) : Option D.Value :=
  match w.cur with
  | BasicTree.Empty => none
  | BasicTree.Root v _ _ _ _ _ => some v

/-- `SomeWalker::far_left_summary` (`src/trees/mod.rs` lines 63-65):
the summary of all the values to the left of this point that are not
children of this point: the cached left context. -/
def farLeftSummary (w : BasicWalker D B) : D.Summary := w.leftCtx

/-- `SomeWalker::far_right_summary` (`src/trees/mod.rs` lines 66-68):
symmetric right context. -/
def farRightSummary (w : BasicWalker D B) : D.Summary := w.rightCtx

/-- `SomeWalker::left_summary` (`src/trees/mod.rs` lines 70-79), verbatim:
`far_left_summary()`, and if the current position holds a node, combined
with `node.left.subtree_summary()` on the right. -/
def leftSummary (w : BasicWalker D B) : D.Summary :=
  match w.cur with
  | BasicTree.Root _ l _ _ _ _ => D.addS w.farLeftSummary l.subtreeSummary
  | BasicTree.Empty => w.farLeftSummary

/-- `SomeWalker::right_summary` (`src/trees/mod.rs` lines 80-89), verbatim:
`far_right_summary()`, and if the current position holds a node, combined
with `node.left.subtree_summary()` on the left.  (Note: the source reads
`node.left`, not `node.right`, here.) -/
def rightSummary (w : BasicWalker D B) : D.Summary :=
  match w.cur with
  | BasicTree.Root _ l _ _ _ _ => D.addS l.subtreeSummary w.farRightSummary
  | BasicTree.Empty => w.farRightSummary

/-- Modelled from the spec: `go_left` (§4.3): returns failure at an empty
position; otherwise propagates the current node, pushes a frame, descends
into the left child (propagating it on arrival), and updates the cached
contexts: the new `right_context` is
`singleton(parent.value) ⊕ summary(parent.right) ⊕ parent.right_context`. -/
def goLeft (w : BasicWalker D B) : Option (BasicWalker D B) :=
  match w.cur.propagate with
  | BasicTree.Empty => none
  | BasicTree.Root v l r _ _ b =>
      some { frames := ⟨true, v, r, b, w.leftCtx, w.rightCtx⟩ :: w.frames,
             cur := l.propagate,
             leftCtx := w.leftCtx,
             rightCtx := D.addS (D.toSummary v) (D.addS r.subtreeSummary w.rightCtx) }

/-- Modelled from the spec: `go_right`, symmetric to `go_left`: the new
`left_context` is
`parent.left_context ⊕ summary(parent.left) ⊕ singleton(parent.value)`. -/
def goRight (w : BasicWalker D B) : Option (BasicWalker D B) :=
  match w.cur.propagate with
  | BasicTree.Empty => none
  | BasicTree.Root v l r _ _ b =>
      some { frames := ⟨false, v, l, b, w.leftCtx, w.rightCtx⟩ :: w.frames,
             cur := r.propagate,
             leftCtx := D.addS (D.addS w.leftCtx l.subtreeSummary) (D.toSummary v),
             rightCtx := w.rightCtx }

/-- Reattaching a frame to a subtree: the parent node is rebuilt (summary
recomputed; its pending is the identity because it was propagated on the
way down; its `algData` is taken from the frame). -/
def remakeFrame (f : Frame D B) (t : BasicTree D B) : BasicTree D B :=
  if f.isLeft then
    BasicTree.rebuild (BasicTree.Root f.value t f.sibling D.idS D.idA f.algData)
  else
    BasicTree.rebuild (BasicTree.Root f.value f.sibling t D.idS D.idA f.algData)

/-- Modelled from the spec: `go_up` (§4.3): pops the frame, rebuilds the
parent's summary, restores the parent's cached contexts; returns whether
the previous position was the left son, or failure at the root. -/
def goUp (w : BasicWalker D B) : Option (Bool × BasicWalker D B) :=
  match w.frames with
  | [] => none
  | f :: fs =>
      some (f.isLeft,
        { frames := fs, cur := remakeFrame f w.cur,
          leftCtx := f.leftCtx, rightCtx := f.rightCtx })

/-- `is_left_son`: whether the current position is the left son of its
parent (`none` at the root). -/
def isLeftSon (w : BasicWalker D B) : Option Bool :=
  match w.frames with
  | [] => none
  | f :: _ => some f.isLeft

/-- Modelled from the spec: `take_subtree` (§4.3): extracts the current
subtree by value, leaving the position empty; context caches untouched. -/
def takeSubtree (w : BasicWalker D B) : BasicTree D B × BasicWalker D B :=
  (w.cur, { w with cur := BasicTree.Empty })

/-- Modelled from the spec: `put_subtree` (§4.3): replaces the current
(empty) subtree.  The source `put_subtree` returns `Err` when the position
is occupied; all call sites in `avl.rs`/`splay.rs` call it on positions
just emptied by `take_subtree`, so it is modelled total here. -/
def putSubtree (w : BasicWalker D B) (t : BasicTree D B) : BasicWalker D B :=
  { w with cur := t }

/-- `SomeEntry::insert_new` with an `alg_data` seed
(`insert_with_alg_data` in `avl.rs`): only writes at an empty position
(refusal otherwise); creates a fresh leaf with singleton summary and
identity pending. -/
def insertNew (w : BasicWalker D B) (v : D.Value) (b : B) :
    Option (BasicWalker D B) :=
  match w.cur with
  | BasicTree.Empty =>
      some { w with
        cur := BasicTree.Root v BasicTree.Empty BasicTree.Empty (D.toSummary v) D.idA b }
  | BasicTree.Root _ _ _ _ _ _ => none

/-- Walker-level left rotation of the current subtree
(`rot_left_with_custom_rebuilder`). -/
def rotLeftW (aux : BasicTree D B → BasicTree D B) (w : BasicWalker D B) :
    Option (BasicWalker D B) :=
  (BasicTree.rotLeft aux w.cur).map fun t => { w with cur := t }

/-- Walker-level right rotation of the current subtree
(`rot_right_with_custom_rebuilder`). -/
def rotRightW (aux : BasicTree D B → BasicTree D B) (w : BasicWalker D B) :
    Option (BasicWalker D B) :=
  (BasicTree.rotRight aux w.cur).map fun t => { w with cur := t }

/-- `rot_side(b)`: rotate the current subtree so that the `b`-side child
comes up: `rot_side(true)` is a left rotation, `rot_side(false)` a right
rotation (this is the orientation used by the splay steps, which call
`rot_side(!b1)` to raise the child they came from). -/
def rotSideW (aux : BasicTree D B → BasicTree D B) (b : Bool)
    (w : BasicWalker D B) : Option (BasicWalker D B) :=
  if b then rotLeftW aux w else rotRightW aux w

/-- `rot_up_with_custom_rebuilder`: rotate the current node above its
parent.  Fails at the root; returns (like `go_up`) whether the current
node was the left son. -/
def rotUpW (aux : BasicTree D B → BasicTree D B) (w : BasicWalker D B) :
    Option (Bool × BasicWalker D B) :=
  match goUp w with
  | none => none
  | some (b, w1) => (rotSideW aux (!b) w1).map fun w2 => (b, w2)

/-- Reassembling the tree under a walker (what dropping the walker leaves
behind: every frame is popped, rebuilding summaries on the way up). -/
def reassembleGo : List (Frame D B) → BasicTree D B → BasicTree D B
  | [], t => t
  | f :: fs, t => reassembleGo fs (remakeFrame f t)

/-- The tree a walker stands in. -/
def reassemble (w : BasicWalker D B) : BasicTree D B :=
  reassembleGo w.frames w.cur

/-- The in-order sequence of the values lying strictly before the walker's
current subtree, read off the frame stack. -/
def framesBefore : List (Frame D B) → List D.Value
  | [] => []
  | f :: fs =>
      if f.isLeft then framesBefore fs
      else framesBefore fs ++ f.sibling.seq ++ [f.value]

/-- The in-order sequence of the values lying strictly after the walker's
current subtree, read off the frame stack. -/
def framesAfter : List (Frame D B) → List D.Value
  | [] => []
  | f :: fs =>
      if f.isLeft then (f.value :: f.sibling.seq) ++ framesAfter fs
      else framesAfter fs

/-- The logical in-order sequence of the whole tree a walker stands in. -/
def wSeq (w : BasicWalker D B) : List D.Value := (reassemble w).seq

theorem seq_remakeFrame (hL : DataLaws D) (f : Frame D B) (t : BasicTree D B) :
    (remakeFrame f t).seq =
      if f.isLeft then t.seq ++ f.value :: f.sibling.seq
      else f.sibling.seq ++ f.value :: t.seq := by
  cases hf : f.isLeft <;>
    simp [remakeFrame, hf, seq_rebuild, seq, applyA_id hL]

theorem seq_reassembleGo (hL : DataLaws D) (fs : List (Frame D B))
    (t : BasicTree D B) :
    (reassembleGo fs t).seq = framesBefore fs ++ t.seq ++ framesAfter fs := by
  induction fs generalizing t with
  | nil => simp [reassembleGo, framesBefore, framesAfter]
  | cons f fs ih =>
      cases hf : f.isLeft <;>
        simp [reassembleGo, ih, seq_remakeFrame hL, hf, framesBefore, framesAfter]

theorem wSeq_eq (hL : DataLaws D) (w : BasicWalker D B) :
    wSeq w = framesBefore w.frames ++ w.cur.seq ++ framesAfter w.frames := by
  exact seq_reassembleGo hL w.frames w.cur

/-! ### Step lemmas: every walker move preserves the tree's sequence -/

theorem goLeft_spec (hL : DataLaws D) {w w' : BasicWalker D B}
    (h : goLeft w = some w') :
    wSeq w' = wSeq w ∧ w'.depth = w.depth + 1 ∧
      framesBefore w'.frames = framesBefore w.frames := by
  unfold goLeft at h
  split at h
  · exact absurd h (by simp)
  · rename_i v l r s p b hp
    simp only [Option.some.injEq] at h
    subst h
    have hcur : w.cur.seq = l.seq ++ v :: r.seq := by
      rw [← seq_propagate hL w.cur, hp, propagate_pending hp]
      simp [seq, applyA_id hL]
    refine ⟨?_, by simp [depth], by simp [framesBefore]⟩
    rw [wSeq_eq hL, wSeq_eq hL, hcur]
    simp [framesBefore, framesAfter, seq_propagate hL]

theorem goRight_spec (hL : DataLaws D) {w w' : BasicWalker D B}
    (h : goRight w = some w') :
    wSeq w' = wSeq w ∧ w'.depth = w.depth + 1 ∧
      framesAfter w'.frames = framesAfter w.frames := by
  unfold goRight at h
  split at h
  · exact absurd h (by simp)
  · rename_i v l r s p b hp
    simp only [Option.some.injEq] at h
    subst h
    have hcur : w.cur.seq = l.seq ++ v :: r.seq := by
      rw [← seq_propagate hL w.cur, hp, propagate_pending hp]
      simp [seq, applyA_id hL]
    refine ⟨?_, by simp [depth], by simp [framesAfter]⟩
    rw [wSeq_eq hL, wSeq_eq hL, hcur]
    simp [framesBefore, framesAfter, seq_propagate hL]

theorem goUp_spec (hL : DataLaws D) {w : BasicWalker D B}
    {b : Bool} {w' : BasicWalker D B} (h : goUp w = some (b, w')) :
    wSeq w' = wSeq w ∧ w.depth = w'.depth + 1 ∧ w'.cur.isEmpty = false := by
  unfold goUp at h
  cases hf : w.frames with
  | nil => rw [hf] at h; exact absurd h (by simp)
  | cons f fs =>
      rw [hf] at h
      simp only [Option.some.injEq, Prod.mk.injEq] at h
      obtain ⟨hb, hw⟩ := h
      subst hw
      refine ⟨?_, by simp [depth, hf], ?_⟩
      · rw [wSeq_eq hL, wSeq_eq hL, hf, seq_remakeFrame hL]
        cases hfl : f.isLeft <;> simp [framesBefore, framesAfter, hfl]
      · cases hfl : f.isLeft <;> simp [remakeFrame, hfl, BasicTree.rebuild, BasicTree.isEmpty]

theorem rotLeftW_spec (hL : DataLaws D) {aux : BasicTree D B → BasicTree D B}
    (haux : SeqPreserving aux) {w w' : BasicWalker D B}
    (h : rotLeftW aux w = some w') :
    wSeq w' = wSeq w ∧ w'.frames = w.frames ∧
      w'.leftCtx = w.leftCtx ∧ w'.rightCtx = w.rightCtx ∧
      w'.cur.seq = w.cur.seq := by
  unfold rotLeftW at h
  cases hr : BasicTree.rotLeft aux w.cur with
  | none => rw [hr] at h; exact absurd h (by simp)
  | some t =>
      rw [hr] at h
      simp only [Option.map_some', Option.some.injEq] at h
      subst h
      have hts := seq_rotLeft hL haux hr
      exact ⟨by rw [wSeq_eq hL, wSeq_eq hL]; simp [hts], rfl, rfl, rfl, hts⟩

theorem rotRightW_spec (hL : DataLaws D) {aux : BasicTree D B → BasicTree D B}
    (haux : SeqPreserving aux) {w w' : BasicWalker D B}
    (h : rotRightW aux w = some w') :
    wSeq w' = wSeq w ∧ w'.frames = w.frames ∧
      w'.leftCtx = w.leftCtx ∧ w'.rightCtx = w.rightCtx ∧
      w'.cur.seq = w.cur.seq := by
  unfold rotRightW at h
  cases hr : BasicTree.rotRight aux w.cur with
  | none => rw [hr] at h; exact absurd h (by simp)
  | some t =>
      rw [hr] at h
      simp only [Option.map_some', Option.some.injEq] at h
      subst h
      have hts := seq_rotRight hL haux hr
      exact ⟨by rw [wSeq_eq hL, wSeq_eq hL]; simp [hts], rfl, rfl, rfl, hts⟩

theorem rotSideW_spec (hL : DataLaws D) {aux : BasicTree D B → BasicTree D B}
    (haux : SeqPreserving aux) {bs : Bool} {w w' : BasicWalker D B}
    (h : rotSideW aux bs w = some w') :
    wSeq w' = wSeq w ∧ w'.frames = w.frames ∧
      w'.leftCtx = w.leftCtx ∧ w'.rightCtx = w.rightCtx ∧
      w'.cur.seq = w.cur.seq := by
  unfold rotSideW at h
  cases bs with
  | true => exact rotLeftW_spec hL haux h
  | false => exact rotRightW_spec hL haux h

theorem rotUpW_spec (hL : DataLaws D) {aux : BasicTree D B → BasicTree D B}
    (haux : SeqPreserving aux) {w : BasicWalker D B}
    {b : Bool} {w' : BasicWalker D B} (h : rotUpW aux w = some (b, w')) :
    wSeq w' = wSeq w ∧ w.depth = w'.depth + 1 := by
  unfold rotUpW at h
  cases hu : goUp w with
  | none => rw [hu] at h; exact absurd h (by simp)
  | some p =>
      obtain ⟨b1, w1⟩ := p
      rw [hu] at h
      dsimp only at h
      cases hs : rotSideW aux (!b1) w1 with
      | none => rw [hs] at h; exact absurd h (by simp)
      | some w2 =>
          rw [hs] at h
          simp only [Option.map_some', Option.some.injEq, Prod.mk.injEq] at h
          obtain ⟨hb, hw⟩ := h
          subst hw
          have h1 := goUp_spec hL hu
          have h2 := rotSideW_spec hL haux hs
          refine ⟨h2.1.trans h1.1, ?_⟩
          have : w2.depth = w1.depth := by simp [depth, h2.2.1]
          omega

theorem insertNew_spec (hL : DataLaws D) {w : BasicWalker D B}
    {v : D.Value} {b : B} {w' : BasicWalker D B}
    (h : insertNew w v b = some w') :
    wSeq w' = framesBefore w.frames ++ v :: framesAfter w.frames ∧
      w'.frames = w.frames ∧ w.cur = BasicTree.Empty := by
  unfold insertNew at h
  cases hc : w.cur with
  | Empty =>
      rw [hc] at h
      simp only [Option.some.injEq] at h
      subst h
      refine ⟨?_, rfl, rfl⟩
      rw [wSeq_eq hL]
      simp [seq, applyA_id hL]
  | Root v0 l0 r0 s0 a0 b0 => rw [hc] at h; exact absurd h (by simp)

end BasicWalker

open BasicWalker

/-! ## The AVL balancer (`src/trees/avl.rs`)

The bookkeeping type `T = u8` is modelled as `Nat` and the rank-difference
type `TD = i8` as `Int` (see the header note on overflow). -/

/-- `Rankable::rank` for `BasicTree` (avl.rs 30-35): `0` for the empty
tree, the `alg_data` of the root otherwise. -/
def rankT {D : DataC} (t : BasicTree D Nat) : Nat := t.algDataD 0

/-- `Rankable::rank_diff` (avl.rs 47-52, 62-64):
`right.rank() - left.rank()`, and `0` for the empty tree. -/
def rankDiff {D : DataC} : BasicTree D Nat → Int
  | BasicTree.Empty => 0
  | BasicTree.Root _ l r _ _ _ => (rankT r : Int) - (rankT l : Int)

/-- `Rankable::rebuild_ranks` (avl.rs 37-44, 66-72): recompute the root's
rank as `max(rank(left), rank(right)) + 1` and report whether it changed
(`true` for the empty tree, following avl.rs line 42). -/
def rebuildRanksT {D : DataC} : BasicTree D Nat → Bool × BasicTree D Nat
  | BasicTree.Empty => (true, BasicTree.Empty)
  | BasicTree.Root v l r s p b =>
      let newRank := max (rankT l) (rankT r) + 1
      (decide (b ≠ newRank), BasicTree.Root v l r s p newRank)

/-- The custom rebuilder passed by `AVLWalker::rot_left` / `rot_right` /
`rot_up` / `rot_side` (avl.rs 379-405): `node.rebuild_ranks()`. -/
def rankRebuilder {D : DataC} (t : BasicTree D Nat) : BasicTree D Nat :=
  (rebuildRanksT t).2

/-- `AVLWalker::go_up` (avl.rs 286-290): the basic `go_up`, then
`rebuild_ranks` on the current node. -/
def avlGoUp {D : DataC} (w : BasicWalker D Nat) :
    Option (Bool × BasicWalker D Nat) :=
  match goUp w with
  | none => none
  | some (b, w1) => some (b, { w1 with cur := (rebuildRanksT w1.cur).2 })

/-- `AVLWalker::rot_left` (avl.rs 379-384). -/
def avlRotLeft {D : DataC} (w : BasicWalker D Nat) : Option (BasicWalker D Nat) :=
  rotLeftW rankRebuilder w

/-- `AVLWalker::rot_right` (avl.rs 386-391). -/
def avlRotRight {D : DataC} (w : BasicWalker D Nat) : Option (BasicWalker D Nat) :=
  rotRightW rankRebuilder w

/-- `AVLWalker::rot_up` (avl.rs 393-398). -/
def avlRotUp {D : DataC} (w : BasicWalker D Nat) :
    Option (Bool × BasicWalker D Nat) :=
  rotUpW rankRebuilder w

/-- The body of the `loop` in `AVLWalker::rebalance` (avl.rs 412-440)
before the ascent: the `match` on `rank_diff`.  `none` models a panic
(a failed `unwrap`, a failed `assert!`, or the
`panic!("illegal rank difference")` arm).  Note that the `-2`/left-heavy
double-rotation arm finishes with the *basic* `rot_up`
(`self.walker.rot_up()`, avl.rs 421), which does not rebuild ranks,
while the `2` arm uses the rank-rebuilding `self.rot_up()` (avl.rs 434). -/
def rebalanceStep {D : DataC} (w : BasicWalker D Nat) :
    Option (BasicWalker D Nat) :=
  match w.cur with
  | BasicTree.Empty => none
  | BasicTree.Root _ l r _ _ _ =>
      let d := rankDiff w.cur
      if d = -2 then
        if rankDiff l ≤ 0 then avlRotRight w
        else
          match goLeft w with
          | none => none
          | some w1 =>
              match avlRotLeft w1 with
              | none => none
              | some w2 =>
                  match rotUpW id w2 with
                  | some (true, w3) => some w3
                  | some (false, _) => none
                  | none => none
      else if -1 ≤ d ∧ d ≤ 1 then some w
      else if d = 2 then
        if 0 ≤ rankDiff r then avlRotLeft w
        else
          match goRight w with
          | none => none
          | some w1 =>
              match avlRotRight w1 with
              | none => none
              | some w2 =>
                  match avlRotUp w2 with
                  | some (false, w3) => some w3
                  | some (true, _) => none
                  | none => none
      else none

/-- The `loop` of `AVLWalker::rebalance` (avl.rs 412-452) with explicit
fuel: balance the current node, then `walker.go_up()` (the basic one) and
`rebuild_ranks`; stop when the rank did not change or the root was
reached. -/
def rebalanceGo {D : DataC} : Nat → BasicWalker D Nat →
    Option (BasicWalker D Nat)
  | 0, _ => none
  | fuel+1, w =>
      match rebalanceStep w with
      | none => none
      | some w1 =>
          match goUp w1 with
          | none => some { w1 with cur := (rebuildRanksT w1.cur).2 }
          | some (_, w2) =>
              let p := rebuildRanksT w2.cur
              let w3 := { w2 with cur := p.2 }
              if p.1 then rebalanceGo fuel w3 else some w3

/-- `AVLWalker::rebalance` (avl.rs 409-453): a no-op at an empty position,
otherwise the rebalancing loop.  The loop ascends at least one level per
iteration, so `depth + 1` fuel is an upper bound on its iterations. -/
def rebalance {D : DataC} (w : BasicWalker D Nat) :
    Option (BasicWalker D Nat) :=
  if w.isEmpty then some w else rebalanceGo (w.depth + 1) w

/-- `AVLWalker::insert` (avl.rs 466-471):
`insert_with_alg_data(val, 1)`, then one (rank-rebuilding) `go_up` with
the result ignored, then `rebalance`.  The outer `none` models a panic
inside rebalancing; `some none` is the refusal at an occupied position. -/
def insertAVL {D : DataC} (w : BasicWalker D Nat) (v : D.Value) :
    Option (Option (BasicWalker D Nat)) :=
  match insertNew w v 1 with
  | none => some none
  | some w1 =>
      let w2 := match avlGoUp w1 with
                | none => w1
                | some (_, w') => w'
      (rebalance w2).map some

/-- The `while let Ok(_) = walker.go_left() {}` loop, with fuel. -/
def goLeftAll {D : DataC} {B : Type} : Nat → BasicWalker D B → BasicWalker D B
  | 0, w => w
  | fuel+1, w =>
      match goLeft w with
      | none => w
      | some w1 => goLeftAll fuel w1

/-- The `while let Ok(_) = walker.go_right() {}` loop, with fuel. -/
def goRightAll {D : DataC} {B : Type} : Nat → BasicWalker D B → BasicWalker D B
  | 0, w => w
  | fuel+1, w =>
      match goRight w with
      | none => w
      | some w1 => goRightAll fuel w1

/-- `AVLWalker::delete` (avl.rs 474-504).  `some none` is the `None`
return at an empty position; the outer `none` models any panic
(`unwrap`s, `assert!`s, rebalancing panics).  The non-trivial branch
finds the in-order successor with an inner walker over `node.right`,
splices its right child into its place, rebalances the inner path,
substitutes the successor for the deleted node (adopting its children,
rebuilding summary and ranks), and rebalances again from the successor's
old side. -/
def deleteAVL {D : DataC} (w : BasicWalker D Nat) :
    Option (Option (D.Value × BasicWalker D Nat)) :=
  match w.cur with
  | BasicTree.Empty => some none
  | BasicTree.Root v l r _ _ _ =>
      let w0 : BasicWalker D Nat := { w with cur := BasicTree.Empty }
      if r.isEmpty then
        (rebalance (putSubtree w0 l)).map (fun w2 => some (v, w2))
      else
        let iw := BasicWalker.new r
        let iw1 := goLeftAll (r.size + 1) iw
        let iw2 := match goUp iw1 with
                   | none => iw1
                   | some (_, w') => w'
        match iw2.cur with
        | BasicTree.Empty => none
        | BasicTree.Root mv ml mr ms mp mb =>
            if ml.isEmpty then
              match rebalance (putSubtree { iw2 with cur := BasicTree.Empty } mr) with
              | none => none
              | some iw4 =>
                  let r2 := reassemble iw4
                  let repl :=
                    (rebuildRanksT (BasicTree.rebuild
                      (BasicTree.Root mv l r2 ms mp mb))).2
                  match goRight (putSubtree w0 repl) with
                  | none => none
                  | some w2 => (rebalance w2).map (fun w3 => some (v, w3))
            else none

/-- The AVL rank invariant (claim C1, spec §3 invariant 3 and
`assert_ranks_locally_internal`, avl.rs 156-160): every node's rank is
`1 + max(rank(left), rank(right))` and the children's ranks differ by at
most one; the empty tree has rank `0`. -/
def avlOK {D : DataC} : BasicTree D Nat → Bool
  | BasicTree.Empty => true
  | BasicTree.Root _ l r _ _ b =>
      avlOK l && avlOK r && decide (b = max (rankT l) (rankT r) + 1) &&
      decide ((rankT l : Int) - (rankT r : Int) ≤ 1) &&
      decide ((rankT r : Int) - (rankT l : Int) ≤ 1)

/-- `AVLWalker::far_right_summary` (avl.rs 300-302), verbatim: the body
returns `self.walker.far_left_summary()`.  (`AVLWalker` is a newtype over
the basic walker, so this is a function of the underlying walker.) -/
def avlFarRightSummary {D : DataC} (w : BasicWalker D Nat) : D.Summary :=
  w.farLeftSummary

/-- `AVLWalker::far_left_summary` (avl.rs 296-298). -/
def avlFarLeftSummary {D : DataC} (w : BasicWalker D Nat) : D.Summary :=
  w.farLeftSummary

/-- `AVLTree::act_segment` either completes (delegating to
`methods::act_segment`) or aborts at the `todo!()`. -/
inductive ActSegmentOutcome where
  | completed
  | panicked
deriving DecidableEq, Repr

/-- The control flow of `AVLTree::act_segment` (avl.rs 176-184), verbatim:
`if action.to_reverse() == false { methods::act_segment(...) } else
{ todo!() }`.  `todo!()` panics, so a reversing action aborts the
process; there is no refusal return value in the signature
(`fn act_segment(&mut self, ...)` returns `()`). -/
def actSegmentOutcome (D : DataC) (action : D.Action) : ActSegmentOutcome :=
  if D.toReverse action = false then ActSegmentOutcome.completed
  else ActSegmentOutcome.panicked

/-! ## Concrete algebra instances (`src/data/example_data.rs`)

Used to evaluate the embedded code on concrete inputs. -/

/-- `example_data::Size` — a summary storing only the segment size
(`struct Size { size: usize }`). -/
structure Size where
  size : Nat
deriving DecidableEq, Repr

/-- `example_data::SizeData<V>` at `V = i32` (modelled as `Int`): plain
values with segment-size summaries and the trivial `Unit` action.
`Size` combines by adding sizes (identity `0`), `to_summary` is `size 1`,
and `Unit` acts trivially and never reverses. -/
@[reducible] def SizeData : DataC where
  Value := Int
  Summary := Size
  Action := Unit
  idS := ⟨0⟩
  addS := fun a b => ⟨a.size + b.size⟩
  toSummary := fun _ => ⟨1⟩
  idA := ()
  comp := fun _ _ => ()
  toReverse := fun _ => false
  actV := fun _ v => v
  actS := fun _ s => s

theorem SizeData_laws : DataLaws SizeData :=
  ⟨fun _ => rfl, rfl, fun _ _ _ => rfl, fun _ _ => rfl⟩

/-- `example_data::RevAction` — an action that either reverses a segment
or does nothing (`struct RevAction { to_reverse: bool }`); composition
XORs the bits. -/
structure RevAction where
  toReverse : Bool
deriving DecidableEq, Repr

/-- A `Data` instance with `RevAction` actions over size summaries
(`RevAction` implements `Acts<Size>` trivially in `example_data.rs`). -/
@[reducible] def RevSizeData : DataC where
  Value := Int
  Summary := Size
  Action := RevAction
  idS := ⟨0⟩
  addS := fun a b => ⟨a.size + b.size⟩
  toSummary := fun _ => ⟨1⟩
  idA := ⟨false⟩
  comp := fun a b => ⟨xor a.toReverse b.toReverse⟩
  toReverse := fun a => a.toReverse
  actV := fun _ v => v
  actS := fun _ s => s

theorem RevSizeData_laws : DataLaws RevSizeData :=
  ⟨fun _ => rfl, rfl, fun _ _ _ => rfl, fun _ _ => rfl⟩

/-- The value claim C5 (and the doc comment of `right_summary`)
prescribes for `right_summary`: the subtree summary of the current
node's *right* child combined, in order, with `far_right_summary()`;
at an empty position just `far_right_summary()`. -/
def rightSummarySpec {D : DataC} {B : Type} (w : BasicWalker D B) : D.Summary :=
  match w.cur with
  | BasicTree.Root _ _ r _ _ _ => D.addS r.subtreeSummary w.farRightSummary
  | BasicTree.Empty => w.farRightSummary

/-! ## Structural rotation lemmas

Used to show that the rotations performed by the splay steps and by the
AVL rebalancing loop cannot fail. -/

/-- An auxiliary rebuilder that only changes `alg_data` (the identity and
the AVL rank rebuilder are the two used by the source): it is given by a
function computing the new `alg_data` of a node. -/
def AlgOnly {D : DataC} {B : Type} (aux : BasicTree D B → BasicTree D B) : Prop :=
  ∃ f : D.Value → BasicTree D B → BasicTree D B → D.Summary → D.Action → B → B,
    aux = fun t =>
      match t with
      | BasicTree.Empty => BasicTree.Empty
      | BasicTree.Root v l r s p b => BasicTree.Root v l r s p (f v l r s p b)

theorem algOnly_id {D : DataC} {B : Type} :
    AlgOnly (id : BasicTree D B → BasicTree D B) :=
  ⟨fun _ _ _ _ _ b => b, funext fun t => by cases t <;> rfl⟩

theorem algOnly_rankRebuilder {D : DataC} :
    AlgOnly (rankRebuilder (D := D)) :=
  ⟨fun _ l r _ _ _ => max (rankT l) (rankT r) + 1,
    funext fun t => by cases t <;> rfl⟩

theorem seqPreserving_of_algOnly {D : DataC} {B : Type}
    {aux : BasicTree D B → BasicTree D B} (ha : AlgOnly aux) :
    SeqPreserving aux := by
  obtain ⟨f, rfl⟩ := ha
  intro t
  cases t <;> rfl

theorem isEmpty_actTree {D : DataC} {B : Type} (a : D.Action)
    (t : BasicTree D B) : (BasicTree.actTree a t).isEmpty = t.isEmpty := by
  cases t <;> rfl

/-- `rot_right` on a node with identity pending and a real left child
(itself with identity pending) always succeeds, and the result is a node
with identity pending whose left child is empty exactly when the left
grandchild was and whose right child is a node. -/
theorem rotRight_struct {D : DataC} {B : Type} (hL : DataLaws D)
    {aux : BasicTree D B → BasicTree D B} (ha : AlgOnly aux)
    (v lv : D.Value) (ll lr r : BasicTree D B) (ls s : D.Summary) (lb b : B) :
    ∃ v2 l2 r2 s2 b2,
      BasicTree.rotRight aux
          (BasicTree.Root v (BasicTree.Root lv ll lr ls D.idA lb) r s D.idA b)
        = some (BasicTree.Root v2 l2 r2 s2 D.idA b2) ∧
      l2.isEmpty = ll.isEmpty ∧ r2.isEmpty = false := by
  have hrev0 : D.toReverse (D.comp D.idA D.idA) = false := by
    rw [hL.compRev, hL.idRev]
    rfl
  obtain ⟨f, rfl⟩ := ha
  simp only [BasicTree.rotRight, BasicTree.propagate, hL.idRev,
    Bool.false_eq_true, if_false, BasicTree.actTree, hrev0, BasicTree.rebuild]
  exact ⟨_, _, _, _, _, rfl, isEmpty_actTree _ ll, rfl⟩

/-- Symmetric to `rotRight_struct`: `rot_left` on a node with identity
pending and a real right child (with identity pending) succeeds; the
result has identity pending, its right child is empty exactly when the
right grandchild was, and its left child is a node. -/
theorem rotLeft_struct {D : DataC} {B : Type} (hL : DataLaws D)
    {aux : BasicTree D B → BasicTree D B} (ha : AlgOnly aux)
    (v rv : D.Value) (l rl rr : BasicTree D B) (rs s : D.Summary) (rb b : B) :
    ∃ v2 l2 r2 s2 b2,
      BasicTree.rotLeft aux
          (BasicTree.Root v l (BasicTree.Root rv rl rr rs D.idA rb) s D.idA b)
        = some (BasicTree.Root v2 l2 r2 s2 D.idA b2) ∧
      r2.isEmpty = rr.isEmpty ∧ l2.isEmpty = false := by
  have hrev0 : D.toReverse (D.comp D.idA D.idA) = false := by
    rw [hL.compRev, hL.idRev]
    rfl
  obtain ⟨f, rfl⟩ := ha
  simp only [BasicTree.rotLeft, BasicTree.propagate, hL.idRev,
    Bool.false_eq_true, if_false, BasicTree.actTree, hrev0, BasicTree.rebuild]
  exact ⟨_, _, _, _, _, rfl, isEmpty_actTree _ rr, rfl⟩

/-- `rot_left` needs no assumption on the raised child's pending to
succeed: a node with identity pending and any real right child rotates,
and the result is a node with identity pending whose left child is a
node. -/
theorem rotLeft_total {D : DataC} {B : Type} (hL : DataLaws D)
    {aux : BasicTree D B → BasicTree D B} (ha : AlgOnly aux)
    (v rv : D.Value) (l rl rr : BasicTree D B) (rs s : D.Summary)
    (rp : D.Action) (rb b : B) :
    ∃ v2 l2 r2 s2 b2,
      BasicTree.rotLeft aux
          (BasicTree.Root v l (BasicTree.Root rv rl rr rs rp rb) s D.idA b)
        = some (BasicTree.Root v2 l2 r2 s2 D.idA b2) ∧
      l2.isEmpty = false := by
  obtain ⟨f, rfl⟩ := ha
  simp only [BasicTree.rotLeft, BasicTree.propagate, hL.idRev,
    Bool.false_eq_true, if_false, BasicTree.actTree, BasicTree.rebuild]
  exact ⟨_, _, _, _, _, rfl, rfl⟩

/-- Symmetric to `rotLeft_total`. -/
theorem rotRight_total {D : DataC} {B : Type} (hL : DataLaws D)
    {aux : BasicTree D B → BasicTree D B} (ha : AlgOnly aux)
    (v lv : D.Value) (ll lr r : BasicTree D B) (ls s : D.Summary)
    (lp : D.Action) (lb b : B) :
    ∃ v2 l2 r2 s2 b2,
      BasicTree.rotRight aux
          (BasicTree.Root v (BasicTree.Root lv ll lr ls lp lb) r s D.idA b)
        = some (BasicTree.Root v2 l2 r2 s2 D.idA b2) ∧
      r2.isEmpty = false := by
  obtain ⟨f, rfl⟩ := ha
  simp only [BasicTree.rotRight, BasicTree.propagate, hL.idRev,
    Bool.false_eq_true, if_false, BasicTree.actTree, BasicTree.rebuild]
  exact ⟨_, _, _, _, _, rfl, rfl⟩

/-- Shape of a successful `go_up`: the parent comes from the top frame,
has identity pending, and holds the old current subtree on the recorded
side with the stored sibling on the other side. -/
theorem goUp_shape {D : DataC} {B : Type} {w : BasicWalker D B} {b : Bool}
    {w1 : BasicWalker D B} (h : goUp w = some (b, w1)) :
    ∃ f fs, w.frames = f :: fs ∧ b = f.isLeft ∧ w1.frames = fs ∧
      ∃ v l2 r2 s2 b2, w1.cur = BasicTree.Root v l2 r2 s2 D.idA b2 ∧
        (if b then l2 else r2) = w.cur ∧ (if b then r2 else l2) = f.sibling := by
  unfold goUp at h
  cases hf : w.frames with
  | nil => rw [hf] at h; exact absurd h (by simp)
  | cons f fs =>
      rw [hf] at h
      simp only [Option.some.injEq, Prod.mk.injEq] at h
      obtain ⟨hb, hw⟩ := h
      subst hw
      cases hfl : f.isLeft with
      | true =>
          rw [hfl] at hb
          subst hb
          exact ⟨f, fs, rfl, hfl.symm, rfl, f.value, w.cur, f.sibling,
            D.addS w.cur.subtreeSummary
              (D.addS (D.toSummary f.value) f.sibling.subtreeSummary),
            f.algData,
            by simp [remakeFrame, hfl, BasicTree.rebuild], by simp, by simp⟩
      | false =>
          rw [hfl] at hb
          subst hb
          exact ⟨f, fs, rfl, hfl.symm, rfl, f.value, f.sibling, w.cur,
            D.addS f.sibling.subtreeSummary
              (D.addS (D.toSummary f.value) w.cur.subtreeSummary),
            f.algData,
            by simp [remakeFrame, hfl, BasicTree.rebuild], by simp, by simp⟩

/-- `rot_side` on the walker succeeds whenever the current node has
identity pending and a real child on the raised side; the result keeps
the frames and is again a node with identity pending whose raised-side
child became a node. -/
theorem rotSideW_total {D : DataC} {B : Type} (hL : DataLaws D)
    {w : BasicWalker D B} {v : D.Value} {l r : BasicTree D B}
    {s : D.Summary} {q : B}
    (hc : w.cur = BasicTree.Root v l r s D.idA q) (bs : Bool)
    (hne : (if bs then r else l).isEmpty = false) :
    ∃ w', rotSideW id bs w = some w' ∧ w'.frames = w.frames ∧
      ∃ v2 l2 r2 s2 b2, w'.cur = BasicTree.Root v2 l2 r2 s2 D.idA b2 ∧
        (if bs then l2 else r2).isEmpty = false := by
  cases bs with
  | true =>
      have hne2 : r.isEmpty = false := by simpa using hne
      cases hr : r with
      | Empty => rw [hr] at hne2; exact absurd hne2 (by simp [BasicTree.isEmpty])
      | Root rv rl rr rs rp rb =>
          obtain ⟨v2, l2, r2, s2, b2, heq, hl2⟩ :=
            rotLeft_total hL (algOnly_id) v rv l rl rr rs s rp rb q
          refine ⟨{ w with cur := BasicTree.Root v2 l2 r2 s2 D.idA b2 }, ?_, rfl,
            v2, l2, r2, s2, b2, rfl, by simp [hl2]⟩
          simp [rotSideW, rotLeftW, hc, hr, heq]
  | false =>
      have hne2 : l.isEmpty = false := by simpa using hne
      cases hl : l with
      | Empty => rw [hl] at hne2; exact absurd hne2 (by simp [BasicTree.isEmpty])
      | Root lv ll lr ls lp lb =>
          obtain ⟨v2, l2, r2, s2, b2, heq, hr2⟩ :=
            rotRight_total hL (algOnly_id) v lv ll lr r ls s lp lb q
          refine ⟨{ w with cur := BasicTree.Root v2 l2 r2 s2 D.idA b2 }, ?_, rfl,
            v2, l2, r2, s2, b2, rfl, by simp [hr2]⟩
          simp [rotSideW, rotRightW, hc, hl, heq]

/-- `rot_side` when the raised child itself has identity pending: in
addition to `rotSideW_total`, the result's far-side child is empty
exactly when the raised child's far-side child was. -/
theorem rotSideW_struct {D : DataC} {B : Type} (hL : DataLaws D)
    {w : BasicWalker D B} {v : D.Value} {l r : BasicTree D B}
    {s : D.Summary} {q : B}
    (hc : w.cur = BasicTree.Root v l r s D.idA q) (bs : Bool)
    {u : D.Value} {c e : BasicTree D B} {g : D.Summary} {k : B}
    (hch : (if bs then r else l) = BasicTree.Root u c e g D.idA k) :
    ∃ w', rotSideW id bs w = some w' ∧ w'.frames = w.frames ∧
      ∃ v2 l2 r2 s2 b2, w'.cur = BasicTree.Root v2 l2 r2 s2 D.idA b2 ∧
        (if bs then r2 else l2).isEmpty = (if bs then e else c).isEmpty ∧
        (if bs then l2 else r2).isEmpty = false := by
  cases bs with
  | true =>
      have hch2 : r = BasicTree.Root u c e g D.idA k := by simpa using hch
      obtain ⟨v2, l2, r2, s2, b2, heq, hr2, hl2⟩ :=
        rotLeft_struct hL (algOnly_id) v u l c e g s k q
      refine ⟨{ w with cur := BasicTree.Root v2 l2 r2 s2 D.idA b2 }, ?_, rfl,
        v2, l2, r2, s2, b2, rfl, hr2, hl2⟩
      simp [rotSideW, rotLeftW, hc, hch2, heq]
  | false =>
      have hch2 : l = BasicTree.Root u c e g D.idA k := by simpa using hch
      obtain ⟨v2, l2, r2, s2, b2, heq, hl2, hr2⟩ :=
        rotRight_struct hL (algOnly_id) v u c e r g s k q
      refine ⟨{ w with cur := BasicTree.Root v2 l2 r2 s2 D.idA b2 }, ?_, rfl,
        v2, l2, r2, s2, b2, rfl, hl2, hr2⟩
      simp [rotSideW, rotRightW, hc, hch2, heq]

/-! ## The splay balancer (`src/trees/splay.rs`) -/

/-- `SplayWalker::splay_step_depth` (splay.rs 197-233): if already at the
target depth do nothing; at an empty position just go up (panicking if at
the root, which the guard makes unreachable); otherwise go up and do a
zig (one rotation) when that reaches the target depth, a zig-zig
(`rot_up` then `rot_side`) or zig-zag (`rot_side` then `rot_up`)
otherwise.  All splay rotations use the plain rebuilder (`aux = id`). -/
def splayStepDepth {D : DataC} {B : Type} (d : Nat) (w : BasicWalker D B) :
    Option (BasicWalker D B) :=
  if w.depth ≤ d then some w
  else if w.isEmpty then
    match goUp w with
    | none => none
    | some (_, w1) => some w1
  else
    match goUp w with
    | none => none
    | some (b1, w1) =>
        if w1.depth ≤ d then rotSideW id (!b1) w1
        else
          match isLeftSon w1 with
          | none => none
          | some b2 =>
              if b1 == b2 then
                match rotUpW id w1 with
                | none => none
                | some (_, w2) => rotSideW id (!b1) w2
              else
                match rotSideW id (!b1) w1 with
                | none => none
                | some w2 => (rotUpW id w2).map (fun p => p.2)

/-- The `while self.walker.depth() != depth` loop of
`SplayWalker::splay_to_depth` (splay.rs 251-253), with fuel. -/
def splayLoop {D : DataC} {B : Type} (d : Nat) :
    Nat → BasicWalker D B → Option (BasicWalker D B)
  | 0, w => if w.depth = d then some w else none
  | fuel+1, w =>
      if w.depth = d then some w
      else
        match splayStepDepth d w with
        | none => none
        | some w1 => splayLoop d fuel w1

/-- `SplayWalker::splay_to_depth` (splay.rs 249-254):
`assert!(self.depth() >= depth)` (modelled as `none` on violation), then
splay steps until the depth equals `d`.  The current depth bounds the
number of iterations. -/
def splayToDepth {D : DataC} {B : Type} (d : Nat) (w : BasicWalker D B) :
    Option (BasicWalker D B) :=
  if d ≤ w.depth then splayLoop d w.depth w else none

/-- `SplayWalker::splay` (splay.rs 242-244): `splay_to_depth(0)`. -/
def splayW {D : DataC} {B : Type} (w : BasicWalker D B) :
    Option (BasicWalker D B) :=
  splayToDepth 0 w

/-- The reattached parent produced by `go_up`, explicitly. -/
theorem remakeFrame_shape {D : DataC} {B : Type} (f : Frame D B)
    (t : BasicTree D B) :
    ∃ s2, remakeFrame f t =
      (if f.isLeft
        then BasicTree.Root f.value t f.sibling s2 D.idA f.algData
        else BasicTree.Root f.value f.sibling t s2 D.idA f.algData) := by
  cases hfl : f.isLeft with
  | true =>
      refine ⟨D.addS t.subtreeSummary
        (D.addS (D.toSummary f.value) f.sibling.subtreeSummary), ?_⟩
      simp [remakeFrame, hfl, BasicTree.rebuild]
  | false =>
      refine ⟨D.addS f.sibling.subtreeSummary
        (D.addS (D.toSummary f.value) t.subtreeSummary), ?_⟩
      simp [remakeFrame, hfl, BasicTree.rebuild]

/-- A single `splay_step_depth` call at depth strictly above the target
always succeeds, lands at or above the target depth, strictly decreases
the depth, and preserves the tree's sequence. -/
theorem splayStepDepth_spec {D : DataC} {B : Type} (hL : DataLaws D) (d : Nat)
    {w : BasicWalker D B} (hd : d < w.depth) :
    ∃ w', splayStepDepth d w = some w' ∧ d ≤ w'.depth ∧ w'.depth < w.depth ∧
      wSeq w' = wSeq w := by
  have hid : SeqPreserving (id : BasicTree D B → BasicTree D B) :=
    seqPreserving_of_algOnly algOnly_id
  cases hf : w.frames with
  | nil => rw [BasicWalker.depth, hf] at hd; simp at hd
  | cons f fs =>
      have hw1 : goUp w = some (f.isLeft,
          ⟨fs, remakeFrame f w.cur, f.leftCtx, f.rightCtx⟩) := by
        simp [goUp, hf]
      set w1 : BasicWalker D B :=
        ⟨fs, remakeFrame f w.cur, f.leftCtx, f.rightCtx⟩ with hw1def
      have hdep : w.depth = fs.length + 1 := by simp [BasicWalker.depth, hf]
      have hdep1 : w1.depth = fs.length := rfl
      have hup := goUp_spec hL hw1
      unfold splayStepDepth
      rw [if_neg (by omega)]
      cases hemp : w.isEmpty with
      | true =>
          rw [if_pos rfl, hw1]
          exact ⟨w1, rfl, by omega, by omega, hup.1⟩
      | false =>
          rw [if_neg (by simp), hw1]
          dsimp only
          obtain ⟨s2, hrm⟩ := remakeFrame_shape f w.cur
          by_cases hzig : w1.depth ≤ d
          · -- zig: one rotation, raising the child we came from
            rw [if_pos hzig]
            have hne : (if !f.isLeft
                then (if f.isLeft then f.sibling else w.cur)
                else (if f.isLeft then w.cur else f.sibling)).isEmpty = false := by
              cases hfl : f.isLeft <;> simpa [hfl] using hemp
            obtain ⟨w2, hrot, hfr2, _, _, _, _, _, _, _⟩ :=
              rotSideW_total hL (w := w1) (v := f.value)
                (l := if f.isLeft then w.cur else f.sibling)
                (r := if f.isLeft then f.sibling else w.cur)
                (s := s2) (q := f.algData)
                (by cases hfl : f.isLeft <;> simp [hfl] at hrm ⊢ <;> exact hrm)
                (!f.isLeft) hne
            refine ⟨w2, by rw [hrot], ?_, ?_, ?_⟩
            · have h2 : w2.depth = w1.depth := by simp [BasicWalker.depth, hfr2]
              omega
            · have h2 : w2.depth = w1.depth := by simp [BasicWalker.depth, hfr2]
              omega
            · exact ((rotSideW_spec hL hid hrot).1).trans hup.1
          · -- not a zig: a grandparent frame exists
            rw [if_neg hzig]
            cases hfs : fs with
            | nil =>
                rw [hfs] at hdep1
                simp [List.length] at hdep1
                omega
            | cons f2 fs2 =>
                have hson : isLeftSon w1 = some f2.isLeft := by
                  simp [isLeftSon, hw1def, hfs]
                rw [hson]
                dsimp only
                have hw2a : goUp w1 = some (f2.isLeft,
                    ⟨fs2, remakeFrame f2 w1.cur, f2.leftCtx, f2.rightCtx⟩) := by
                  simp [goUp, hw1def, hfs]
                set w2a : BasicWalker D B :=
                  ⟨fs2, remakeFrame f2 w1.cur, f2.leftCtx, f2.rightCtx⟩ with hw2adef
                have hup2 := goUp_spec hL hw2a
                obtain ⟨s3, hrm2⟩ := remakeFrame_shape f2 w1.cur
                by_cases hbb : f.isLeft = f2.isLeft
                · -- zig-zig
                  rw [if_pos (by simp [hbb])]
                  obtain ⟨w3, hrot1, hfr3, v3, l3, r3, s3b, b3, hcur3, hfar, _⟩ :=
                    rotSideW_struct hL (w := w2a) (v := f2.value)
                      (l := if f2.isLeft then w1.cur else f2.sibling)
                      (r := if f2.isLeft then f2.sibling else w1.cur)
                      (s := s3) (q := f2.algData)
                      (by cases hfl2 : f2.isLeft <;> simp [hfl2] at hrm2 ⊢ <;>
                        exact hrm2)
                      (!f2.isLeft)
                      (u := f.value)
                      (c := if f.isLeft then w.cur else f.sibling)
                      (e := if f.isLeft then f.sibling else w.cur)
                      (g := s2) (k := f.algData)
                      (by cases hfl2 : f2.isLeft <;>
                        cases hfl : f.isLeft <;>
                          rw [hfl, hfl2] at hbb <;> simp_all)
                  have hrua : rotUpW id w1 = some (f2.isLeft, w3) := by
                    unfold rotUpW
                    rw [hw2a]
                    dsimp only
                    rw [hrot1]
                    rfl
                  rw [hrua]
                  dsimp only
                  have hne3 : (if !f.isLeft then r3 else l3).isEmpty = false := by
                    have hbf : f.isLeft = f2.isLeft := hbb
                    cases hfl2 : f2.isLeft with
                    | false =>
                        rw [hfl2] at hbf
                        simp only [hfl2] at hfar
                        simp [hbf] at hfar ⊢
                        rw [hfar]
                        exact hemp
                    | true =>
                        rw [hfl2] at hbf
                        simp only [hfl2] at hfar
                        simp [hbf] at hfar ⊢
                        rw [hfar]
                        exact hemp
                  obtain ⟨w4, hrot2, hfr4, _, _, _, _, _, _, _⟩ :=
                    rotSideW_total hL (v := v3) (l := l3) (r := r3)
                      (s := s3b) (q := b3) hcur3 (!f.isLeft) hne3
                  refine ⟨w4, by rw [hrot2], ?_, ?_, ?_⟩
                  · have h4 : w4.depth = w3.depth := by
                      simp [BasicWalker.depth, hfr4]
                    have h3 : w3.depth = w2a.depth := by
                      simp [BasicWalker.depth, hfr3]
                    have h2a : w2a.depth = fs2.length := rfl
                    rw [hdep1, hfs] at hzig
                    simp at hzig
                    omega
                  · have h4 : w4.depth = w3.depth := by
                      simp [BasicWalker.depth, hfr4]
                    have h3 : w3.depth = w2a.depth := by
                      simp [BasicWalker.depth, hfr3]
                    have h2a : w2a.depth = fs2.length := rfl
                    have h5 : fs.length = fs2.length + 1 := by simp [hfs]
                    omega
                  · exact ((rotSideW_spec hL hid hrot2).1).trans
                      (((rotSideW_spec hL hid hrot1).1).trans
                        (hup2.1.trans hup.1))
                · -- zig-zag
                  rw [if_neg (by simpa using hbb)]
                  have hne : (if !f.isLeft
                      then (if f.isLeft then f.sibling else w.cur)
                      else (if f.isLeft then w.cur else f.sibling)).isEmpty
                        = false := by
                    cases hfl : f.isLeft <;> simpa [hfl] using hemp
                  obtain ⟨w3, hrot1, hfr3, v3, l3, r3, s3b, b3, hcur3, hnear⟩ :=
                    rotSideW_total hL (w := w1) (v := f.value)
                      (l := if f.isLeft then w.cur else f.sibling)
                      (r := if f.isLeft then f.sibling else w.cur)
                      (s := s2) (q := f.algData)
                      (by cases hfl : f.isLeft <;> simp [hfl] at hrm ⊢ <;>
                        exact hrm)
                      (!f.isLeft) hne
                  rw [hrot1]
                  dsimp only
                  have hw3fr : w3.frames = f2 :: fs2 := by rw [hfr3]; exact hfs
                  set w3a : BasicWalker D B :=
                    ⟨fs2, remakeFrame f2 w3.cur, f2.leftCtx, f2.rightCtx⟩ with hw3adef
                  have hw4a : goUp w3 = some (f2.isLeft, w3a) := by
                    simp [goUp, hw3fr, hw3adef]
                  obtain ⟨s4, hrm4⟩ := remakeFrame_shape f2 w3.cur
                  have hcw3 : w3.cur.isEmpty = false := by
                    rw [hcur3]; rfl
                  have hne4 : (if !f2.isLeft
                      then (if f2.isLeft then f2.sibling else w3.cur)
                      else (if f2.isLeft then w3.cur else f2.sibling)).isEmpty
                        = false := by
                    cases hfl2 : f2.isLeft <;> simpa [hfl2] using hcw3
                  obtain ⟨w4, hrot2, hfr4, _, _, _, _, _, _, _⟩ :=
                    rotSideW_total hL (w := w3a) (v := f2.value)
                      (l := if f2.isLeft then w3.cur else f2.sibling)
                      (r := if f2.isLeft then f2.sibling else w3.cur)
                      (s := s4) (q := f2.algData)
                      (by cases hfl2 : f2.isLeft <;> simp [hfl2] at hrm4 ⊢ <;>
                        exact hrm4)
                      (!f2.isLeft) hne4
                  have hrotup : rotUpW id w3 = some (f2.isLeft, w4) := by
                    unfold rotUpW
                    rw [hw4a]
                    dsimp only
                    rw [hrot2]
                    rfl
                  refine ⟨w4, by rw [hrotup]; rfl, ?_, ?_, ?_⟩
                  · have h4 : w4.depth = fs2.length := by
                      simp [BasicWalker.depth, hfr4, hw3adef]
                    rw [hdep1, hfs] at hzig
                    simp at hzig
                    omega
                  · have h4 : w4.depth = fs2.length := by
                      simp [BasicWalker.depth, hfr4, hw3adef]
                    have h5 : fs.length = fs2.length + 1 := by simp [hfs]
                    omega
                  · exact ((rotUpW_spec hL hid hrotup).1).trans
                      (((rotSideW_spec hL hid hrot1).1).trans hup.1)

/-- The splay loop reaches exactly the target depth when given at least
the current depth as fuel. -/
theorem splayLoop_spec {D : DataC} {B : Type} (hL : DataLaws D) (d : Nat) :
    ∀ fuel (w : BasicWalker D B), w.depth ≤ fuel → d ≤ w.depth →
      ∃ w', splayLoop d fuel w = some w' ∧ w'.depth = d ∧ wSeq w' = wSeq w := by
  intro fuel
  induction fuel with
  | zero =>
      intro w hf hd
      have h0 : w.depth = 0 := by omega
      have hdd : w.depth = d := by omega
      exact ⟨w, by simp [splayLoop, hdd], by omega, rfl⟩
  | succ n ih =>
      intro w hf hd
      by_cases he : w.depth = d
      · exact ⟨w, by simp [splayLoop, he], he, rfl⟩
      · have hlt : d < w.depth := by omega
        obtain ⟨w1, hs, h1, h2, h3⟩ := splayStepDepth_spec hL d hlt
        obtain ⟨w', hl, hd2, hseq⟩ := ih w1 (by omega) h1
        exact ⟨w', by simp [splayLoop, he, hs, hl], hd2, hseq.trans h3⟩

/-- `splay_to_depth(d)` succeeds whenever `d ≤ depth` (the source
`assert!`), lands at depth exactly `d`, and preserves the sequence. -/
theorem splayToDepth_spec {D : DataC} {B : Type} (hL : DataLaws D) {d : Nat}
    {w : BasicWalker D B} (hd : d ≤ w.depth) :
    ∃ w', splayToDepth d w = some w' ∧ w'.depth = d ∧ wSeq w' = wSeq w := by
  obtain ⟨w', h1, h2, h3⟩ := splayLoop_spec hL d w.depth w le_rfl hd
  exact ⟨w', by simp [splayToDepth, hd, h1], h2, h3⟩

/-- `SplayWalker::delete` (splay.rs 436-460).  `some none` is the `None`
return at an empty position; the outer `none` models a panic (a failed
`unwrap`/`assert!`).  In the non-trivial branch the in-order successor is
found with an inner walker over `node.right`; its right child is spliced
into its place, the inner walker is dropped (which splays its position to
the root of that subtree, splay.rs 452), and the successor node adopts
the deleted node's children and is rebuilt and put back. -/
def deleteSplay {D : DataC} (w : BasicWalker D Unit) :
    Option (Option (D.Value × BasicWalker D Unit)) :=
  match w.cur with
  | BasicTree.Empty => some none
  | BasicTree.Root v l r _ _ _ =>
      let w0 : BasicWalker D Unit := { w with cur := BasicTree.Empty }
      if r.isEmpty then
        some (some (v, putSubtree w0 l))
      else
        let iw := BasicWalker.new r
        let iw1 := goLeftAll (r.size + 1) iw
        match goUp iw1 with
        | none => none
        | some (false, _) => none
        | some (true, iw2) =>
            match iw2.cur with
            | BasicTree.Empty => none
            | BasicTree.Root mv ml mr ms mp mb =>
                if ml.isEmpty then
                  match splayW (putSubtree { iw2 with cur := BasicTree.Empty } mr) with
                  | none => none
                  | some iw4 =>
                      let repl := BasicTree.rebuild
                        (BasicTree.Root mv l (reassemble iw4) ms mp mb)
                      some (some (v, putSubtree w0 repl))
                else none

/-- `go_left` fails exactly at an empty position. -/
theorem goLeft_none_iff {D : DataC} {B : Type} (w : BasicWalker D B) :
    goLeft w = none ↔ w.cur = BasicTree.Empty := by
  unfold goLeft
  cases hc : w.cur with
  | Empty => simp [BasicTree.propagate]
  | Root v l r s a b =>
      constructor
      · intro h
        exact absurd h (by cases ha : D.toReverse a <;>
          simp [BasicTree.propagate, ha])
      · intro h
        exact absurd h (by simp)

/-- `go_right` fails exactly at an empty position. -/
theorem goRight_none_iff {D : DataC} {B : Type} (w : BasicWalker D B) :
    goRight w = none ↔ w.cur = BasicTree.Empty := by
  unfold goRight
  cases hc : w.cur with
  | Empty => simp [BasicTree.propagate]
  | Root v l r s a b =>
      constructor
      · intro h
        exact absurd h (by cases ha : D.toReverse a <;>
          simp [BasicTree.propagate, ha])
      · intro h
        exact absurd h (by simp)

theorem goLeft_frames {D : DataC} {B : Type} {w w' : BasicWalker D B}
    (h : goLeft w = some w') :
    (∃ fr, w'.frames = fr :: w.frames ∧ fr.isLeft = true) ∧
      w'.cur.size < w.cur.size := by
  unfold goLeft at h
  split at h
  · exact absurd h (by simp)
  · rename_i v l r s p b hp
    simp only [Option.some.injEq] at h
    subst h
    refine ⟨⟨_, rfl, rfl⟩, ?_⟩
    have h1 : l.size + r.size + 1 = w.cur.size := by
      have h2 := BasicTree.size_propagate w.cur
      rw [hp] at h2
      simpa [BasicTree.size] using h2
    rw [BasicTree.size_propagate]
    omega

theorem goRight_frames {D : DataC} {B : Type} {w w' : BasicWalker D B}
    (h : goRight w = some w') :
    (∃ fr, w'.frames = fr :: w.frames ∧ fr.isLeft = false) ∧
      w'.cur.size < w.cur.size := by
  unfold goRight at h
  split at h
  · exact absurd h (by simp)
  · rename_i v l r s p b hp
    simp only [Option.some.injEq] at h
    subst h
    refine ⟨⟨_, rfl, rfl⟩, ?_⟩
    have h1 : l.size + r.size + 1 = w.cur.size := by
      have h2 := BasicTree.size_propagate w.cur
      rw [hp] at h2
      simpa [BasicTree.size] using h2
    rw [BasicTree.size_propagate]
    omega

theorem framesBefore_all_left {D : DataC} {B : Type} {gs : List (Frame D B)}
    (h : ∀ f ∈ gs, f.isLeft = true) : framesBefore gs = [] := by
  induction gs with
  | nil => rfl
  | cons g gs ih =>
      rw [framesBefore, if_pos (h g (by simp))]
      exact ih fun f hf => h f (by simp [hf])

theorem framesAfter_all_right {D : DataC} {B : Type} {gs : List (Frame D B)}
    (h : ∀ f ∈ gs, f.isLeft = false) : framesAfter gs = [] := by
  induction gs with
  | nil => rfl
  | cons g gs ih =>
      rw [framesAfter, if_neg (by simp [h g (by simp)])]
      exact ih fun f hf => h f (by simp [hf])

/-- The `while go_left` loop with enough fuel ends at an empty position
below the starting subtree, having pushed only left-descent frames, and
preserves the sequence. -/
theorem goLeftAll_spec {D : DataC} {B : Type} (hL : DataLaws D) :
    ∀ (fuel : Nat) (w : BasicWalker D B), w.cur.size < fuel →
      (goLeftAll fuel w).cur = BasicTree.Empty ∧
      wSeq (goLeftAll fuel w) = wSeq w ∧
      ∃ gs, (goLeftAll fuel w).frames = gs ++ w.frames ∧
        ∀ f ∈ gs, f.isLeft = true := by
  intro fuel
  induction fuel with
  | zero => intro w h; omega
  | succ n ih =>
      intro w h
      rw [goLeftAll]
      cases hg : goLeft w with
      | none =>
          exact ⟨(goLeft_none_iff w).mp hg, rfl, [], by simp, by simp⟩
      | some w1 =>
          obtain ⟨⟨fr, hfr, hfl⟩, hsz⟩ := goLeft_frames hg
          obtain ⟨h1, h2, gs, hgs, hgsl⟩ := ih w1 (by omega)
          refine ⟨h1, h2.trans (goLeft_spec hL hg).1, gs ++ [fr], ?_, ?_⟩
          · rw [hgs, hfr]
            simp
          · intro f hf
            rcases List.mem_append.mp hf with hf | hf
            · exact hgsl f hf
            · simp at hf
              rw [hf]
              exact hfl

/-- The `while go_right` loop with enough fuel: symmetric. -/
theorem goRightAll_spec {D : DataC} {B : Type} (hL : DataLaws D) :
    ∀ (fuel : Nat) (w : BasicWalker D B), w.cur.size < fuel →
      (goRightAll fuel w).cur = BasicTree.Empty ∧
      wSeq (goRightAll fuel w) = wSeq w ∧
      ∃ gs, (goRightAll fuel w).frames = gs ++ w.frames ∧
        ∀ f ∈ gs, f.isLeft = false := by
  intro fuel
  induction fuel with
  | zero => intro w h; omega
  | succ n ih =>
      intro w h
      rw [goRightAll]
      cases hg : goRight w with
      | none =>
          exact ⟨(goRight_none_iff w).mp hg, rfl, [], by simp, by simp⟩
      | some w1 =>
          obtain ⟨⟨fr, hfr, hfl⟩, hsz⟩ := goRight_frames hg
          obtain ⟨h1, h2, gs, hgs, hgsl⟩ := ih w1 (by omega)
          refine ⟨h1, h2.trans (goRight_spec hL hg).1, gs ++ [fr], ?_, ?_⟩
          · rw [hgs, hfr]
            simp
          · intro f hf
            rcases List.mem_append.mp hf with hf | hf
            · exact hgsl f hf
            · simp at hf
              rw [hf]
              exact hfl

/-- Extracting the in-order successor: after walking to the leftmost
position of a non-empty subtree `r` with a fresh walker and going up
once, the walker stands at the first node of `r` (a node with empty left
child and identity pending, so the `assert!`s in `delete` hold), and
splicing its right child into its place leaves exactly the tail of
`r`'s sequence in the walker. -/
theorem successor_extract {D : DataC} {B : Type} (hL : DataLaws D)
    {r : BasicTree D B} (hr : r.isEmpty = false) :
    ∃ iw2 mv mr ms mb, goUp (goLeftAll (r.size + 1) (BasicWalker.new r)) =
        some (true, iw2) ∧
      iw2.cur = BasicTree.Root mv BasicTree.Empty mr ms D.idA mb ∧
      mv :: wSeq { iw2 with cur := mr } = r.seq := by
  have hsz : (BasicWalker.new r).cur.size < r.size + 1 := by
    simp [BasicWalker.new, BasicTree.size_propagate]
  obtain ⟨h1, h2, gs, hgs, hgsl⟩ := goLeftAll_spec hL (r.size + 1)
    (BasicWalker.new r) hsz
  set iw1 := goLeftAll (r.size + 1) (BasicWalker.new r) with hiw1
  have hw0 : wSeq (BasicWalker.new r) = r.seq := by
    unfold wSeq reassemble
    simp [BasicWalker.new, reassembleGo, BasicTree.seq_propagate hL]
  rw [hw0] at h2
  have hgs2 : iw1.frames = gs := by
    rw [hgs]
    simp [BasicWalker.new]
  cases hgse : gs with
  | nil =>
      exfalso
      rw [hgse] at hgs2
      rw [wSeq_eq hL, hgs2, h1] at h2
      simp [framesBefore, framesAfter, BasicTree.seq] at h2
      cases hrr : r with
      | Empty => rw [hrr] at hr; exact absurd hr (by simp [BasicTree.isEmpty])
      | Root rv rl rr rs rp rb =>
          rw [hrr] at h2
          exact BasicTree.seq_root_ne_nil rv rl rr rs rp rb h2
  | cons g gs2 =>
      rw [hgse] at hgs2 hgsl
      have hgu : goUp iw1 = some (g.isLeft,
          ⟨gs2, remakeFrame g iw1.cur, g.leftCtx, g.rightCtx⟩) := by
        simp [goUp, hgs2]
      have hgl : g.isLeft = true := hgsl g (by simp)
      rw [hgl] at hgu
      set iw2 : BasicWalker D B :=
        ⟨gs2, remakeFrame g iw1.cur, g.leftCtx, g.rightCtx⟩ with hiw2
      have hcur2 : iw2.cur = BasicTree.Root g.value BasicTree.Empty g.sibling
          (D.addS D.idS (D.addS (D.toSummary g.value) g.sibling.subtreeSummary))
          D.idA g.algData := by
        simp [hiw2, h1, remakeFrame, hgl, BasicTree.rebuild,
          BasicTree.subtreeSummary]
      have hup := goUp_spec hL hgu
      have hseq2 : wSeq iw2 = r.seq := hup.1.trans h2
      have hbg : framesBefore gs2 = [] :=
        framesBefore_all_left fun f hf => hgsl f (by simp [hf])
      refine ⟨iw2, g.value, g.sibling, _, g.algData, hgu, hcur2, ?_⟩
      have hrs : iw2.cur.seq = g.value :: g.sibling.seq := by
        rw [hcur2, BasicTree.seq, BasicTree.applyA_id hL]
        rfl
      have hfr2 : iw2.frames = gs2 := rfl
      rw [wSeq_eq hL, hfr2, hbg, hrs] at hseq2
      rw [wSeq_eq hL]
      rw [show ({ iw2 with cur := g.sibling } : BasicWalker D B).frames = gs2
        from rfl]
      rw [hbg]
      simpa using hseq2

/-- `SplayWalker::delete` at an occupied position with clean pending:
it succeeds, returns the stored value, and the tree's sequence afterwards
is the original sequence with exactly that element removed. -/
theorem deleteSplay_spec {D : DataC} (hL : DataLaws D) {w : BasicWalker D Unit}
    {v : D.Value} {l r : BasicTree D Unit} {s : D.Summary} {b : Unit}
    (hc : w.cur = BasicTree.Root v l r s D.idA b) :
    ∃ w2, deleteSplay w = some (some (v, w2)) ∧
      wSeq w2 = framesBefore w.frames ++ (l.seq ++ r.seq) ++
        framesAfter w.frames := by
  unfold deleteSplay
  rw [hc]
  dsimp only
  cases hre : r.isEmpty with
  | true =>
      rw [if_pos rfl]
      have hrr : r = BasicTree.Empty := (BasicTree.isEmpty_iff_eq_empty r).mp hre
      refine ⟨_, rfl, ?_⟩
      rw [wSeq_eq hL]
      simp [putSubtree, hrr, BasicTree.seq]
  | false =>
      rw [if_neg (by simp)]
      obtain ⟨iw2, mv, mr, ms, mb, hgu, hcur2, hsucc⟩ := successor_extract hL hre
      rw [hgu]
      dsimp only
      rw [hcur2]
      dsimp only
      simp only [BasicTree.isEmpty]
      rw [if_pos trivial]
      have hput : putSubtree { iw2 with cur := BasicTree.Empty } mr =
          { iw2 with cur := mr } := rfl
      rw [hput]
      obtain ⟨iw4, hsp, hdep4, hseq4⟩ :=
        splayToDepth_spec hL (Nat.zero_le ({ iw2 with cur := mr } : BasicWalker D Unit).depth)
      rw [show splayW { iw2 with cur := mr } = splayToDepth 0 { iw2 with cur := mr } from rfl]
      rw [hsp]
      dsimp only
      refine ⟨_, rfl, ?_⟩
      have hfr4 : iw4.frames = [] := by
        have := hdep4
        rw [BasicWalker.depth] at this
        exact List.length_eq_zero.mp this
      have hre4 : reassemble iw4 = iw4.cur := by
        unfold reassemble
        rw [hfr4]
        rfl
      have hseqr : (reassemble iw4).seq = wSeq { iw2 with cur := mr } := by
        rw [← hseq4]
        rfl
      rw [wSeq_eq hL]
      simp only [putSubtree]
      rw [BasicTree.seq_rebuild]
      have hfin : (BasicTree.Root mv l (reassemble iw4) ms D.idA mb).seq =
          l.seq ++ r.seq := by
        rw [BasicTree.seq]
        rw [BasicTree.applyA_id hL]
        rw [hseqr, ← hsucc]
      rw [hfin]

/-! ### Explicit forms of the splay rotations

Used to track how a splay step redistributes the sequence around the
splayed node (needed for the split/concatenate proofs). -/

theorem toRev_comp_id {D : DataC} (hL : DataLaws D) {a : D.Action}
    (h : D.toReverse a = false) : D.toReverse (D.comp D.idA a) = false := by
  rw [hL.compRev, hL.idRev, h]
  rfl

theorem actV_comp_id {D : DataC} (hL : DataLaws D) {a : D.Action}
    (h : ∀ x, D.actV a x = x) : ∀ x, D.actV (D.comp D.idA a) x = x := by
  intro x
  rw [hL.compActV, h, hL.idActV]

theorem applyA_of_id {D : DataC} {a : D.Action}
    (hrev : D.toReverse a = false) (h : ∀ x, D.actV a x = x)
    (xs : List D.Value) : BasicTree.applyA a xs = xs := by
  simp [BasicTree.applyA, hrev, funext h]

/-- The exact result of `rot_right` (plain rebuilder) on a node with
identity pending whose left child has a non-reversing pending. -/
theorem rotRight_eq {D : DataC} {B : Type} (hL : DataLaws D)
    (v u : D.Value) (c e r : BasicTree D B) (g s : D.Summary)
    (p : D.Action) (k b : B) (hrev : D.toReverse p = false) :
    ∃ s2 s3, BasicTree.rotRight id
        (BasicTree.Root v (BasicTree.Root u c e g p k) r s D.idA b)
      = some (BasicTree.Root (D.actV (D.comp D.idA p) u)
          (BasicTree.actTree (D.comp D.idA p) c)
          (BasicTree.Root (D.actV D.idA v)
            (BasicTree.actTree (D.comp D.idA p) e)
            (BasicTree.actTree D.idA r) s2 D.idA b)
          s3 D.idA k) := by
  have hrevc : D.toReverse (D.comp D.idA p) = false := toRev_comp_id hL hrev
  simp only [BasicTree.rotRight, BasicTree.propagate, hL.idRev,
    Bool.false_eq_true, if_false, BasicTree.actTree, hrevc, BasicTree.rebuild,
    id_eq]
  exact ⟨_, _, rfl⟩

/-- The exact result of `rot_left` (plain rebuilder) on a node with
identity pending whose right child has a non-reversing pending. -/
theorem rotLeft_eq {D : DataC} {B : Type} (hL : DataLaws D)
    (v u : D.Value) (l c e : BasicTree D B) (g s : D.Summary)
    (p : D.Action) (k b : B) (hrev : D.toReverse p = false) :
    ∃ s2 s3, BasicTree.rotLeft id
        (BasicTree.Root v l (BasicTree.Root u c e g p k) s D.idA b)
      = some (BasicTree.Root (D.actV (D.comp D.idA p) u)
          (BasicTree.Root (D.actV D.idA v)
            (BasicTree.actTree D.idA l)
            (BasicTree.actTree (D.comp D.idA p) c) s2 D.idA b)
          (BasicTree.actTree (D.comp D.idA p) e)
          s3 D.idA k) := by
  have hrevc : D.toReverse (D.comp D.idA p) = false := toRev_comp_id hL hrev
  simp only [BasicTree.rotLeft, BasicTree.propagate, hL.idRev,
    Bool.false_eq_true, if_false, BasicTree.actTree, hrevc, BasicTree.rebuild,
    id_eq]
  exact ⟨_, _, rfl⟩

/-- A single splay step from an occupied position with identity pending
keeps the current node's value at the root of the current subtree (again
with identity pending) and preserves both the sequence of elements lying
before the current node and the sequence of elements lying after it. -/
theorem splayStepDepth_parts {D : DataC} {B : Type} (hL : DataLaws D) (d : Nat)
    {w : BasicWalker D B} (hd : d < w.depth)
    {v : D.Value} {l r : BasicTree D B} {s : D.Summary} {b : B}
    (hc : w.cur = BasicTree.Root v l r s D.idA b) :
    ∃ w2 l2 r2 s2 b2, splayStepDepth d w = some w2 ∧
      w2.cur = BasicTree.Root v l2 r2 s2 D.idA b2 ∧
      framesBefore w2.frames ++ l2.seq = framesBefore w.frames ++ l.seq ∧
      r2.seq ++ framesAfter w2.frames = r.seq ++ framesAfter w.frames ∧
      d ≤ w2.depth ∧ w2.depth < w.depth := by
  have hid1 : ∀ x : D.Value, D.actV D.idA x = x := hL.idActV
  have hcc : ∀ x : D.Value, D.actV (D.comp D.idA D.idA) x = x := fun x => by
    rw [hL.compActV, hL.idActV, hL.idActV]
  have hc3 : ∀ x : D.Value,
      D.actV (D.comp D.idA (D.comp (D.comp D.idA D.idA) D.idA)) x = x := fun x => by
    simp [hL.compActV, hL.idActV]
  have hrev1 : D.toReverse (D.comp (D.comp D.idA D.idA) D.idA) = false := by
    simp [hL.compRev, hL.idRev]
  cases hf : w.frames with
  | nil => rw [BasicWalker.depth, hf] at hd; simp at hd
  | cons f fs =>
      have hw1 : goUp w = some (f.isLeft,
          ⟨fs, remakeFrame f w.cur, f.leftCtx, f.rightCtx⟩) := by
        simp [goUp, hf]
      set w1 : BasicWalker D B :=
        ⟨fs, remakeFrame f w.cur, f.leftCtx, f.rightCtx⟩ with hw1def
      have hdep : w.depth = fs.length + 1 := by simp [BasicWalker.depth, hf]
      have hdep1 : w1.depth = fs.length := rfl
      have hemp : w.isEmpty = false := by
        rw [BasicWalker.isEmpty, hc]; rfl
      unfold splayStepDepth
      rw [if_neg (by omega), if_neg (by simp [hemp]), hw1]
      dsimp only
      obtain ⟨S2, hrm⟩ := remakeFrame_shape f w.cur
      by_cases hzig : w1.depth ≤ d
      · -- zig: a single rotation raising the current node
        rw [if_pos hzig]
        rw [hdep1] at hzig
        cases hfl : f.isLeft with
        | true =>
            rw [if_pos hfl] at hrm
            rw [hc] at hrm
            have hw1c : w1.cur = BasicTree.Root f.value
                (BasicTree.Root v l r s D.idA b) f.sibling S2 D.idA f.algData := by
              rw [show w1.cur = remakeFrame f w.cur from rfl, hc]
              exact hrm
            obtain ⟨t2, t3, heq⟩ := rotRight_eq hL f.value v l r
              f.sibling s S2 D.idA b f.algData hL.idRev
            rw [hcc, hid1] at heq
            refine ⟨⟨fs, BasicTree.Root v
                (BasicTree.actTree (D.comp D.idA D.idA) l)
                (BasicTree.Root f.value
                  (BasicTree.actTree (D.comp D.idA D.idA) r)
                  (BasicTree.actTree D.idA f.sibling) t2 D.idA f.algData)
                t3 D.idA b, f.leftCtx, f.rightCtx⟩,
              _, _, _, _, ?_, rfl, ?_, ?_, ?_, ?_⟩
            · show rotRightW id w1 = _
              unfold rotRightW
              rw [hw1c, heq]
              rfl
            · simp [hf, framesBefore, hfl, BasicTree.seq_actTree hL,
                BasicTree.applyA_comp hL, BasicTree.applyA_id hL]
            · simp [hf, framesAfter, hfl, BasicTree.seq,
                BasicTree.seq_actTree hL, BasicTree.applyA_comp hL,
                BasicTree.applyA_id hL]
            · show d ≤ fs.length
              omega
            · show fs.length < w.depth
              omega
        | false =>
            rw [if_neg (by simp [hfl])] at hrm
            rw [hc] at hrm
            have hw1c : w1.cur = BasicTree.Root f.value f.sibling
                (BasicTree.Root v l r s D.idA b) S2 D.idA f.algData := by
              rw [show w1.cur = remakeFrame f w.cur from rfl, hc]
              exact hrm
            obtain ⟨t2, t3, heq⟩ := rotLeft_eq hL f.value v f.sibling l r
              s S2 D.idA b f.algData hL.idRev
            rw [hcc, hid1] at heq
            refine ⟨⟨fs, BasicTree.Root v
                (BasicTree.Root f.value
                  (BasicTree.actTree D.idA f.sibling)
                  (BasicTree.actTree (D.comp D.idA D.idA) l) t2 D.idA f.algData)
                (BasicTree.actTree (D.comp D.idA D.idA) r)
                t3 D.idA b, f.leftCtx, f.rightCtx⟩,
              _, _, _, _, ?_, rfl, ?_, ?_, ?_, ?_⟩
            · show rotLeftW id w1 = _
              unfold rotLeftW
              rw [hw1c, heq]
              rfl
            · simp [hf, framesBefore, hfl, BasicTree.seq,
                BasicTree.seq_actTree hL, BasicTree.applyA_comp hL,
                BasicTree.applyA_id hL]
            · simp [hf, framesAfter, hfl, BasicTree.seq_actTree hL,
                BasicTree.applyA_comp hL, BasicTree.applyA_id hL]
            · show d ≤ fs.length
              omega
            · show fs.length < w.depth
              omega
      · rw [if_neg hzig]
        rw [hdep1] at hzig
        cases hfs : fs with
        | nil =>
            rw [hfs] at hzig
            simp at hzig
        | cons f2 fs2 =>
            have hson : isLeftSon w1 = some f2.isLeft := by
              simp [isLeftSon, hw1def, hfs]
            rw [hson]
            dsimp only
            have hlen2 : fs.length = fs2.length + 1 := by rw [hfs]; rfl
            by_cases hbb : f.isLeft = f2.isLeft
            · -- zig-zig
              rw [if_pos (by simp [hbb])]
              have hw2a : goUp w1 = some (f2.isLeft,
                  ⟨fs2, remakeFrame f2 w1.cur, f2.leftCtx, f2.rightCtx⟩) := by
                simp [goUp, hw1def, hfs]
              obtain ⟨S3, hrm2⟩ := remakeFrame_shape f2 w1.cur
              cases hfl : f.isLeft with
              | true =>
                  have hfl2 : f2.isLeft = true := hbb ▸ hfl
                  rw [if_pos hfl] at hrm
                  rw [hc] at hrm
                  have hw1c : w1.cur = BasicTree.Root f.value
                      (BasicTree.Root v l r s D.idA b) f.sibling S2 D.idA
                      f.algData := by
                    rw [show w1.cur = remakeFrame f w.cur from rfl, hc]
                    exact hrm
                  rw [if_pos hfl2, hw1c] at hrm2
                  obtain ⟨t2, t3, heq1⟩ := rotRight_eq hL f2.value f.value
                    (BasicTree.Root v l r s D.idA b) f.sibling f2.sibling
                    S2 S3 D.idA f.algData f2.algData hL.idRev
                  rw [hcc, hid1] at heq1
                  rw [show BasicTree.actTree (D.comp D.idA D.idA)
                        (BasicTree.Root v l r s D.idA b)
                      = BasicTree.Root v l r
                          (D.actS (D.comp D.idA D.idA) s)
                          (D.comp (D.comp D.idA D.idA) D.idA) b from rfl] at heq1
                  have hrua : rotUpW id w1 = some (f2.isLeft,
                      ⟨fs2, BasicTree.Root f.value
                        (BasicTree.Root v l r
                          (D.actS (D.comp D.idA D.idA) s)
                          (D.comp (D.comp D.idA D.idA) D.idA) b)
                        (BasicTree.Root f2.value
                          (BasicTree.actTree (D.comp D.idA D.idA) f.sibling)
                          (BasicTree.actTree D.idA f2.sibling) t2 D.idA
                          f2.algData)
                        t3 D.idA f.algData, f2.leftCtx, f2.rightCtx⟩) := by
                    unfold rotUpW
                    rw [hw2a]
                    dsimp only
                    rw [show rotSideW id (!f2.isLeft)
                        (⟨fs2, remakeFrame f2 w1.cur, f2.leftCtx, f2.rightCtx⟩ :
                          BasicWalker D B)
                      = rotRightW id
                        ⟨fs2, remakeFrame f2 w1.cur, f2.leftCtx, f2.rightCtx⟩ from by
                      rw [hfl2]; rfl]
                    unfold rotRightW
                    rw [show (⟨fs2, remakeFrame f2 w1.cur, f2.leftCtx,
                          f2.rightCtx⟩ : BasicWalker D B).cur
                        = remakeFrame f2 w1.cur from rfl, hw1c, hrm2, heq1]
                    rfl
                  rw [hrua]
                  dsimp only
                  obtain ⟨t4, t5, heq2⟩ := rotRight_eq hL f.value v l r
                    (BasicTree.Root f2.value
                      (BasicTree.actTree (D.comp D.idA D.idA) f.sibling)
                      (BasicTree.actTree D.idA f2.sibling) t2 D.idA f2.algData)
                    (D.actS (D.comp D.idA D.idA) s) t3
                    (D.comp (D.comp D.idA D.idA) D.idA) b f.algData hrev1
                  rw [hc3, hid1] at heq2
                  refine ⟨⟨fs2, BasicTree.Root v
                      (BasicTree.actTree
                        (D.comp D.idA (D.comp (D.comp D.idA D.idA) D.idA)) l)
                      (BasicTree.Root f.value
                        (BasicTree.actTree
                          (D.comp D.idA (D.comp (D.comp D.idA D.idA) D.idA)) r)
                        (BasicTree.actTree D.idA
                          (BasicTree.Root f2.value
                            (BasicTree.actTree (D.comp D.idA D.idA) f.sibling)
                            (BasicTree.actTree D.idA f2.sibling) t2 D.idA
                            f2.algData))
                        t4 D.idA f.algData)
                      t5 D.idA b, f2.leftCtx, f2.rightCtx⟩,
                    _, _, _, _, ?_, rfl, ?_, ?_, ?_, ?_⟩
                  · show rotRightW id
                        (⟨fs2, BasicTree.Root f.value
                          (BasicTree.Root v l r
                            (D.actS (D.comp D.idA D.idA) s)
                            (D.comp (D.comp D.idA D.idA) D.idA) b)
                          (BasicTree.Root f2.value
                            (BasicTree.actTree (D.comp D.idA D.idA) f.sibling)
                            (BasicTree.actTree D.idA f2.sibling) t2 D.idA
                            f2.algData)
                          t3 D.idA f.algData, f2.leftCtx, f2.rightCtx⟩ :
                          BasicWalker D B) = _
                    unfold rotRightW
                    rw [show (⟨fs2, BasicTree.Root f.value
                          (BasicTree.Root v l r
                            (D.actS (D.comp D.idA D.idA) s)
                            (D.comp (D.comp D.idA D.idA) D.idA) b)
                          (BasicTree.Root f2.value
                            (BasicTree.actTree (D.comp D.idA D.idA) f.sibling)
                            (BasicTree.actTree D.idA f2.sibling) t2 D.idA
                            f2.algData)
                          t3 D.idA f.algData, f2.leftCtx, f2.rightCtx⟩ :
                          BasicWalker D B).cur
                        = BasicTree.Root f.value
                          (BasicTree.Root v l r
                            (D.actS (D.comp D.idA D.idA) s)
                            (D.comp (D.comp D.idA D.idA) D.idA) b)
                          (BasicTree.Root f2.value
                            (BasicTree.actTree (D.comp D.idA D.idA) f.sibling)
                            (BasicTree.actTree D.idA f2.sibling) t2 D.idA
                            f2.algData)
                          t3 D.idA f.algData from rfl, heq2]
                    rfl
                  · simp [hf, hfs, framesBefore, hfl, hfl2,
                      BasicTree.seq_actTree hL, BasicTree.applyA_comp hL,
                      BasicTree.applyA_id hL]
                  · simp [hf, hfs, framesAfter, hfl, hfl2, BasicTree.seq,
                      BasicTree.seq_actTree hL, BasicTree.applyA_comp hL,
                      BasicTree.applyA_id hL]
                  · show d ≤ fs2.length
                    omega
                  · show fs2.length < w.depth
                    omega
              | false =>
                  have hfl2 : f2.isLeft = false := hbb ▸ hfl
                  rw [if_neg (by simp [hfl])] at hrm
                  rw [hc] at hrm
                  have hw1c : w1.cur = BasicTree.Root f.value f.sibling
                      (BasicTree.Root v l r s D.idA b) S2 D.idA
                      f.algData := by
                    rw [show w1.cur = remakeFrame f w.cur from rfl, hc]
                    exact hrm
                  rw [if_neg (by simp [hfl2]), hw1c] at hrm2
                  obtain ⟨t2, t3, heq1⟩ := rotLeft_eq hL f2.value f.value
                    f2.sibling f.sibling (BasicTree.Root v l r s D.idA b)
                    S2 S3 D.idA f.algData f2.algData hL.idRev
                  rw [hcc, hid1] at heq1
                  rw [show BasicTree.actTree (D.comp D.idA D.idA)
                        (BasicTree.Root v l r s D.idA b)
                      = BasicTree.Root v l r
                          (D.actS (D.comp D.idA D.idA) s)
                          (D.comp (D.comp D.idA D.idA) D.idA) b from rfl] at heq1
                  have hrua : rotUpW id w1 = some (f2.isLeft,
                      ⟨fs2, BasicTree.Root f.value
                        (BasicTree.Root f2.value
                          (BasicTree.actTree D.idA f2.sibling)
                          (BasicTree.actTree (D.comp D.idA D.idA) f.sibling)
                          t2 D.idA f2.algData)
                        (BasicTree.Root v l r
                          (D.actS (D.comp D.idA D.idA) s)
                          (D.comp (D.comp D.idA D.idA) D.idA) b)
                        t3 D.idA f.algData, f2.leftCtx, f2.rightCtx⟩) := by
                    unfold rotUpW
                    rw [hw2a]
                    dsimp only
                    rw [show rotSideW id (!f2.isLeft)
                        (⟨fs2, remakeFrame f2 w1.cur, f2.leftCtx, f2.rightCtx⟩ :
                          BasicWalker D B)
                      = rotLeftW id
                        ⟨fs2, remakeFrame f2 w1.cur, f2.leftCtx, f2.rightCtx⟩ from by
                      rw [hfl2]; rfl]
                    unfold rotLeftW
                    rw [show (⟨fs2, remakeFrame f2 w1.cur, f2.leftCtx,
                          f2.rightCtx⟩ : BasicWalker D B).cur
                        = remakeFrame f2 w1.cur from rfl, hw1c, hrm2, heq1]
                    rfl
                  rw [hrua]
                  dsimp only
                  obtain ⟨t4, t5, heq2⟩ := rotLeft_eq hL f.value v
                    (BasicTree.Root f2.value
                      (BasicTree.actTree D.idA f2.sibling)
                      (BasicTree.actTree (D.comp D.idA D.idA) f.sibling)
                      t2 D.idA f2.algData)
                    l r (D.actS (D.comp D.idA D.idA) s) t3
                    (D.comp (D.comp D.idA D.idA) D.idA) b f.algData hrev1
                  rw [hc3, hid1] at heq2
                  refine ⟨⟨fs2, BasicTree.Root v
                      (BasicTree.Root f.value
                        (BasicTree.actTree D.idA
                          (BasicTree.Root f2.value
                            (BasicTree.actTree D.idA f2.sibling)
                            (BasicTree.actTree (D.comp D.idA D.idA) f.sibling)
                            t2 D.idA f2.algData))
                        (BasicTree.actTree
                          (D.comp D.idA (D.comp (D.comp D.idA D.idA) D.idA)) l)
                        t4 D.idA f.algData)
                      (BasicTree.actTree
                        (D.comp D.idA (D.comp (D.comp D.idA D.idA) D.idA)) r)
                      t5 D.idA b, f2.leftCtx, f2.rightCtx⟩,
                    _, _, _, _, ?_, rfl, ?_, ?_, ?_, ?_⟩
                  · show rotLeftW id
                        (⟨fs2, BasicTree.Root f.value
                          (BasicTree.Root f2.value
                            (BasicTree.actTree D.idA f2.sibling)
                            (BasicTree.actTree (D.comp D.idA D.idA) f.sibling)
                            t2 D.idA f2.algData)
                          (BasicTree.Root v l r
                            (D.actS (D.comp D.idA D.idA) s)
                            (D.comp (D.comp D.idA D.idA) D.idA) b)
                          t3 D.idA f.algData, f2.leftCtx, f2.rightCtx⟩ :
                          BasicWalker D B) = _
                    unfold rotLeftW
                    rw [show (⟨fs2, BasicTree.Root f.value
                          (BasicTree.Root f2.value
                            (BasicTree.actTree D.idA f2.sibling)
                            (BasicTree.actTree (D.comp D.idA D.idA) f.sibling)
                            t2 D.idA f2.algData)
                          (BasicTree.Root v l r
                            (D.actS (D.comp D.idA D.idA) s)
                            (D.comp (D.comp D.idA D.idA) D.idA) b)
                          t3 D.idA f.algData, f2.leftCtx, f2.rightCtx⟩ :
                          BasicWalker D B).cur
                        = BasicTree.Root f.value
                          (BasicTree.Root f2.value
                            (BasicTree.actTree D.idA f2.sibling)
                            (BasicTree.actTree (D.comp D.idA D.idA) f.sibling)
                            t2 D.idA f2.algData)
                          (BasicTree.Root v l r
                            (D.actS (D.comp D.idA D.idA) s)
                            (D.comp (D.comp D.idA D.idA) D.idA) b)
                          t3 D.idA f.algData from rfl, heq2]
                    rfl
                  · simp [hf, hfs, framesBefore, hfl, hfl2, BasicTree.seq,
                      BasicTree.seq_actTree hL, BasicTree.applyA_comp hL,
                      BasicTree.applyA_id hL]
                  · simp [hf, hfs, framesAfter, hfl, hfl2,
                      BasicTree.seq_actTree hL, BasicTree.applyA_comp hL,
                      BasicTree.applyA_id hL]
                  · show d ≤ fs2.length
                    omega
                  · show fs2.length < w.depth
                    omega
            · -- zig-zag
              rw [if_neg (by simpa using hbb)]
              cases hfl : f.isLeft with
              | true =>
                  have hfl2 : f2.isLeft = false := by
                    cases h2 : f2.isLeft with
                    | false => rfl
                    | true => exact absurd (hfl.trans h2.symm) hbb
                  rw [if_pos hfl] at hrm
                  rw [hc] at hrm
                  have hw1c : w1.cur = BasicTree.Root f.value
                      (BasicTree.Root v l r s D.idA b) f.sibling S2 D.idA
                      f.algData := by
                    rw [show w1.cur = remakeFrame f w.cur from rfl, hc]
                    exact hrm
                  obtain ⟨t2, t3, heqA⟩ := rotRight_eq hL f.value v l r
                    f.sibling s S2 D.idA b f.algData hL.idRev
                  rw [hcc, hid1] at heqA
                  have hrotA : rotSideW id (!true) w1 = some
                      (⟨fs, BasicTree.Root v
                        (BasicTree.actTree (D.comp D.idA D.idA) l)
                        (BasicTree.Root f.value
                          (BasicTree.actTree (D.comp D.idA D.idA) r)
                          (BasicTree.actTree D.idA f.sibling) t2 D.idA
                          f.algData)
                        t3 D.idA b, f.leftCtx, f.rightCtx⟩ : BasicWalker D B) := by
                    show rotRightW id w1 = _
                    unfold rotRightW
                    rw [hw1c, heqA]
                    rfl
                  rw [hrotA]
                  dsimp only
                  have hw3a : goUp (⟨fs, BasicTree.Root v
                        (BasicTree.actTree (D.comp D.idA D.idA) l)
                        (BasicTree.Root f.value
                          (BasicTree.actTree (D.comp D.idA D.idA) r)
                          (BasicTree.actTree D.idA f.sibling) t2 D.idA
                          f.algData)
                        t3 D.idA b, f.leftCtx, f.rightCtx⟩ : BasicWalker D B)
                      = some (f2.isLeft, ⟨fs2, remakeFrame f2
                        (BasicTree.Root v
                          (BasicTree.actTree (D.comp D.idA D.idA) l)
                          (BasicTree.Root f.value
                            (BasicTree.actTree (D.comp D.idA D.idA) r)
                            (BasicTree.actTree D.idA f.sibling) t2 D.idA
                            f.algData)
                          t3 D.idA b), f2.leftCtx, f2.rightCtx⟩) := by
                    simp [goUp, hfs]
                  obtain ⟨S4, hrm3⟩ := remakeFrame_shape f2
                    (BasicTree.Root v
                      (BasicTree.actTree (D.comp D.idA D.idA) l)
                      (BasicTree.Root f.value
                        (BasicTree.actTree (D.comp D.idA D.idA) r)
                        (BasicTree.actTree D.idA f.sibling) t2 D.idA
                        f.algData)
                      t3 D.idA b)
                  rw [if_neg (by simp [hfl2])] at hrm3
                  obtain ⟨t4, t5, heqB⟩ := rotLeft_eq hL f2.value v
                    f2.sibling
                    (BasicTree.actTree (D.comp D.idA D.idA) l)
                    (BasicTree.Root f.value
                      (BasicTree.actTree (D.comp D.idA D.idA) r)
                      (BasicTree.actTree D.idA f.sibling) t2 D.idA f.algData)
                    t3 S4 D.idA b f2.algData hL.idRev
                  rw [hcc, hid1] at heqB
                  have hrotB : rotUpW id (⟨fs, BasicTree.Root v
                        (BasicTree.actTree (D.comp D.idA D.idA) l)
                        (BasicTree.Root f.value
                          (BasicTree.actTree (D.comp D.idA D.idA) r)
                          (BasicTree.actTree D.idA f.sibling) t2 D.idA
                          f.algData)
                        t3 D.idA b, f.leftCtx, f.rightCtx⟩ : BasicWalker D B)
                      = some (f2.isLeft,
                        ⟨fs2, BasicTree.Root v
                          (BasicTree.Root f2.value
                            (BasicTree.actTree D.idA f2.sibling)
                            (BasicTree.actTree (D.comp D.idA D.idA)
                              (BasicTree.actTree (D.comp D.idA D.idA) l))
                            t4 D.idA f2.algData)
                          (BasicTree.actTree (D.comp D.idA D.idA)
                            (BasicTree.Root f.value
                              (BasicTree.actTree (D.comp D.idA D.idA) r)
                              (BasicTree.actTree D.idA f.sibling) t2 D.idA
                              f.algData))
                          t5 D.idA b, f2.leftCtx, f2.rightCtx⟩) := by
                    unfold rotUpW
                    rw [hw3a]
                    dsimp only
                    rw [show rotSideW id (!f2.isLeft)
                        (⟨fs2, remakeFrame f2
                          (BasicTree.Root v
                            (BasicTree.actTree (D.comp D.idA D.idA) l)
                            (BasicTree.Root f.value
                              (BasicTree.actTree (D.comp D.idA D.idA) r)
                              (BasicTree.actTree D.idA f.sibling) t2 D.idA
                              f.algData)
                            t3 D.idA b), f2.leftCtx, f2.rightCtx⟩ :
                          BasicWalker D B)
                      = rotLeftW id
                        ⟨fs2, remakeFrame f2
                          (BasicTree.Root v
                            (BasicTree.actTree (D.comp D.idA D.idA) l)
                            (BasicTree.Root f.value
                              (BasicTree.actTree (D.comp D.idA D.idA) r)
                              (BasicTree.actTree D.idA f.sibling) t2 D.idA
                              f.algData)
                            t3 D.idA b), f2.leftCtx, f2.rightCtx⟩ from by
                      rw [hfl2]; rfl]
                    unfold rotLeftW
                    rw [show (⟨fs2, remakeFrame f2
                          (BasicTree.Root v
                            (BasicTree.actTree (D.comp D.idA D.idA) l)
                            (BasicTree.Root f.value
                              (BasicTree.actTree (D.comp D.idA D.idA) r)
                              (BasicTree.actTree D.idA f.sibling) t2 D.idA
                              f.algData)
                            t3 D.idA b), f2.leftCtx, f2.rightCtx⟩ :
                          BasicWalker D B).cur
                        = remakeFrame f2
                          (BasicTree.Root v
                            (BasicTree.actTree (D.comp D.idA D.idA) l)
                            (BasicTree.Root f.value
                              (BasicTree.actTree (D.comp D.idA D.idA) r)
                              (BasicTree.actTree D.idA f.sibling) t2 D.idA
                              f.algData)
                            t3 D.idA b) from rfl, hrm3, heqB]
                    rfl
                  refine ⟨⟨fs2, BasicTree.Root v
                      (BasicTree.Root f2.value
                        (BasicTree.actTree D.idA f2.sibling)
                        (BasicTree.actTree (D.comp D.idA D.idA)
                          (BasicTree.actTree (D.comp D.idA D.idA) l))
                        t4 D.idA f2.algData)
                      (BasicTree.actTree (D.comp D.idA D.idA)
                        (BasicTree.Root f.value
                          (BasicTree.actTree (D.comp D.idA D.idA) r)
                          (BasicTree.actTree D.idA f.sibling) t2 D.idA
                          f.algData))
                      t5 D.idA b, f2.leftCtx, f2.rightCtx⟩,
                    _, _, _, _, ?_, rfl, ?_, ?_, ?_, ?_⟩
                  · rw [hrotB]
                    rfl
                  · simp [hf, hfs, framesBefore, hfl, hfl2, BasicTree.seq,
                      BasicTree.seq_actTree hL, BasicTree.applyA_comp hL,
                      BasicTree.applyA_id hL]
                  · simp [hf, hfs, framesAfter, hfl, hfl2, BasicTree.seq,
                      BasicTree.seq_actTree hL, BasicTree.applyA_comp hL,
                      BasicTree.applyA_id hL]
                  · show d ≤ fs2.length
                    omega
                  · show fs2.length < w.depth
                    omega
              | false =>
                  have hfl2 : f2.isLeft = true := by
                    cases h2 : f2.isLeft with
                    | true => rfl
                    | false => exact absurd (hfl.trans h2.symm) hbb
                  rw [if_neg (by simp [hfl])] at hrm
                  rw [hc] at hrm
                  have hw1c : w1.cur = BasicTree.Root f.value f.sibling
                      (BasicTree.Root v l r s D.idA b) S2 D.idA
                      f.algData := by
                    rw [show w1.cur = remakeFrame f w.cur from rfl, hc]
                    exact hrm
                  obtain ⟨t2, t3, heqA⟩ := rotLeft_eq hL f.value v f.sibling
                    l r s S2 D.idA b f.algData hL.idRev
                  rw [hcc, hid1] at heqA
                  have hrotA : rotSideW id (!false) w1 = some
                      (⟨fs, BasicTree.Root v
                        (BasicTree.Root f.value
                          (BasicTree.actTree D.idA f.sibling)
                          (BasicTree.actTree (D.comp D.idA D.idA) l) t2 D.idA
                          f.algData)
                        (BasicTree.actTree (D.comp D.idA D.idA) r)
                        t3 D.idA b, f.leftCtx, f.rightCtx⟩ : BasicWalker D B) := by
                    show rotLeftW id w1 = _
                    unfold rotLeftW
                    rw [hw1c, heqA]
                    rfl
                  rw [hrotA]
                  dsimp only
                  have hw3a : goUp (⟨fs, BasicTree.Root v
                        (BasicTree.Root f.value
                          (BasicTree.actTree D.idA f.sibling)
                          (BasicTree.actTree (D.comp D.idA D.idA) l) t2 D.idA
                          f.algData)
                        (BasicTree.actTree (D.comp D.idA D.idA) r)
                        t3 D.idA b, f.leftCtx, f.rightCtx⟩ : BasicWalker D B)
                      = some (f2.isLeft, ⟨fs2, remakeFrame f2
                        (BasicTree.Root v
                          (BasicTree.Root f.value
                            (BasicTree.actTree D.idA f.sibling)
                            (BasicTree.actTree (D.comp D.idA D.idA) l) t2 D.idA
                            f.algData)
                          (BasicTree.actTree (D.comp D.idA D.idA) r)
                          t3 D.idA b), f2.leftCtx, f2.rightCtx⟩) := by
                    simp [goUp, hfs]
                  obtain ⟨S4, hrm3⟩ := remakeFrame_shape f2
                    (BasicTree.Root v
                      (BasicTree.Root f.value
                        (BasicTree.actTree D.idA f.sibling)
                        (BasicTree.actTree (D.comp D.idA D.idA) l) t2 D.idA
                        f.algData)
                      (BasicTree.actTree (D.comp D.idA D.idA) r)
                      t3 D.idA b)
                  rw [if_pos hfl2] at hrm3
                  obtain ⟨t4, t5, heqB⟩ := rotRight_eq hL f2.value v
                    (BasicTree.Root f.value
                      (BasicTree.actTree D.idA f.sibling)
                      (BasicTree.actTree (D.comp D.idA D.idA) l) t2 D.idA
                      f.algData)
                    (BasicTree.actTree (D.comp D.idA D.idA) r)
                    f2.sibling t3 S4 D.idA b f2.algData hL.idRev
                  rw [hcc, hid1] at heqB
                  have hrotB : rotUpW id (⟨fs, BasicTree.Root v
                        (BasicTree.Root f.value
                          (BasicTree.actTree D.idA f.sibling)
                          (BasicTree.actTree (D.comp D.idA D.idA) l) t2 D.idA
                          f.algData)
                        (BasicTree.actTree (D.comp D.idA D.idA) r)
                        t3 D.idA b, f.leftCtx, f.rightCtx⟩ : BasicWalker D B)
                      = some (f2.isLeft,
                        ⟨fs2, BasicTree.Root v
                          (BasicTree.actTree (D.comp D.idA D.idA)
                            (BasicTree.Root f.value
                              (BasicTree.actTree D.idA f.sibling)
                              (BasicTree.actTree (D.comp D.idA D.idA) l)
                              t2 D.idA f.algData))
                          (BasicTree.Root f2.value
                            (BasicTree.actTree (D.comp D.idA D.idA)
                              (BasicTree.actTree (D.comp D.idA D.idA) r))
                            (BasicTree.actTree D.idA f2.sibling) t4 D.idA
                            f2.algData)
                          t5 D.idA b, f2.leftCtx, f2.rightCtx⟩) := by
                    unfold rotUpW
                    rw [hw3a]
                    dsimp only
                    rw [show rotSideW id (!f2.isLeft)
                        (⟨fs2, remakeFrame f2
                          (BasicTree.Root v
                            (BasicTree.Root f.value
                              (BasicTree.actTree D.idA f.sibling)
                              (BasicTree.actTree (D.comp D.idA D.idA) l)
                              t2 D.idA f.algData)
                            (BasicTree.actTree (D.comp D.idA D.idA) r)
                            t3 D.idA b), f2.leftCtx, f2.rightCtx⟩ :
                          BasicWalker D B)
                      = rotRightW id
                        ⟨fs2, remakeFrame f2
                          (BasicTree.Root v
                            (BasicTree.Root f.value
                              (BasicTree.actTree D.idA f.sibling)
                              (BasicTree.actTree (D.comp D.idA D.idA) l)
                              t2 D.idA f.algData)
                            (BasicTree.actTree (D.comp D.idA D.idA) r)
                            t3 D.idA b), f2.leftCtx, f2.rightCtx⟩ from by
                      rw [hfl2]; rfl]
                    unfold rotRightW
                    rw [show (⟨fs2, remakeFrame f2
                          (BasicTree.Root v
                            (BasicTree.Root f.value
                              (BasicTree.actTree D.idA f.sibling)
                              (BasicTree.actTree (D.comp D.idA D.idA) l)
                              t2 D.idA f.algData)
                            (BasicTree.actTree (D.comp D.idA D.idA) r)
                            t3 D.idA b), f2.leftCtx, f2.rightCtx⟩ :
                          BasicWalker D B).cur
                        = remakeFrame f2
                          (BasicTree.Root v
                            (BasicTree.Root f.value
                              (BasicTree.actTree D.idA f.sibling)
                              (BasicTree.actTree (D.comp D.idA D.idA) l)
                              t2 D.idA f.algData)
                            (BasicTree.actTree (D.comp D.idA D.idA) r)
                            t3 D.idA b) from rfl, hrm3, heqB]
                    rfl
                  refine ⟨⟨fs2, BasicTree.Root v
                      (BasicTree.actTree (D.comp D.idA D.idA)
                        (BasicTree.Root f.value
                          (BasicTree.actTree D.idA f.sibling)
                          (BasicTree.actTree (D.comp D.idA D.idA) l)
                          t2 D.idA f.algData))
                      (BasicTree.Root f2.value
                        (BasicTree.actTree (D.comp D.idA D.idA)
                          (BasicTree.actTree (D.comp D.idA D.idA) r))
                        (BasicTree.actTree D.idA f2.sibling) t4 D.idA
                        f2.algData)
                      t5 D.idA b, f2.leftCtx, f2.rightCtx⟩,
                    _, _, _, _, ?_, rfl, ?_, ?_, ?_, ?_⟩
                  · rw [hrotB]
                    rfl
                  · simp [hf, hfs, framesBefore, hfl, hfl2, BasicTree.seq,
                      BasicTree.seq_actTree hL, BasicTree.applyA_comp hL,
                      BasicTree.applyA_id hL]
                  · simp [hf, hfs, framesAfter, hfl, hfl2, BasicTree.seq,
                      BasicTree.seq_actTree hL, BasicTree.applyA_comp hL,
                      BasicTree.applyA_id hL]
                  · show d ≤ fs2.length
                    omega
                  · show fs2.length < w.depth
                    omega

/-- The splay loop, from an occupied clean position, lands at exactly the
target depth keeping the current node's value at the current subtree's
root and preserving the before/after decomposition around it. -/
theorem splayLoopParts {D : DataC} {B : Type} (hL : DataLaws D) (d : Nat) :
    ∀ fuel (w : BasicWalker D B), w.depth ≤ fuel → d ≤ w.depth →
      ∀ {v : D.Value} {l r : BasicTree D B} {s : D.Summary} {b : B},
      w.cur = BasicTree.Root v l r s D.idA b →
      ∃ w2 l2 r2 s2 b2, splayLoop d fuel w = some w2 ∧
        w2.cur = BasicTree.Root v l2 r2 s2 D.idA b2 ∧ w2.depth = d ∧
        framesBefore w2.frames ++ l2.seq = framesBefore w.frames ++ l.seq ∧
        r2.seq ++ framesAfter w2.frames = r.seq ++ framesAfter w.frames := by
  intro fuel
  induction fuel with
  | zero =>
      intro w hfu hge v l r s b hc
      have h0 : w.depth = 0 := Nat.le_zero.mp hfu
      have hdd : w.depth = d := by omega
      exact ⟨w, l, r, s, b, by simp [splayLoop, hdd], hc, by omega, rfl, rfl⟩
  | succ fuel ih =>
      intro w hfu hge v l r s b hc
      by_cases he : w.depth = d
      · exact ⟨w, l, r, s, b, by simp [splayLoop, he], hc, he, rfl, rfl⟩
      · have hlt : d < w.depth := by omega
        obtain ⟨w1, l1, r1, s1, b1, hstep, hcur1, hbef1, haft1, hge1, hlt1⟩ :=
          splayStepDepth_parts hL d hlt hc
        obtain ⟨w2, l2, r2, s2, b2, hloop, hcur2, hdep2, hbef2, haft2⟩ :=
          ih w1 (by omega) hge1 hcur1
        exact ⟨w2, l2, r2, s2, b2, by simp [splayLoop, he, hstep, hloop],
          hcur2, hdep2, hbef2.trans hbef1, haft2.trans haft1⟩

/-- `splay_to_depth(d)` from an occupied clean position: the version of
`splayToDepth_spec` that additionally tracks the decomposition around the
splayed node. -/
theorem splayToDepthParts {D : DataC} {B : Type} (hL : DataLaws D) {d : Nat}
    {w : BasicWalker D B} (hd : d ≤ w.depth)
    {v : D.Value} {l r : BasicTree D B} {s : D.Summary} {b : B}
    (hc : w.cur = BasicTree.Root v l r s D.idA b) :
    ∃ w2 l2 r2 s2 b2, splayToDepth d w = some w2 ∧
      w2.cur = BasicTree.Root v l2 r2 s2 D.idA b2 ∧ w2.depth = d ∧
      framesBefore w2.frames ++ l2.seq = framesBefore w.frames ++ l.seq ∧
      r2.seq ++ framesAfter w2.frames = r.seq ++ framesAfter w.frames := by
  obtain ⟨w2, l2, r2, s2, b2, h1, h2, h3, h4, h5⟩ :=
    splayLoopParts hL d w.depth w le_rfl hd hc
  exact ⟨w2, l2, r2, s2, b2, by simp [splayToDepth, hd, h1], h2, h3, h4, h5⟩

/-- `splay()` from an occupied clean position brings the current node's
value to the root of the whole tree; its left subtree then holds exactly
the elements that were before the node and its right subtree exactly the
elements that were after it. -/
theorem splayW_parts {D : DataC} {B : Type} (hL : DataLaws D)
    {w : BasicWalker D B} {v : D.Value} {l r : BasicTree D B}
    {s : D.Summary} {b : B}
    (hc : w.cur = BasicTree.Root v l r s D.idA b) :
    ∃ w2 l2 r2 s2 b2, splayW w = some w2 ∧ w2.frames = [] ∧
      w2.cur = BasicTree.Root v l2 r2 s2 D.idA b2 ∧
      l2.seq = framesBefore w.frames ++ l.seq ∧
      r2.seq = r.seq ++ framesAfter w.frames := by
  obtain ⟨w2, l2, r2, s2, b2, h1, h2, h3, h4, h5⟩ :=
    splayToDepthParts hL (Nat.zero_le w.depth) hc
  have hfr : w2.frames = [] := by
    rw [BasicWalker.depth] at h3
    exact List.length_eq_zero.mp h3
  rw [hfr] at h4 h5
  simp only [framesBefore, framesAfter, List.append_nil] at h4 h5
  exact ⟨w2, l2, r2, s2, b2, h1, hfr, h2, h4, h5⟩

/-- `SplayWalker::split_right` (splay.rs 529-552).  `some none` is the
`None` refusal at an occupied position; the outer `none` models the
`panic!()` after the splay.  At an empty position: if the walker is at
the root, the empty tree is returned; otherwise the walker goes up once
(remembering on which side the gap was), splays that node to the root,
detaches the side of the gap, rebuilds, and keeps the other side as its
own tree. -/
def splitRight {D : DataC} (w : BasicWalker D Unit) :
    Option (Option (BasicTree D Unit × BasicWalker D Unit)) :=
  if w.isEmpty = false then some none
  else
    match goUp w with
    | none => some (some (BasicTree.Empty, w))
    | some (b, w1) =>
        match splayW w1 with
        | none => none
        | some w2 =>
            match w2.cur with
            | BasicTree.Empty => none
            | BasicTree.Root v l r s p bb =>
                if b then
                  some (some (BasicTree.rebuild
                    (BasicTree.Root v BasicTree.Empty r s p bb),
                    { w2 with cur := l }))
                else
                  some (some (r,
                    { frames := w2.frames,
                      cur := BasicTree.rebuild
                        (BasicTree.Root v l BasicTree.Empty s p bb),
                      leftCtx := w2.leftCtx,
                      rightCtx := w2.rightCtx }))

/-- `SplayWalker::split_left` (splay.rs 554-558): `split_right`, then
swap the walker's tree with the returned tree. -/
def splitLeft {D : DataC} (w : BasicWalker D Unit) :
    Option (Option (BasicTree D Unit × BasicWalker D Unit)) :=
  match splitRight w with
  | none => none
  | some none => some none
  | some (some (t2, w2)) =>
      some (some (w2.cur, { w2 with cur := t2 }))

/-- `SplayTree::concatenate_right` (splay.rs 480-498): walk to the
rightmost position, go up once (if the tree was empty, the result is the
other tree; left sons are unreachable on a rightmost descent, modelled as
`none` for `unreachable!()`), splay the rightmost node to the root,
`assert!` that it has no right child, attach the other tree there and
rebuild.  Dropping the walker at depth 0 just reassembles. -/
def concatenateRight {D : DataC} (t other : BasicTree D Unit) :
    Option (BasicTree D Unit) :=
  match goUp (goRightAll (t.size + 1) (BasicWalker.new t)) with
  | none => some other
  | some (true, _) => none
  | some (false, w2) =>
      match splayW w2 with
      | none => none
      | some w3 =>
          match w3.cur with
          | BasicTree.Empty => none
          | BasicTree.Root v l r s p bb =>
              if r.isEmpty then
                some (reassemble { w3 with
                  cur := BasicTree.rebuild (BasicTree.Root v l other s p bb) })
              else none

/-- `split_right` refuses (returns `None`) at an occupied position. -/
theorem splitRight_occupied {D : DataC} {w : BasicWalker D Unit}
    (hemp : w.isEmpty = false) : splitRight w = some none := by
  unfold splitRight
  rw [if_pos hemp]

/-- `split_right` at a gap: it succeeds, the returned tree holds exactly
the elements after the gap, and the walker ends at the root of a tree
holding exactly the elements before the gap. -/
theorem splitRight_spec {D : DataC} (hL : DataLaws D)
    {w : BasicWalker D Unit} (hc : w.cur = BasicTree.Empty) :
    ∃ t2 w2, splitRight w = some (some (t2, w2)) ∧ w2.frames = [] ∧
      t2.seq = framesAfter w.frames ∧
      w2.cur.seq = framesBefore w.frames := by
  have hemp : w.isEmpty = true := by rw [BasicWalker.isEmpty, hc]; rfl
  unfold splitRight
  rw [if_neg (by simp [hemp])]
  cases hf : w.frames with
  | nil =>
      have hgu : goUp w = none := by simp [goUp, hf]
      rw [hgu]
      exact ⟨BasicTree.Empty, w, rfl, hf,
        by simp [BasicTree.seq, framesAfter],
        by rw [hc]; simp [BasicTree.seq, framesBefore]⟩
  | cons f fs =>
      have hgu : goUp w = some (f.isLeft,
          ⟨fs, remakeFrame f w.cur, f.leftCtx, f.rightCtx⟩) := by
        simp [goUp, hf]
      rw [hgu]
      dsimp only
      obtain ⟨S2, hrm⟩ := remakeFrame_shape f w.cur
      cases hfl : f.isLeft with
      | true =>
          rw [if_pos hfl] at hrm
          rw [hc] at hrm
          have hw1c : (⟨fs, remakeFrame f w.cur, f.leftCtx, f.rightCtx⟩ :
              BasicWalker D Unit).cur = BasicTree.Root f.value
              BasicTree.Empty f.sibling S2 D.idA f.algData := by
            rw [show (⟨fs, remakeFrame f w.cur, f.leftCtx, f.rightCtx⟩ :
              BasicWalker D Unit).cur = remakeFrame f w.cur from rfl, hc]
            exact hrm
          obtain ⟨w2, l2, r2, s2, b2, h1, h2, h3, h4, h5⟩ :=
            splayW_parts hL hw1c
          rw [h1]
          dsimp only
          rw [h3]
          dsimp only
          rw [if_pos rfl]
          refine ⟨_, _, rfl, h2, ?_, ?_⟩
          · rw [BasicTree.seq_rebuild, BasicTree.seq, BasicTree.applyA_id hL]
            simp [framesAfter, hfl, h5, BasicTree.seq]
          · simp [framesBefore, hfl]
            simpa [BasicTree.seq] using h4
      | false =>
          rw [if_neg (by simp [hfl])] at hrm
          rw [hc] at hrm
          have hw1c : (⟨fs, remakeFrame f w.cur, f.leftCtx, f.rightCtx⟩ :
              BasicWalker D Unit).cur = BasicTree.Root f.value
              f.sibling BasicTree.Empty S2 D.idA f.algData := by
            rw [show (⟨fs, remakeFrame f w.cur, f.leftCtx, f.rightCtx⟩ :
              BasicWalker D Unit).cur = remakeFrame f w.cur from rfl, hc]
            exact hrm
          obtain ⟨w2, l2, r2, s2, b2, h1, h2, h3, h4, h5⟩ :=
            splayW_parts hL hw1c
          rw [h1]
          dsimp only
          rw [h3]
          dsimp only
          rw [if_neg (by simp)]
          refine ⟨_, _, rfl, h2, ?_, ?_⟩
          · simp [framesAfter, hfl]
            simpa [BasicTree.seq] using h5
          · show (BasicTree.rebuild (BasicTree.Root f.value l2 BasicTree.Empty
              s2 D.idA b2)).seq = framesBefore (f :: fs)
            rw [BasicTree.seq_rebuild, BasicTree.seq, BasicTree.applyA_id hL]
            simp [framesBefore, hfl, h4, BasicTree.seq]

/-- `concatenate_right` with an empty left tree yields the other tree. -/
theorem concatenateRight_empty {D : DataC} (other : BasicTree D Unit) :
    concatenateRight BasicTree.Empty other = some other := rfl

/-- `concatenate_right` succeeds and the result's sequence is the left
tree's sequence followed by the other tree's sequence. -/
theorem concatenateRight_seq {D : DataC} (hL : DataLaws D)
    (t other : BasicTree D Unit) :
    ∃ t3, concatenateRight t other = some t3 ∧
      t3.seq = t.seq ++ other.seq := by
  cases ht : t with
  | Empty => exact ⟨other, rfl, by simp [BasicTree.seq]⟩
  | Root tv tl tr ts tp tb =>
      have hne : t.isEmpty = false := by rw [ht]; rfl
      rw [← ht]
      have hsz : (BasicWalker.new t).cur.size < t.size + 1 := by
        simp [BasicWalker.new, BasicTree.size_propagate]
      obtain ⟨h1, h2, gs, hgs, hgsl⟩ := goRightAll_spec hL (t.size + 1)
        (BasicWalker.new t) hsz
      set iw1 := goRightAll (t.size + 1) (BasicWalker.new t) with hiw1
      have hw0 : wSeq (BasicWalker.new t) = t.seq := by
        unfold wSeq reassemble
        simp [BasicWalker.new, reassembleGo, BasicTree.seq_propagate hL]
      rw [hw0] at h2
      have hgs2 : iw1.frames = gs := by
        rw [hgs]
        simp [BasicWalker.new]
      cases hgse : gs with
      | nil =>
          exfalso
          rw [hgse] at hgs2
          rw [wSeq_eq hL, hgs2, h1] at h2
          simp [framesBefore, framesAfter, BasicTree.seq] at h2
          rw [ht] at h2
          exact BasicTree.seq_root_ne_nil tv tl tr ts tp tb h2
      | cons g gs2 =>
          rw [hgse] at hgs2 hgsl
          have hgu : goUp iw1 = some (g.isLeft,
              ⟨gs2, remakeFrame g iw1.cur, g.leftCtx, g.rightCtx⟩) := by
            simp [goUp, hgs2]
          have hgl : g.isLeft = false := hgsl g (by simp)
          rw [hgl] at hgu
          obtain ⟨S2, hrm⟩ := remakeFrame_shape g iw1.cur
          rw [if_neg (by simp [hgl]), h1] at hrm
          have hw2c : (⟨gs2, remakeFrame g iw1.cur, g.leftCtx, g.rightCtx⟩ :
              BasicWalker D Unit).cur = BasicTree.Root g.value
              g.sibling BasicTree.Empty S2 D.idA g.algData := by
            rw [show (⟨gs2, remakeFrame g iw1.cur, g.leftCtx, g.rightCtx⟩ :
              BasicWalker D Unit).cur = remakeFrame g iw1.cur from rfl, h1]
            exact hrm
          obtain ⟨w3, l2, r2, s2, b2, hs1, hs2, hs3, hs4, hs5⟩ :=
            splayW_parts hL hw2c
          have haft : framesAfter gs2 = [] :=
            framesAfter_all_right fun f hf => hgsl f (by simp [hf])
          have hr2 : r2 = BasicTree.Empty := by
            cases hr2c : r2 with
            | Empty => rfl
            | Root a c e u p k =>
                exfalso
                rw [hr2c] at hs5
                rw [haft] at hs5
                simp [BasicTree.seq] at hs5
                exact BasicTree.seq_root_ne_nil a c e u p k hs5
          unfold concatenateRight
          rw [← hiw1, hgu]
          dsimp only
          rw [hs1]
          dsimp only
          rw [hs3]
          dsimp only
          rw [hr2]
          rw [if_pos (show BasicTree.Empty.isEmpty = true from rfl)]
          refine ⟨_, rfl, ?_⟩
          have hts : t.seq = framesBefore gs2 ++ g.sibling.seq ++ [g.value] := by
            rw [wSeq_eq hL, hgs2, h1] at h2
            rw [← h2]
            simp [framesBefore, framesAfter, hgl, haft, BasicTree.seq]
          have hre : reassemble
              (⟨w3.frames, BasicTree.rebuild
                  (BasicTree.Root g.value l2 other s2 D.idA b2),
                w3.leftCtx, w3.rightCtx⟩ : BasicWalker D Unit) =
              BasicTree.rebuild
                (BasicTree.Root g.value l2 other s2 D.idA b2) := by
            show reassembleGo w3.frames (BasicTree.rebuild
              (BasicTree.Root g.value l2 other s2 D.idA b2)) = _
            rw [hs2]
            rfl
          rw [hre, BasicTree.seq_rebuild, BasicTree.seq,
            BasicTree.applyA_id hL, hs4, hts]
          simp [BasicTree.seq]

/-- A splay walker standing at the gap just left of the root of the
two-element tree with in-order values `[7, 9]` (root 7, right leaf 9). -/
def cexSplitWalker : BasicWalker SizeData Unit :=
  { frames := [⟨true, 7,
      BasicTree.Root 9 BasicTree.Empty BasicTree.Empty ⟨1⟩ () (), (), ⟨0⟩, ⟨0⟩⟩],
    cur := BasicTree.Empty, leftCtx := ⟨0⟩, rightCtx := ⟨0⟩ }

/-- A splay walker standing at the gap just right of the root of the
two-element tree with in-order values `[2, 4]` (root 4, left leaf 2). -/
def cexSplitWalker2 : BasicWalker SizeData Unit :=
  { frames := [⟨false, 4,
      BasicTree.Root 2 BasicTree.Empty BasicTree.Empty ⟨1⟩ () (), (), ⟨0⟩, ⟨0⟩⟩],
    cur := BasicTree.Empty, leftCtx := ⟨0⟩, rightCtx := ⟨0⟩ }

/-! ### Rank/height infrastructure for the AVL proofs -/

/-- The true height of a tree (independent of the cached ranks). -/
def heightT {D : DataC} : BasicTree D Nat → Nat
  | BasicTree.Empty => 0
  | BasicTree.Root _ l r _ _ _ => max (heightT l) (heightT r) + 1

/-- No pending action anywhere in the tree carries the reverse bit.
All trees produced by `from_iter`/`insert`/`delete` alone satisfy this. -/
def noRevB {D : DataC} {B : Type} : BasicTree D B → Bool
  | BasicTree.Empty => true
  | BasicTree.Root _ l r _ p _ => !D.toReverse p && noRevB l && noRevB r

theorem noRevB_root_iff {D : DataC} {B : Type} {v : D.Value}
    {l r : BasicTree D B} {s : D.Summary} {p : D.Action} {b : B} :
    noRevB (BasicTree.Root v l r s p b) = true ↔
      D.toReverse p = false ∧ noRevB l = true ∧ noRevB r = true := by
  simp [noRevB, Bool.and_eq_true, and_assoc]

theorem rankT_actTree {D : DataC} (a : D.Action) (t : BasicTree D Nat) :
    rankT (BasicTree.actTree a t) = rankT t := by
  cases t <;> rfl

theorem heightT_actTree {D : DataC} (a : D.Action) (t : BasicTree D Nat) :
    heightT (BasicTree.actTree a t) = heightT t := by
  cases t <;> rfl

theorem avlOK_actTree {D : DataC} (a : D.Action) (t : BasicTree D Nat) :
    avlOK (BasicTree.actTree a t) = avlOK t := by
  cases t with
  | Empty => rfl
  | Root v l r s p b => simp [BasicTree.actTree, avlOK]

theorem noRevB_actTree {D : DataC} {B : Type} (hL : DataLaws D) {a : D.Action}
    (ha : D.toReverse a = false) {t : BasicTree D B}
    (h : noRevB t = true) : noRevB (BasicTree.actTree a t) = true := by
  cases t with
  | Empty => rfl
  | Root v l r s p b =>
      rw [noRevB_root_iff] at h
      rw [BasicTree.actTree, noRevB_root_iff]
      exact ⟨by rw [hL.compRev, ha, h.1]; rfl, h.2.1, h.2.2⟩

theorem rankT_propagate {D : DataC} (t : BasicTree D Nat) :
    rankT t.propagate = rankT t := by
  cases t with
  | Empty => rfl
  | Root v l r s p b =>
      simp only [BasicTree.propagate]
      split <;> rfl

theorem heightT_propagate {D : DataC} (t : BasicTree D Nat) :
    heightT t.propagate = heightT t := by
  cases t with
  | Empty => rfl
  | Root v l r s p b =>
      simp only [BasicTree.propagate]
      split <;> simp [heightT, heightT_actTree, Nat.max_comm]

theorem avlOK_propagate {D : DataC} (t : BasicTree D Nat) :
    avlOK t.propagate = avlOK t := by
  cases t with
  | Empty => rfl
  | Root v l r s p b =>
      simp only [BasicTree.propagate]
      split
      · simp only [avlOK, avlOK_actTree, rankT_actTree]
        rw [Nat.max_comm]
        simp [Bool.and_comm, Bool.and_left_comm, Bool.and_assoc]
      · simp [avlOK, avlOK_actTree, rankT_actTree]

theorem noRevB_propagate {D : DataC} {B : Type} (hL : DataLaws D)
    {t : BasicTree D B} (h : noRevB t = true) :
    noRevB t.propagate = true := by
  cases t with
  | Empty => rfl
  | Root v l r s p b =>
      rw [noRevB_root_iff] at h
      simp only [BasicTree.propagate, h.1, Bool.false_eq_true, if_false]
      rw [noRevB_root_iff]
      exact ⟨hL.idRev, noRevB_actTree hL h.1 h.2.1, noRevB_actTree hL h.1 h.2.2⟩

theorem avlOK_root_iff {D : DataC} {v : D.Value} {l r : BasicTree D Nat}
    {s : D.Summary} {p : D.Action} {b : Nat} :
    avlOK (BasicTree.Root v l r s p b) = true ↔
      avlOK l = true ∧ avlOK r = true ∧ b = max (rankT l) (rankT r) + 1 ∧
      (rankT l : Int) - (rankT r : Int) ≤ 1 ∧
      (rankT r : Int) - (rankT l : Int) ≤ 1 := by
  simp [avlOK, Bool.and_eq_true, and_assoc]

theorem avlOK_height {D : DataC} :
    ∀ {t : BasicTree D Nat}, avlOK t = true → rankT t = heightT t := by
  intro t
  induction t with
  | Empty => intro _; rfl
  | Root v l r s p b ihl ihr =>
      intro h
      rw [avlOK_root_iff] at h
      show b = heightT (BasicTree.Root v l r s p b)
      rw [heightT, ← ihl h.1, ← ihr h.2.1]
      exact h.2.2.1

/-- The exact result of `rot_right` with the AVL rank rebuilder on a node
with identity pending whose left child has a non-reversing pending: both
rebuilt nodes get their ranks recomputed from their children's cached
ranks. -/
theorem avlRotRight_eq {D : DataC} (hL : DataLaws D)
    (v u : D.Value) (c e r : BasicTree D Nat) (g s : D.Summary)
    (q : D.Action) (k b : Nat) (hrev : D.toReverse q = false) :
    ∃ s2 s3, BasicTree.rotRight rankRebuilder
        (BasicTree.Root v (BasicTree.Root u c e g q k) r s D.idA b)
      = some (BasicTree.Root (D.actV (D.comp D.idA q) u)
          (BasicTree.actTree (D.comp D.idA q) c)
          (BasicTree.Root (D.actV D.idA v)
            (BasicTree.actTree (D.comp D.idA q) e)
            (BasicTree.actTree D.idA r) s2 D.idA
            (max (rankT (BasicTree.actTree (D.comp D.idA q) e))
              (rankT (BasicTree.actTree D.idA r)) + 1))
          s3 D.idA
          (max (rankT (BasicTree.actTree (D.comp D.idA q) c))
            (max (rankT (BasicTree.actTree (D.comp D.idA q) e))
              (rankT (BasicTree.actTree D.idA r)) + 1) + 1)) := by
  have hrevc : D.toReverse (D.comp D.idA q) = false := toRev_comp_id hL hrev
  simp only [BasicTree.rotRight, BasicTree.propagate, hL.idRev,
    Bool.false_eq_true, if_false, BasicTree.actTree, hrevc, BasicTree.rebuild,
    rankRebuilder, rebuildRanksT]
  exact ⟨_, _, rfl⟩

/-- The exact result of `rot_left` with the AVL rank rebuilder on a node
with identity pending whose right child has a non-reversing pending. -/
theorem avlRotLeft_eq {D : DataC} (hL : DataLaws D)
    (v u : D.Value) (l c e : BasicTree D Nat) (g s : D.Summary)
    (q : D.Action) (k b : Nat) (hrev : D.toReverse q = false) :
    ∃ s2 s3, BasicTree.rotLeft rankRebuilder
        (BasicTree.Root v l (BasicTree.Root u c e g q k) s D.idA b)
      = some (BasicTree.Root (D.actV (D.comp D.idA q) u)
          (BasicTree.Root (D.actV D.idA v)
            (BasicTree.actTree D.idA l)
            (BasicTree.actTree (D.comp D.idA q) c) s2 D.idA
            (max (rankT (BasicTree.actTree D.idA l))
              (rankT (BasicTree.actTree (D.comp D.idA q) c)) + 1))
          (BasicTree.actTree (D.comp D.idA q) e)
          s3 D.idA
          (max (max (rankT (BasicTree.actTree D.idA l))
              (rankT (BasicTree.actTree (D.comp D.idA q) c)) + 1)
            (rankT (BasicTree.actTree (D.comp D.idA q) e)) + 1)) := by
  have hrevc : D.toReverse (D.comp D.idA q) = false := toRev_comp_id hL hrev
  simp only [BasicTree.rotLeft, BasicTree.propagate, hL.idRev,
    Bool.false_eq_true, if_false, BasicTree.actTree, hrevc, BasicTree.rebuild,
    rankRebuilder, rebuildRanksT]
  exact ⟨_, _, rfl⟩

theorem rankT_root {D : DataC} (v : D.Value) (l r : BasicTree D Nat)
    (s : D.Summary) (p : D.Action) (b : Nat) :
    rankT (BasicTree.Root v l r s p b) = b := rfl

theorem applyA_norev {D : DataC} {a : D.Action}
    (ha : D.toReverse a = false) (xs : List D.Value) :
    BasicTree.applyA a xs = xs.map (D.actV a) := by
  simp [BasicTree.applyA, ha]

theorem toRev_comp_ff {D : DataC} (hL : DataLaws D) {a c : D.Action}
    (ha : D.toReverse a = false) (hc : D.toReverse c = false) :
    D.toReverse (D.comp a c) = false := by
  rw [hL.compRev, ha, hc]
  rfl

/-- One pass of the `match` in `AVLWalker::rebalance` from an occupied
position whose root rank was just rebuilt: under the rank conditions that
hold during an insert/delete ascent (both children's cached root ranks
are their true heights, the rank difference is within `[-2, 2]`, and a
child that is deeper by two is a fully valid AVL tree), the step
succeeds, keeps the walker's frames, returns a subtree with the same
in-order sequence whose cached root rank is its true height, and shrinks
the cached root rank by at most one (rotating only when the difference
is two).  If both children are fully valid AVL trees and the left child
is not the deeper-by-two one, the result is fully valid as well (the
left-deep double-rotation arm uses the basic, non-rank-rebuilding
`rot_up`, avl.rs 421, so it does not preserve full validity). -/
theorem rebalanceStep_spec {D : DataC} (hL : DataLaws D) {w : BasicWalker D Nat}
    {v : D.Value} {l r : BasicTree D Nat} {s : D.Summary} {b : Nat}
    (hc : w.cur = BasicTree.Root v l r s D.idA b)
    (hb : b = max (rankT l) (rankT r) + 1)
    (hgl : rankT l = heightT l) (hgr : rankT r = heightT r)
    (hnl : noRevB l = true) (hnr : noRevB r = true)
    (hd1 : (rankT l : Int) - rankT r ≤ 2)
    (hd2 : (rankT r : Int) - rankT l ≤ 2)
    (hdeepL : (rankT l : Int) - rankT r = 2 → avlOK l = true)
    (hdeepR : (rankT r : Int) - rankT l = 2 → avlOK r = true) :
    ∃ T, rebalanceStep w = some { w with cur := T } ∧
      rankT T = heightT T ∧ noRevB T = true ∧
      T.seq = l.seq ++ v :: r.seq ∧
      (rankT T = b ∨ rankT T + 1 = b) ∧
      ((rankT l : Int) - rankT r ≤ 1 → (rankT r : Int) - rankT l ≤ 1 →
        rankT T = b) ∧
      (avlOK l = true → avlOK r = true →
        (rankT l : Int) - rankT r ≤ 1 → avlOK T = true) := by
  unfold rebalanceStep
  rw [hc]
  dsimp only
  by_cases hm2 : (rankT r : Int) - rankT l = -2
  · rw [if_pos (show rankDiff (BasicTree.Root v l r s D.idA b) = -2 from hm2)]
    have hOKl : avlOK l = true := hdeepL (by omega)
    cases l with
    | Empty =>
        exfalso
        have h0 : rankT (BasicTree.Empty : BasicTree D Nat) = 0 := rfl
        omega
    | Root lv ll lr ls lp lb =>
        have hrl : rankT (BasicTree.Root lv ll lr ls lp lb) = lb := rfl
        rw [noRevB_root_iff] at hnl
        obtain ⟨hlp, hnll, hnlr⟩ := hnl
        rw [avlOK_root_iff] at hOKl
        obtain ⟨hOKll, hOKlr, hlb, hldiff1, hldiff2⟩ := hOKl
        have ehll : heightT ll = rankT ll := (avlOK_height hOKll).symm
        have ehlr : heightT lr = rankT lr := (avlOK_height hOKlr).symm
        by_cases hinner : (rankT lr : Int) - rankT ll ≤ 0
        · -- left-left: one rank-rebuilding right rotation
          rw [if_pos (show rankDiff (BasicTree.Root lv ll lr ls lp lb) ≤ 0 from
            hinner)]
          obtain ⟨s2, s3, heq⟩ := avlRotRight_eq hL v lv ll lr r ls s lp lb b hlp
          refine ⟨BasicTree.Root (D.actV (D.comp D.idA lp) lv)
              (BasicTree.actTree (D.comp D.idA lp) ll)
              (BasicTree.Root (D.actV D.idA v)
                (BasicTree.actTree (D.comp D.idA lp) lr)
                (BasicTree.actTree D.idA r) s2 D.idA
                (max (rankT (BasicTree.actTree (D.comp D.idA lp) lr))
                  (rankT (BasicTree.actTree D.idA r)) + 1))
              s3 D.idA
              (max (rankT (BasicTree.actTree (D.comp D.idA lp) ll))
                (max (rankT (BasicTree.actTree (D.comp D.idA lp) lr))
                  (rankT (BasicTree.actTree D.idA r)) + 1) + 1),
            ?_, ?_, ?_, ?_, ?_, ?_, ?_⟩
          · unfold avlRotRight rotRightW
            rw [hc, heq]
            rfl
          · simp only [rankT_root, heightT, rankT_actTree, heightT_actTree]
            omega
          · rw [noRevB_root_iff]
            refine ⟨hL.idRev,
              noRevB_actTree hL (toRev_comp_id hL hlp) hnll, ?_⟩
            rw [noRevB_root_iff]
            exact ⟨hL.idRev, noRevB_actTree hL (toRev_comp_id hL hlp) hnlr,
              noRevB_actTree hL hL.idRev hnr⟩
          · simp only [BasicTree.seq, BasicTree.seq_actTree hL,
              BasicTree.applyA_comp hL, BasicTree.applyA_id hL,
              applyA_norev hlp, hL.compActV, hL.idActV, List.map_append,
              List.map_cons]
            simp
          · simp only [rankT_root, rankT_actTree]
            omega
          · intro h1 h2
            exfalso
            omega
          · intro h1 h2 h3
            exfalso
            omega
        · -- left-right: go_left, rank-rebuilding rot_left, basic rot_up
          rw [if_neg (show ¬(rankDiff (BasicTree.Root lv ll lr ls lp lb) ≤ 0)
            from hinner)]
          cases lr with
          | Empty =>
              exfalso
              have h0 : rankT (BasicTree.Empty : BasicTree D Nat) = 0 := rfl
              have h1 : (0:Int) ≤ rankT ll := Int.ofNat_nonneg _
              exact hinner (by omega)
          | Root ev el er es ep eb =>
              have hrlr : rankT (BasicTree.Root ev el er es ep eb) = eb := rfl
              rw [noRevB_root_iff] at hnlr
              obtain ⟨hep, hnel, hner⟩ := hnlr
              rw [avlOK_root_iff] at hOKlr
              obtain ⟨hOKel, hOKer, heb, hediff1, hediff2⟩ := hOKlr
              have ehel : heightT el = rankT el := (avlOK_height hOKel).symm
              have eher : heightT er = rankT er := (avlOK_height hOKer).symm
              have hrevc1 : D.toReverse (D.comp D.idA lp) = false :=
                toRev_comp_id hL hlp
              have hrevc2 : D.toReverse (D.comp (D.comp D.idA lp) ep) = false :=
                toRev_comp_ff hL hrevc1 hep
              have hgoleft : goLeft w = some
                  ⟨⟨true, D.actV D.idA v, BasicTree.actTree D.idA r, b,
                      w.leftCtx, w.rightCtx⟩ :: w.frames,
                    BasicTree.Root (D.actV (D.comp D.idA lp) lv)
                      (BasicTree.actTree (D.comp D.idA lp) ll)
                      (BasicTree.Root ev el er
                        (D.actS (D.comp D.idA lp) es)
                        (D.comp (D.comp D.idA lp) ep) eb)
                      (D.actS D.idA ls) D.idA lb,
                    w.leftCtx,
                    D.addS (D.toSummary (D.actV D.idA v))
                      (D.addS (BasicTree.actTree D.idA r).subtreeSummary
                        w.rightCtx)⟩ := by
                unfold goLeft
                rw [hc]
                simp only [BasicTree.propagate, hL.idRev, Bool.false_eq_true,
                  if_false, BasicTree.actTree, hrevc1]
              rw [hgoleft]
              dsimp only
              obtain ⟨s2, s3, heq1⟩ := avlRotLeft_eq hL
                (D.actV (D.comp D.idA lp) lv) ev
                (BasicTree.actTree (D.comp D.idA lp) ll) el er
                (D.actS (D.comp D.idA lp) es) (D.actS D.idA ls)
                (D.comp (D.comp D.idA lp) ep) eb lb hrevc2
              have havl1 : avlRotLeft
                  (⟨⟨true, D.actV D.idA v, BasicTree.actTree D.idA r, b,
                      w.leftCtx, w.rightCtx⟩ :: w.frames,
                    BasicTree.Root (D.actV (D.comp D.idA lp) lv)
                      (BasicTree.actTree (D.comp D.idA lp) ll)
                      (BasicTree.Root ev el er
                        (D.actS (D.comp D.idA lp) es)
                        (D.comp (D.comp D.idA lp) ep) eb)
                      (D.actS D.idA ls) D.idA lb,
                    w.leftCtx,
                    D.addS (D.toSummary (D.actV D.idA v))
                      (D.addS (BasicTree.actTree D.idA r).subtreeSummary
                        w.rightCtx)⟩ : BasicWalker D Nat) = some
                  ⟨⟨true, D.actV D.idA v, BasicTree.actTree D.idA r, b,
                      w.leftCtx, w.rightCtx⟩ :: w.frames,
                    BasicTree.Root
                      (D.actV (D.comp D.idA (D.comp (D.comp D.idA lp) ep)) ev)
                      (BasicTree.Root (D.actV D.idA
                          (D.actV (D.comp D.idA lp) lv))
                        (BasicTree.actTree D.idA
                          (BasicTree.actTree (D.comp D.idA lp) ll))
                        (BasicTree.actTree
                          (D.comp D.idA (D.comp (D.comp D.idA lp) ep)) el)
                        s2 D.idA
                        (max (rankT (BasicTree.actTree D.idA
                            (BasicTree.actTree (D.comp D.idA lp) ll)))
                          (rankT (BasicTree.actTree
                            (D.comp D.idA (D.comp (D.comp D.idA lp) ep)) el))
                          + 1))
                      (BasicTree.actTree
                        (D.comp D.idA (D.comp (D.comp D.idA lp) ep)) er)
                      s3 D.idA
                      (max (max (rankT (BasicTree.actTree D.idA
                            (BasicTree.actTree (D.comp D.idA lp) ll)))
                          (rankT (BasicTree.actTree
                            (D.comp D.idA (D.comp (D.comp D.idA lp) ep)) el))
                          + 1)
                        (rankT (BasicTree.actTree
                          (D.comp D.idA (D.comp (D.comp D.idA lp) ep)) er))
                        + 1),
                    w.leftCtx,
                    D.addS (D.toSummary (D.actV D.idA v))
                      (D.addS (BasicTree.actTree D.idA r).subtreeSummary
                        w.rightCtx)⟩ := by
                unfold avlRotLeft rotLeftW
                dsimp only
                rw [heq1]
                rfl
              rw [havl1]
              dsimp only
              have hrevc0 : D.toReverse (D.comp D.idA D.idA) = false :=
                toRev_comp_id hL hL.idRev
              have hrevq2 : D.toReverse
                  (D.comp D.idA (D.comp (D.comp D.idA lp) ep)) = false :=
                toRev_comp_id hL hrevc2
              obtain ⟨σ2, σ3, heq2⟩ := rotRight_eq hL (D.actV D.idA v)
                (D.actV (D.comp D.idA (D.comp (D.comp D.idA lp) ep)) ev)
                (BasicTree.Root (D.actV D.idA (D.actV (D.comp D.idA lp) lv))
                  (BasicTree.actTree D.idA
                    (BasicTree.actTree (D.comp D.idA lp) ll))
                  (BasicTree.actTree
                    (D.comp D.idA (D.comp (D.comp D.idA lp) ep)) el)
                  s2 D.idA
                  (max (rankT (BasicTree.actTree D.idA
                      (BasicTree.actTree (D.comp D.idA lp) ll)))
                    (rankT (BasicTree.actTree
                      (D.comp D.idA (D.comp (D.comp D.idA lp) ep)) el)) + 1))
                (BasicTree.actTree
                  (D.comp D.idA (D.comp (D.comp D.idA lp) ep)) er)
                (BasicTree.actTree D.idA r) s3
                (D.addS s3 (D.addS (D.toSummary (D.actV D.idA v))
                  (BasicTree.subtreeSummary (BasicTree.actTree D.idA r))))
                D.idA
                (max (max (rankT (BasicTree.actTree D.idA
                      (BasicTree.actTree (D.comp D.idA lp) ll)))
                    (rankT (BasicTree.actTree
                      (D.comp D.idA (D.comp (D.comp D.idA lp) ep)) el)) + 1)
                  (rankT (BasicTree.actTree
                    (D.comp D.idA (D.comp (D.comp D.idA lp) ep)) er)) + 1)
                b hL.idRev
              refine ⟨BasicTree.Root (D.actV (D.comp D.idA D.idA) (D.actV (D.comp D.idA (D.comp (D.comp D.idA lp) ep)) ev))
                  (BasicTree.actTree (D.comp D.idA D.idA) (BasicTree.Root (D.actV D.idA (D.actV (D.comp D.idA lp) lv)) (BasicTree.actTree D.idA (BasicTree.actTree (D.comp D.idA lp) ll)) (BasicTree.actTree (D.comp D.idA (D.comp (D.comp D.idA lp) ep)) el) s2 D.idA (max (rankT (BasicTree.actTree D.idA (BasicTree.actTree (D.comp D.idA lp) ll))) (rankT (BasicTree.actTree (D.comp D.idA (D.comp (D.comp D.idA lp) ep)) el)) + 1)))
                  (BasicTree.Root (D.actV D.idA (D.actV D.idA v))
                    (BasicTree.actTree (D.comp D.idA D.idA) (BasicTree.actTree (D.comp D.idA (D.comp (D.comp D.idA lp) ep)) er))
                    (BasicTree.actTree D.idA (BasicTree.actTree D.idA r))
                    σ2 D.idA b)
                  σ3 D.idA (max (max (rankT (BasicTree.actTree D.idA (BasicTree.actTree (D.comp D.idA lp) ll))) (rankT (BasicTree.actTree (D.comp D.idA (D.comp (D.comp D.idA lp) ep)) el)) + 1) (rankT (BasicTree.actTree (D.comp D.idA (D.comp (D.comp D.idA lp) ep)) er)) + 1),
                ?_, ?_, ?_, ?_, ?_, ?_, ?_⟩
              · have hgu2 : goUp (⟨(⟨true, D.actV D.idA v, BasicTree.actTree D.idA r, b, w.leftCtx, w.rightCtx⟩ : Frame D Nat) :: w.frames, (BasicTree.Root (D.actV (D.comp D.idA (D.comp (D.comp D.idA lp) ep)) ev) (BasicTree.Root (D.actV D.idA (D.actV (D.comp D.idA lp) lv)) (BasicTree.actTree D.idA (BasicTree.actTree (D.comp D.idA lp) ll)) (BasicTree.actTree (D.comp D.idA (D.comp (D.comp D.idA lp) ep)) el) s2 D.idA (max (rankT (BasicTree.actTree D.idA (BasicTree.actTree (D.comp D.idA lp) ll))) (rankT (BasicTree.actTree (D.comp D.idA (D.comp (D.comp D.idA lp) ep)) el)) + 1)) (BasicTree.actTree (D.comp D.idA (D.comp (D.comp D.idA lp) ep)) er) s3 D.idA (max (max (rankT (BasicTree.actTree D.idA (BasicTree.actTree (D.comp D.idA lp) ll))) (rankT (BasicTree.actTree (D.comp D.idA (D.comp (D.comp D.idA lp) ep)) el)) + 1) (rankT (BasicTree.actTree (D.comp D.idA (D.comp (D.comp D.idA lp) ep)) er)) + 1)), w.leftCtx, (D.addS (D.toSummary (D.actV D.idA v)) (D.addS (BasicTree.actTree D.idA r).subtreeSummary w.rightCtx))⟩ : BasicWalker D Nat) =
                    some (true, ⟨w.frames, remakeFrame (⟨true, D.actV D.idA v, BasicTree.actTree D.idA r, b, w.leftCtx, w.rightCtx⟩ : Frame D Nat) (BasicTree.Root (D.actV (D.comp D.idA (D.comp (D.comp D.idA lp) ep)) ev) (BasicTree.Root (D.actV D.idA (D.actV (D.comp D.idA lp) lv)) (BasicTree.actTree D.idA (BasicTree.actTree (D.comp D.idA lp) ll)) (BasicTree.actTree (D.comp D.idA (D.comp (D.comp D.idA lp) ep)) el) s2 D.idA (max (rankT (BasicTree.actTree D.idA (BasicTree.actTree (D.comp D.idA lp) ll))) (rankT (BasicTree.actTree (D.comp D.idA (D.comp (D.comp D.idA lp) ep)) el)) + 1)) (BasicTree.actTree (D.comp D.idA (D.comp (D.comp D.idA lp) ep)) er) s3 D.idA (max (max (rankT (BasicTree.actTree D.idA (BasicTree.actTree (D.comp D.idA lp) ll))) (rankT (BasicTree.actTree (D.comp D.idA (D.comp (D.comp D.idA lp) ep)) el)) + 1) (rankT (BasicTree.actTree (D.comp D.idA (D.comp (D.comp D.idA lp) ep)) er)) + 1)),
                      w.leftCtx, w.rightCtx⟩) := by
                  simp [goUp]
                have hrmk : remakeFrame (⟨true, D.actV D.idA v, BasicTree.actTree D.idA r, b, w.leftCtx, w.rightCtx⟩ : Frame D Nat) (BasicTree.Root (D.actV (D.comp D.idA (D.comp (D.comp D.idA lp) ep)) ev) (BasicTree.Root (D.actV D.idA (D.actV (D.comp D.idA lp) lv)) (BasicTree.actTree D.idA (BasicTree.actTree (D.comp D.idA lp) ll)) (BasicTree.actTree (D.comp D.idA (D.comp (D.comp D.idA lp) ep)) el) s2 D.idA (max (rankT (BasicTree.actTree D.idA (BasicTree.actTree (D.comp D.idA lp) ll))) (rankT (BasicTree.actTree (D.comp D.idA (D.comp (D.comp D.idA lp) ep)) el)) + 1)) (BasicTree.actTree (D.comp D.idA (D.comp (D.comp D.idA lp) ep)) er) s3 D.idA (max (max (rankT (BasicTree.actTree D.idA (BasicTree.actTree (D.comp D.idA lp) ll))) (rankT (BasicTree.actTree (D.comp D.idA (D.comp (D.comp D.idA lp) ep)) el)) + 1) (rankT (BasicTree.actTree (D.comp D.idA (D.comp (D.comp D.idA lp) ep)) er)) + 1)) =
                    BasicTree.Root (D.actV D.idA v) (BasicTree.Root (D.actV (D.comp D.idA (D.comp (D.comp D.idA lp) ep)) ev) (BasicTree.Root (D.actV D.idA (D.actV (D.comp D.idA lp) lv)) (BasicTree.actTree D.idA (BasicTree.actTree (D.comp D.idA lp) ll)) (BasicTree.actTree (D.comp D.idA (D.comp (D.comp D.idA lp) ep)) el) s2 D.idA (max (rankT (BasicTree.actTree D.idA (BasicTree.actTree (D.comp D.idA lp) ll))) (rankT (BasicTree.actTree (D.comp D.idA (D.comp (D.comp D.idA lp) ep)) el)) + 1)) (BasicTree.actTree (D.comp D.idA (D.comp (D.comp D.idA lp) ep)) er) s3 D.idA (max (max (rankT (BasicTree.actTree D.idA (BasicTree.actTree (D.comp D.idA lp) ll))) (rankT (BasicTree.actTree (D.comp D.idA (D.comp (D.comp D.idA lp) ep)) el)) + 1) (rankT (BasicTree.actTree (D.comp D.idA (D.comp (D.comp D.idA lp) ep)) er)) + 1))
                      (BasicTree.actTree D.idA r) (D.addS s3 (D.addS (D.toSummary (D.actV D.idA v)) (BasicTree.subtreeSummary (BasicTree.actTree D.idA r)))) D.idA b := by
                  simp [remakeFrame, BasicTree.rebuild, BasicTree.subtreeSummary]
                have hru : rotUpW id (⟨(⟨true, D.actV D.idA v, BasicTree.actTree D.idA r, b, w.leftCtx, w.rightCtx⟩ : Frame D Nat) :: w.frames, (BasicTree.Root (D.actV (D.comp D.idA (D.comp (D.comp D.idA lp) ep)) ev) (BasicTree.Root (D.actV D.idA (D.actV (D.comp D.idA lp) lv)) (BasicTree.actTree D.idA (BasicTree.actTree (D.comp D.idA lp) ll)) (BasicTree.actTree (D.comp D.idA (D.comp (D.comp D.idA lp) ep)) el) s2 D.idA (max (rankT (BasicTree.actTree D.idA (BasicTree.actTree (D.comp D.idA lp) ll))) (rankT (BasicTree.actTree (D.comp D.idA (D.comp (D.comp D.idA lp) ep)) el)) + 1)) (BasicTree.actTree (D.comp D.idA (D.comp (D.comp D.idA lp) ep)) er) s3 D.idA (max (max (rankT (BasicTree.actTree D.idA (BasicTree.actTree (D.comp D.idA lp) ll))) (rankT (BasicTree.actTree (D.comp D.idA (D.comp (D.comp D.idA lp) ep)) el)) + 1) (rankT (BasicTree.actTree (D.comp D.idA (D.comp (D.comp D.idA lp) ep)) er)) + 1)), w.leftCtx, (D.addS (D.toSummary (D.actV D.idA v)) (D.addS (BasicTree.actTree D.idA r).subtreeSummary w.rightCtx))⟩ : BasicWalker D Nat) =
                    some (true, ⟨w.frames, (BasicTree.Root (D.actV (D.comp D.idA D.idA) (D.actV (D.comp D.idA (D.comp (D.comp D.idA lp) ep)) ev)) (BasicTree.actTree (D.comp D.idA D.idA) (BasicTree.Root (D.actV D.idA (D.actV (D.comp D.idA lp) lv)) (BasicTree.actTree D.idA (BasicTree.actTree (D.comp D.idA lp) ll)) (BasicTree.actTree (D.comp D.idA (D.comp (D.comp D.idA lp) ep)) el) s2 D.idA (max (rankT (BasicTree.actTree D.idA (BasicTree.actTree (D.comp D.idA lp) ll))) (rankT (BasicTree.actTree (D.comp D.idA (D.comp (D.comp D.idA lp) ep)) el)) + 1))) (BasicTree.Root (D.actV D.idA (D.actV D.idA v)) (BasicTree.actTree (D.comp D.idA D.idA) (BasicTree.actTree (D.comp D.idA (D.comp (D.comp D.idA lp) ep)) er)) (BasicTree.actTree D.idA (BasicTree.actTree D.idA r)) σ2 D.idA b) σ3 D.idA (max (max (rankT (BasicTree.actTree D.idA (BasicTree.actTree (D.comp D.idA lp) ll))) (rankT (BasicTree.actTree (D.comp D.idA (D.comp (D.comp D.idA lp) ep)) el)) + 1) (rankT (BasicTree.actTree (D.comp D.idA (D.comp (D.comp D.idA lp) ep)) er)) + 1)), w.leftCtx, w.rightCtx⟩) := by
                  unfold rotUpW
                  rw [hgu2]
                  dsimp only
                  simp only [Bool.not_true, rotSideW, Bool.false_eq_true,
                    if_false]
                  unfold rotRightW
                  dsimp only
                  rw [hrmk, heq2]
                  rfl
                rw [hru]
              · simp only [rankT_root, rankT_actTree, heightT, heightT_actTree]
                omega
              · rw [noRevB_root_iff]
                refine ⟨hL.idRev, noRevB_actTree hL hrevc0 ?_, ?_⟩
                · rw [noRevB_root_iff]
                  exact ⟨hL.idRev,
                    noRevB_actTree hL hL.idRev (noRevB_actTree hL hrevc1 hnll),
                    noRevB_actTree hL hrevq2 hnel⟩
                · rw [noRevB_root_iff]
                  exact ⟨hL.idRev,
                    noRevB_actTree hL hrevc0 (noRevB_actTree hL hrevq2 hner),
                    noRevB_actTree hL hL.idRev (noRevB_actTree hL hL.idRev hnr)⟩
              · simp only [BasicTree.seq, BasicTree.seq_actTree hL,
                  BasicTree.applyA_comp hL, BasicTree.applyA_id hL,
                  applyA_norev hlp, applyA_norev hep, hL.compActV, hL.idActV,
                  List.map_append, List.map_cons]
                simp
              · simp only [rankT_root, rankT_actTree]
                omega
              · intro h1 h2
                exfalso
                omega
              · intro h1 h2 h3
                exfalso
                omega
  · rw [if_neg (show ¬(rankDiff (BasicTree.Root v l r s D.idA b) = -2) from
      hm2)]
    by_cases hmid : -1 ≤ (rankT r : Int) - rankT l ∧
        (rankT r : Int) - rankT l ≤ 1
    · rw [if_pos (show -1 ≤ rankDiff (BasicTree.Root v l r s D.idA b) ∧
        rankDiff (BasicTree.Root v l r s D.idA b) ≤ 1 from hmid)]
      refine ⟨BasicTree.Root v l r s D.idA b, ?_, ?_, ?_, ?_, ?_, ?_, ?_⟩
      · rw [← hc]
      · simp only [rankT_root, heightT]
        omega
      · rw [noRevB_root_iff]
        exact ⟨hL.idRev, hnl, hnr⟩
      · rw [BasicTree.seq, BasicTree.applyA_id hL]
      · exact Or.inl rfl
      · intro _ _
        rfl
      · intro h1 h2 h3
        rw [avlOK_root_iff]
        exact ⟨h1, h2, hb, by omega, by omega⟩
    · rw [if_neg (show ¬(-1 ≤ rankDiff (BasicTree.Root v l r s D.idA b) ∧
        rankDiff (BasicTree.Root v l r s D.idA b) ≤ 1) from hmid)]
      have h2d : (rankT r : Int) - rankT l = 2 := by
        simp only [not_and, not_le] at hmid
        omega
      rw [if_pos (show rankDiff (BasicTree.Root v l r s D.idA b) = 2 from h2d)]
      have hOKr : avlOK r = true := hdeepR h2d
      cases r with
      | Empty =>
          exfalso
          have h0 : rankT (BasicTree.Empty : BasicTree D Nat) = 0 := rfl
          have h1 : (0:Int) ≤ rankT l := Int.ofNat_nonneg _
          omega
      | Root rv rl rr rs rp rb =>
          have hrr0 : rankT (BasicTree.Root rv rl rr rs rp rb) = rb := rfl
          rw [noRevB_root_iff] at hnr
          obtain ⟨hrp, hnrl, hnrr⟩ := hnr
          rw [avlOK_root_iff] at hOKr
          obtain ⟨hOKrl, hOKrr, hrb, hrdiff1, hrdiff2⟩ := hOKr
          have ehrl : heightT rl = rankT rl := (avlOK_height hOKrl).symm
          have ehrr : heightT rr = rankT rr := (avlOK_height hOKrr).symm
          by_cases hinner : (0:Int) ≤ (rankT rr : Int) - rankT rl
          · -- right-right: one rank-rebuilding left rotation
            rw [if_pos (show (0:Int) ≤ rankDiff (BasicTree.Root rv rl rr rs rp rb)
              from hinner)]
            obtain ⟨s2, s3, heq⟩ := avlRotLeft_eq hL v rv l rl rr rs s rp rb b hrp
            refine ⟨BasicTree.Root (D.actV (D.comp D.idA rp) rv)
                (BasicTree.Root (D.actV D.idA v)
                  (BasicTree.actTree D.idA l)
                  (BasicTree.actTree (D.comp D.idA rp) rl) s2 D.idA
                  (max (rankT (BasicTree.actTree D.idA l))
                    (rankT (BasicTree.actTree (D.comp D.idA rp) rl)) + 1))
                (BasicTree.actTree (D.comp D.idA rp) rr)
                s3 D.idA
                (max (max (rankT (BasicTree.actTree D.idA l))
                    (rankT (BasicTree.actTree (D.comp D.idA rp) rl)) + 1)
                  (rankT (BasicTree.actTree (D.comp D.idA rp) rr)) + 1),
              ?_, ?_, ?_, ?_, ?_, ?_, ?_⟩
            · unfold avlRotLeft rotLeftW
              rw [hc, heq]
              rfl
            · simp only [rankT_root, heightT, rankT_actTree, heightT_actTree]
              omega
            · rw [noRevB_root_iff]
              refine ⟨hL.idRev, ?_,
                noRevB_actTree hL (toRev_comp_id hL hrp) hnrr⟩
              rw [noRevB_root_iff]
              exact ⟨hL.idRev, noRevB_actTree hL hL.idRev hnl,
                noRevB_actTree hL (toRev_comp_id hL hrp) hnrl⟩
            · simp only [BasicTree.seq, BasicTree.seq_actTree hL,
                BasicTree.applyA_comp hL, BasicTree.applyA_id hL,
                applyA_norev hrp, hL.compActV, hL.idActV, List.map_append,
                List.map_cons]
              simp
            · simp only [rankT_root, rankT_actTree]
              omega
            · intro h1 h2
              exfalso
              omega
            · intro hok1 hok2 h3
              rw [avlOK_root_iff]
              refine ⟨?_, ?_, rfl, ?_, ?_⟩
              · rw [avlOK_root_iff]
                refine ⟨by rw [avlOK_actTree]; exact hok1,
                  by rw [avlOK_actTree]; exact hOKrl, rfl, ?_, ?_⟩
                · simp only [rankT_actTree]
                  omega
                · simp only [rankT_actTree]
                  omega
              · rw [avlOK_actTree]
                exact hOKrr
              · simp only [rankT_root, rankT_actTree]
                omega
              · simp only [rankT_root, rankT_actTree]
                omega
          · -- right-left: go_right, rank-rebuilding rot_right and rot_up
            rw [if_neg (show ¬((0:Int) ≤ rankDiff
              (BasicTree.Root rv rl rr rs rp rb)) from hinner)]
            cases rl with
            | Empty =>
                exfalso
                have h0 : rankT (BasicTree.Empty : BasicTree D Nat) = 0 := rfl
                have h1 : (0:Int) ≤ rankT rr := Int.ofNat_nonneg _
                exact hinner (by omega)
            | Root slv sll slr sls slp slb =>
                have hrsl : rankT (BasicTree.Root slv sll slr sls slp slb)
                    = slb := rfl
                rw [noRevB_root_iff] at hnrl
                obtain ⟨hslp, hnsll, hnslr⟩ := hnrl
                rw [avlOK_root_iff] at hOKrl
                obtain ⟨hOKsll, hOKslr, hslb, hsdiff1, hsdiff2⟩ := hOKrl
                have ehsll : heightT sll = rankT sll :=
                  (avlOK_height hOKsll).symm
                have ehslr : heightT slr = rankT slr :=
                  (avlOK_height hOKslr).symm
                have hrevc1 : D.toReverse (D.comp D.idA rp) = false :=
                  toRev_comp_id hL hrp
                have hrevc2 : D.toReverse (D.comp (D.comp D.idA rp) slp)
                    = false := toRev_comp_ff hL hrevc1 hslp
                have hrevc0 : D.toReverse (D.comp D.idA D.idA) = false :=
                  toRev_comp_id hL hL.idRev
                have hrevq2 : D.toReverse
                    (D.comp D.idA (D.comp (D.comp D.idA rp) slp)) = false :=
                  toRev_comp_id hL hrevc2
                have hgoright : goRight w = some
                    ⟨⟨false, D.actV D.idA v, BasicTree.actTree D.idA l, b,
                        w.leftCtx, w.rightCtx⟩ :: w.frames,
                      BasicTree.Root (D.actV (D.comp D.idA rp) rv)
                        (BasicTree.Root slv sll slr
                          (D.actS (D.comp D.idA rp) sls)
                          (D.comp (D.comp D.idA rp) slp) slb)
                        (BasicTree.actTree (D.comp D.idA rp) rr)
                        (D.actS D.idA rs) D.idA rb,
                      D.addS (D.addS w.leftCtx
                        (BasicTree.actTree D.idA l).subtreeSummary)
                        (D.toSummary (D.actV D.idA v)),
                      w.rightCtx⟩ := by
                  unfold goRight
                  rw [hc]
                  simp only [BasicTree.propagate, hL.idRev, Bool.false_eq_true,
                    if_false, BasicTree.actTree, hrevc1]
                rw [hgoright]
                dsimp only
                obtain ⟨s2, s3, heq1⟩ := avlRotRight_eq hL
                  (D.actV (D.comp D.idA rp) rv) slv sll slr
                  (BasicTree.actTree (D.comp D.idA rp) rr)
                  (D.actS (D.comp D.idA rp) sls) (D.actS D.idA rs)
                  (D.comp (D.comp D.idA rp) slp) slb rb hrevc2
                have havl1 : avlRotRight
                    (⟨(⟨false, D.actV D.idA v, BasicTree.actTree D.idA l, b, w.leftCtx, w.rightCtx⟩ : Frame D Nat) :: w.frames,
                      BasicTree.Root (D.actV (D.comp D.idA rp) rv)
                        (BasicTree.Root slv sll slr
                          (D.actS (D.comp D.idA rp) sls)
                          (D.comp (D.comp D.idA rp) slp) slb)
                        (BasicTree.actTree (D.comp D.idA rp) rr)
                        (D.actS D.idA rs) D.idA rb,
                      (D.addS (D.addS w.leftCtx (BasicTree.actTree D.idA l).subtreeSummary) (D.toSummary (D.actV D.idA v))), w.rightCtx⟩ : BasicWalker D Nat) =
                    some (⟨(⟨false, D.actV D.idA v, BasicTree.actTree D.idA l, b, w.leftCtx, w.rightCtx⟩ : Frame D Nat) :: w.frames, (BasicTree.Root (D.actV (D.comp D.idA (D.comp (D.comp D.idA rp) slp)) slv) (BasicTree.actTree (D.comp D.idA (D.comp (D.comp D.idA rp) slp)) sll) (BasicTree.Root (D.actV D.idA (D.actV (D.comp D.idA rp) rv)) (BasicTree.actTree (D.comp D.idA (D.comp (D.comp D.idA rp) slp)) slr) (BasicTree.actTree D.idA (BasicTree.actTree (D.comp D.idA rp) rr)) s2 D.idA (max (rankT (BasicTree.actTree (D.comp D.idA (D.comp (D.comp D.idA rp) slp)) slr)) (rankT (BasicTree.actTree D.idA (BasicTree.actTree (D.comp D.idA rp) rr))) + 1)) s3 D.idA (max (rankT (BasicTree.actTree (D.comp D.idA (D.comp (D.comp D.idA rp) slp)) sll)) (max (rankT (BasicTree.actTree (D.comp D.idA (D.comp (D.comp D.idA rp) slp)) slr)) (rankT (BasicTree.actTree D.idA (BasicTree.actTree (D.comp D.idA rp) rr))) + 1) + 1)), (D.addS (D.addS w.leftCtx (BasicTree.actTree D.idA l).subtreeSummary) (D.toSummary (D.actV D.idA v))), w.rightCtx⟩ : BasicWalker D Nat) := by
                  unfold avlRotRight rotRightW
                  dsimp only
                  rw [heq1]
                  rfl
                rw [havl1]
                dsimp only
                have hgu2 : goUp (⟨(⟨false, D.actV D.idA v, BasicTree.actTree D.idA l, b, w.leftCtx, w.rightCtx⟩ : Frame D Nat) :: w.frames, (BasicTree.Root (D.actV (D.comp D.idA (D.comp (D.comp D.idA rp) slp)) slv) (BasicTree.actTree (D.comp D.idA (D.comp (D.comp D.idA rp) slp)) sll) (BasicTree.Root (D.actV D.idA (D.actV (D.comp D.idA rp) rv)) (BasicTree.actTree (D.comp D.idA (D.comp (D.comp D.idA rp) slp)) slr) (BasicTree.actTree D.idA (BasicTree.actTree (D.comp D.idA rp) rr)) s2 D.idA (max (rankT (BasicTree.actTree (D.comp D.idA (D.comp (D.comp D.idA rp) slp)) slr)) (rankT (BasicTree.actTree D.idA (BasicTree.actTree (D.comp D.idA rp) rr))) + 1)) s3 D.idA (max (rankT (BasicTree.actTree (D.comp D.idA (D.comp (D.comp D.idA rp) slp)) sll)) (max (rankT (BasicTree.actTree (D.comp D.idA (D.comp (D.comp D.idA rp) slp)) slr)) (rankT (BasicTree.actTree D.idA (BasicTree.actTree (D.comp D.idA rp) rr))) + 1) + 1)), (D.addS (D.addS w.leftCtx (BasicTree.actTree D.idA l).subtreeSummary) (D.toSummary (D.actV D.idA v))), w.rightCtx⟩ : BasicWalker D Nat) =
                    some (false, ⟨w.frames, remakeFrame (⟨false, D.actV D.idA v, BasicTree.actTree D.idA l, b, w.leftCtx, w.rightCtx⟩ : Frame D Nat) (BasicTree.Root (D.actV (D.comp D.idA (D.comp (D.comp D.idA rp) slp)) slv) (BasicTree.actTree (D.comp D.idA (D.comp (D.comp D.idA rp) slp)) sll) (BasicTree.Root (D.actV D.idA (D.actV (D.comp D.idA rp) rv)) (BasicTree.actTree (D.comp D.idA (D.comp (D.comp D.idA rp) slp)) slr) (BasicTree.actTree D.idA (BasicTree.actTree (D.comp D.idA rp) rr)) s2 D.idA (max (rankT (BasicTree.actTree (D.comp D.idA (D.comp (D.comp D.idA rp) slp)) slr)) (rankT (BasicTree.actTree D.idA (BasicTree.actTree (D.comp D.idA rp) rr))) + 1)) s3 D.idA (max (rankT (BasicTree.actTree (D.comp D.idA (D.comp (D.comp D.idA rp) slp)) sll)) (max (rankT (BasicTree.actTree (D.comp D.idA (D.comp (D.comp D.idA rp) slp)) slr)) (rankT (BasicTree.actTree D.idA (BasicTree.actTree (D.comp D.idA rp) rr))) + 1) + 1)),
                      w.leftCtx, w.rightCtx⟩) := by
                  simp [goUp]
                have hrmk : remakeFrame (⟨false, D.actV D.idA v, BasicTree.actTree D.idA l, b, w.leftCtx, w.rightCtx⟩ : Frame D Nat) (BasicTree.Root (D.actV (D.comp D.idA (D.comp (D.comp D.idA rp) slp)) slv) (BasicTree.actTree (D.comp D.idA (D.comp (D.comp D.idA rp) slp)) sll) (BasicTree.Root (D.actV D.idA (D.actV (D.comp D.idA rp) rv)) (BasicTree.actTree (D.comp D.idA (D.comp (D.comp D.idA rp) slp)) slr) (BasicTree.actTree D.idA (BasicTree.actTree (D.comp D.idA rp) rr)) s2 D.idA (max (rankT (BasicTree.actTree (D.comp D.idA (D.comp (D.comp D.idA rp) slp)) slr)) (rankT (BasicTree.actTree D.idA (BasicTree.actTree (D.comp D.idA rp) rr))) + 1)) s3 D.idA (max (rankT (BasicTree.actTree (D.comp D.idA (D.comp (D.comp D.idA rp) slp)) sll)) (max (rankT (BasicTree.actTree (D.comp D.idA (D.comp (D.comp D.idA rp) slp)) slr)) (rankT (BasicTree.actTree D.idA (BasicTree.actTree (D.comp D.idA rp) rr))) + 1) + 1)) =
                    BasicTree.Root (D.actV D.idA v)
                      (BasicTree.actTree D.idA l) (BasicTree.Root (D.actV (D.comp D.idA (D.comp (D.comp D.idA rp) slp)) slv) (BasicTree.actTree (D.comp D.idA (D.comp (D.comp D.idA rp) slp)) sll) (BasicTree.Root (D.actV D.idA (D.actV (D.comp D.idA rp) rv)) (BasicTree.actTree (D.comp D.idA (D.comp (D.comp D.idA rp) slp)) slr) (BasicTree.actTree D.idA (BasicTree.actTree (D.comp D.idA rp) rr)) s2 D.idA (max (rankT (BasicTree.actTree (D.comp D.idA (D.comp (D.comp D.idA rp) slp)) slr)) (rankT (BasicTree.actTree D.idA (BasicTree.actTree (D.comp D.idA rp) rr))) + 1)) s3 D.idA (max (rankT (BasicTree.actTree (D.comp D.idA (D.comp (D.comp D.idA rp) slp)) sll)) (max (rankT (BasicTree.actTree (D.comp D.idA (D.comp (D.comp D.idA rp) slp)) slr)) (rankT (BasicTree.actTree D.idA (BasicTree.actTree (D.comp D.idA rp) rr))) + 1) + 1)) (D.addS (BasicTree.subtreeSummary (BasicTree.actTree D.idA l)) (D.addS (D.toSummary (D.actV D.idA v)) s3)) D.idA b := by
                  simp [remakeFrame, BasicTree.rebuild, BasicTree.subtreeSummary]
                obtain ⟨σ2, σ3, heq2⟩ := avlRotLeft_eq hL (D.actV D.idA v)
                  (D.actV (D.comp D.idA (D.comp (D.comp D.idA rp) slp)) slv)
                  (BasicTree.actTree D.idA l) (BasicTree.actTree (D.comp D.idA (D.comp (D.comp D.idA rp) slp)) sll) (BasicTree.Root (D.actV D.idA (D.actV (D.comp D.idA rp) rv)) (BasicTree.actTree (D.comp D.idA (D.comp (D.comp D.idA rp) slp)) slr) (BasicTree.actTree D.idA (BasicTree.actTree (D.comp D.idA rp) rr)) s2 D.idA (max (rankT (BasicTree.actTree (D.comp D.idA (D.comp (D.comp D.idA rp) slp)) slr)) (rankT (BasicTree.actTree D.idA (BasicTree.actTree (D.comp D.idA rp) rr))) + 1))
                  s3 (D.addS (BasicTree.subtreeSummary (BasicTree.actTree D.idA l)) (D.addS (D.toSummary (D.actV D.idA v)) s3)) D.idA (max (rankT (BasicTree.actTree (D.comp D.idA (D.comp (D.comp D.idA rp) slp)) sll)) (max (rankT (BasicTree.actTree (D.comp D.idA (D.comp (D.comp D.idA rp) slp)) slr)) (rankT (BasicTree.actTree D.idA (BasicTree.actTree (D.comp D.idA rp) rr))) + 1) + 1) b hL.idRev
                have hru : avlRotUp (⟨(⟨false, D.actV D.idA v, BasicTree.actTree D.idA l, b, w.leftCtx, w.rightCtx⟩ : Frame D Nat) :: w.frames, (BasicTree.Root (D.actV (D.comp D.idA (D.comp (D.comp D.idA rp) slp)) slv) (BasicTree.actTree (D.comp D.idA (D.comp (D.comp D.idA rp) slp)) sll) (BasicTree.Root (D.actV D.idA (D.actV (D.comp D.idA rp) rv)) (BasicTree.actTree (D.comp D.idA (D.comp (D.comp D.idA rp) slp)) slr) (BasicTree.actTree D.idA (BasicTree.actTree (D.comp D.idA rp) rr)) s2 D.idA (max (rankT (BasicTree.actTree (D.comp D.idA (D.comp (D.comp D.idA rp) slp)) slr)) (rankT (BasicTree.actTree D.idA (BasicTree.actTree (D.comp D.idA rp) rr))) + 1)) s3 D.idA (max (rankT (BasicTree.actTree (D.comp D.idA (D.comp (D.comp D.idA rp) slp)) sll)) (max (rankT (BasicTree.actTree (D.comp D.idA (D.comp (D.comp D.idA rp) slp)) slr)) (rankT (BasicTree.actTree D.idA (BasicTree.actTree (D.comp D.idA rp) rr))) + 1) + 1)), (D.addS (D.addS w.leftCtx (BasicTree.actTree D.idA l).subtreeSummary) (D.toSummary (D.actV D.idA v))), w.rightCtx⟩ : BasicWalker D Nat) =
                    some (false, ⟨w.frames, (BasicTree.Root (D.actV (D.comp D.idA D.idA) (D.actV (D.comp D.idA (D.comp (D.comp D.idA rp) slp)) slv)) (BasicTree.Root (D.actV D.idA (D.actV D.idA v)) (BasicTree.actTree D.idA (BasicTree.actTree D.idA l)) (BasicTree.actTree (D.comp D.idA D.idA) (BasicTree.actTree (D.comp D.idA (D.comp (D.comp D.idA rp) slp)) sll)) σ2 D.idA (max (rankT (BasicTree.actTree D.idA (BasicTree.actTree D.idA l))) (rankT (BasicTree.actTree (D.comp D.idA D.idA) (BasicTree.actTree (D.comp D.idA (D.comp (D.comp D.idA rp) slp)) sll))) + 1)) (BasicTree.actTree (D.comp D.idA D.idA) (BasicTree.Root (D.actV D.idA (D.actV (D.comp D.idA rp) rv)) (BasicTree.actTree (D.comp D.idA (D.comp (D.comp D.idA rp) slp)) slr) (BasicTree.actTree D.idA (BasicTree.actTree (D.comp D.idA rp) rr)) s2 D.idA (max (rankT (BasicTree.actTree (D.comp D.idA (D.comp (D.comp D.idA rp) slp)) slr)) (rankT (BasicTree.actTree D.idA (BasicTree.actTree (D.comp D.idA rp) rr))) + 1))) σ3 D.idA (max (max (rankT (BasicTree.actTree D.idA (BasicTree.actTree D.idA l))) (rankT (BasicTree.actTree (D.comp D.idA D.idA) (BasicTree.actTree (D.comp D.idA (D.comp (D.comp D.idA rp) slp)) sll))) + 1) (rankT (BasicTree.actTree (D.comp D.idA D.idA) (BasicTree.Root (D.actV D.idA (D.actV (D.comp D.idA rp) rv)) (BasicTree.actTree (D.comp D.idA (D.comp (D.comp D.idA rp) slp)) slr) (BasicTree.actTree D.idA (BasicTree.actTree (D.comp D.idA rp) rr)) s2 D.idA (max (rankT (BasicTree.actTree (D.comp D.idA (D.comp (D.comp D.idA rp) slp)) slr)) (rankT (BasicTree.actTree D.idA (BasicTree.actTree (D.comp D.idA rp) rr))) + 1)))) + 1)), w.leftCtx, w.rightCtx⟩) := by
                  unfold avlRotUp rotUpW
                  rw [hgu2]
                  dsimp only
                  show (rotLeftW rankRebuilder _).map _ = _
                  unfold rotLeftW
                  dsimp only
                  rw [hrmk, heq2]
                  rfl
                refine ⟨(BasicTree.Root (D.actV (D.comp D.idA D.idA) (D.actV (D.comp D.idA (D.comp (D.comp D.idA rp) slp)) slv)) (BasicTree.Root (D.actV D.idA (D.actV D.idA v)) (BasicTree.actTree D.idA (BasicTree.actTree D.idA l)) (BasicTree.actTree (D.comp D.idA D.idA) (BasicTree.actTree (D.comp D.idA (D.comp (D.comp D.idA rp) slp)) sll)) σ2 D.idA (max (rankT (BasicTree.actTree D.idA (BasicTree.actTree D.idA l))) (rankT (BasicTree.actTree (D.comp D.idA D.idA) (BasicTree.actTree (D.comp D.idA (D.comp (D.comp D.idA rp) slp)) sll))) + 1)) (BasicTree.actTree (D.comp D.idA D.idA) (BasicTree.Root (D.actV D.idA (D.actV (D.comp D.idA rp) rv)) (BasicTree.actTree (D.comp D.idA (D.comp (D.comp D.idA rp) slp)) slr) (BasicTree.actTree D.idA (BasicTree.actTree (D.comp D.idA rp) rr)) s2 D.idA (max (rankT (BasicTree.actTree (D.comp D.idA (D.comp (D.comp D.idA rp) slp)) slr)) (rankT (BasicTree.actTree D.idA (BasicTree.actTree (D.comp D.idA rp) rr))) + 1))) σ3 D.idA (max (max (rankT (BasicTree.actTree D.idA (BasicTree.actTree D.idA l))) (rankT (BasicTree.actTree (D.comp D.idA D.idA) (BasicTree.actTree (D.comp D.idA (D.comp (D.comp D.idA rp) slp)) sll))) + 1) (rankT (BasicTree.actTree (D.comp D.idA D.idA) (BasicTree.Root (D.actV D.idA (D.actV (D.comp D.idA rp) rv)) (BasicTree.actTree (D.comp D.idA (D.comp (D.comp D.idA rp) slp)) slr) (BasicTree.actTree D.idA (BasicTree.actTree (D.comp D.idA rp) rr)) s2 D.idA (max (rankT (BasicTree.actTree (D.comp D.idA (D.comp (D.comp D.idA rp) slp)) slr)) (rankT (BasicTree.actTree D.idA (BasicTree.actTree (D.comp D.idA rp) rr))) + 1)))) + 1)), ?_, ?_, ?_, ?_, ?_, ?_, ?_⟩
                · rw [hru]
                · simp only [rankT_root, rankT_actTree, heightT,
                    heightT_actTree]
                  omega
                · rw [noRevB_root_iff]
                  refine ⟨hL.idRev, ?_, noRevB_actTree hL hrevc0 ?_⟩
                  · rw [noRevB_root_iff]
                    exact ⟨hL.idRev,
                      noRevB_actTree hL hL.idRev
                        (noRevB_actTree hL hL.idRev hnl),
                      noRevB_actTree hL hrevc0
                        (noRevB_actTree hL hrevq2 hnsll)⟩
                  · rw [noRevB_root_iff]
                    exact ⟨hL.idRev, noRevB_actTree hL hrevq2 hnslr,
                      noRevB_actTree hL hL.idRev
                        (noRevB_actTree hL hrevc1 hnrr)⟩
                · simp only [BasicTree.seq, BasicTree.seq_actTree hL,
                    BasicTree.applyA_comp hL, BasicTree.applyA_id hL,
                    applyA_norev hrp, applyA_norev hslp, hL.compActV,
                    hL.idActV, List.map_append, List.map_cons]
                  simp
                · simp only [rankT_root, rankT_actTree]
                  omega
                · intro h1 h2
                  exfalso
                  omega
                · intro hok1 hok2 h3
                  rw [avlOK_root_iff]
                  refine ⟨?_, ?_, rfl, ?_, ?_⟩
                  · rw [avlOK_root_iff]
                    refine ⟨?_, ?_, rfl, ?_, ?_⟩
                    · rw [avlOK_actTree, avlOK_actTree]
                      exact hok1
                    · rw [avlOK_actTree, avlOK_actTree]
                      exact hOKsll
                    · simp only [rankT_actTree]
                      omega
                    · simp only [rankT_actTree]
                      omega
                  · rw [avlOK_actTree, avlOK_root_iff]
                    refine ⟨?_, ?_, rfl, ?_, ?_⟩
                    · rw [avlOK_actTree]
                      exact hOKslr
                    · rw [avlOK_actTree, avlOK_actTree]
                      exact hOKrr
                    · simp only [rankT_actTree]
                      omega
                    · simp only [rankT_actTree]
                      omega
                  · simp only [rankT_root, rankT_actTree]
                    omega
                  · simp only [rankT_root, rankT_actTree]
                    omega

/-- The frame-stack invariant maintained by `from_iter`'s repeated
rightmost inserts: every frame records a right descent, its sibling is a
valid AVL tree without reverse bits, the rank stored for the parent is
consistent with the sibling and the original rank `h` of the descent
position, and the ranks thread upward. -/
def framesIns {D : DataC} : List (Frame D Nat) → Nat → Prop
  | [], _ => True
  | f :: fs, h => f.isLeft = false ∧ avlOK f.sibling = true ∧
      noRevB f.sibling = true ∧
      (h : Int) - rankT f.sibling ≤ 1 ∧ (rankT f.sibling : Int) - h ≤ 1 ∧
      f.algData = max (rankT f.sibling) h + 1 ∧
      framesIns fs (max (rankT f.sibling) h + 1)

theorem framesIns_cons {D : DataC} {f : Frame D Nat}
    {fs : List (Frame D Nat)} {h : Nat} :
    framesIns (f :: fs) h ↔ f.isLeft = false ∧ avlOK f.sibling = true ∧
      noRevB f.sibling = true ∧
      (h : Int) - rankT f.sibling ≤ 1 ∧ (rankT f.sibling : Int) - h ≤ 1 ∧
      f.algData = max (rankT f.sibling) h + 1 ∧
      framesIns fs (max (rankT f.sibling) h + 1) := Iff.rfl

theorem rebuildRanks_of_avlOK {D : DataC} {t : BasicTree D Nat}
    (h : avlOK t = true) : (rebuildRanksT t).2 = t := by
  cases t with
  | Empty => rfl
  | Root v l r s p b =>
      rw [avlOK_root_iff] at h
      simp [rebuildRanksT, h.2.2.1]

theorem seq_rebuildRanks {D : DataC} (t : BasicTree D Nat) :
    (rebuildRanksT t).2.seq = t.seq := by
  cases t <;> rfl

/-- The rebalancing loop after a rightmost insert: it terminates without
panicking, preserves the tree's sequence, and leaves the walker at a
valid AVL subtree on a right spine whose frame stack again satisfies the
insert invariant. -/
theorem rebalanceGo_ins {D : DataC} (hL : DataLaws D) :
    ∀ (fuel : Nat) (w : BasicWalker D Nat) (h : Nat)
      {v : D.Value} {l r : BasicTree D Nat} {s : D.Summary} {b : Nat},
      w.frames.length < fuel →
      w.cur = BasicTree.Root v l r s D.idA b →
      avlOK l = true → avlOK r = true →
      noRevB l = true → noRevB r = true →
      b = max (rankT l) (rankT r) + 1 →
      (rankT l : Int) - rankT r ≤ 1 →
      (rankT r : Int) - rankT l ≤ 2 →
      (b = h ∨ b = h + 1) →
      ((rankT r : Int) - rankT l = 2 → b = h + 1) →
      framesIns w.frames h →
      ∃ w2, rebalanceGo fuel w = some w2 ∧ wSeq w2 = wSeq w ∧
        avlOK w2.cur = true ∧ noRevB w2.cur = true ∧
        framesIns w2.frames (rankT w2.cur) ∧ w2.cur.isEmpty = false := by
  intro fuel
  induction fuel with
  | zero =>
      intro w h v l r s b hfu
      omega
  | succ fuel ih =>
      intro w h v l r s b hfu hc hOKl hOKr hnl hnr hb hd1 hd2 hdrift hdeep hfr
      obtain ⟨T, hstep, hgT, hnT, hseqT, hrange, hsmall, hOKTc⟩ :=
        rebalanceStep_spec hL hc hb (avlOK_height hOKl) (avlOK_height hOKr)
          hnl hnr (by omega) hd2 (fun hh => absurd hh (by omega))
          (fun _ => hOKr)
      have hOKT : avlOK T = true := hOKTc hOKl hOKr hd1
      have hTrange : rankT T = h ∨ rankT T = h + 1 := by
        by_cases hdd : (rankT r : Int) - rankT l ≤ 1
        · have := hsmall hd1 hdd
          omega
        · have hb1 : b = h + 1 := hdeep (by omega)
          omega
      have hseqcur : T.seq = w.cur.seq := by
        rw [hseqT, hc, BasicTree.seq, BasicTree.applyA_id hL]
      simp only [rebalanceGo]
      rw [hstep]
      dsimp only
      cases hfw : w.frames with
      | nil =>
          have hgu : goUp (⟨[], T, w.leftCtx, w.rightCtx⟩ :
              BasicWalker D Nat) = none := by
            simp [goUp]
          rw [hgu]
          have hT2 : (rebuildRanksT T).2 = T := rebuildRanks_of_avlOK hOKT
          refine ⟨_, rfl, ?_, ?_, ?_, ?_, ?_⟩
          · rw [wSeq_eq hL, wSeq_eq hL, hfw]
            dsimp only
            simp [framesBefore, framesAfter, seq_rebuildRanks, hseqcur]
          · show avlOK (rebuildRanksT T).2 = true
            rw [hT2]
            exact hOKT
          · show noRevB (rebuildRanksT T).2 = true
            rw [hT2]
            exact hnT
          · show framesIns ([] : List (Frame D Nat)) _
            trivial
          · show (rebuildRanksT T).2.isEmpty = false
            rw [hT2]
            cases T with
            | Empty => exact absurd hseqT (by simp [BasicTree.seq])
            | Root a c e u p k => rfl
      | cons f fs =>
          rw [hfw, framesIns_cons] at hfr
          obtain ⟨hf0, hfOK, hfn, hfd1, hfd2, hfalg, hfrest⟩ := hfr
          have hgu : goUp (⟨f :: fs, T, w.leftCtx, w.rightCtx⟩ :
              BasicWalker D Nat) =
              some (f.isLeft, ⟨fs, remakeFrame f T, f.leftCtx, f.rightCtx⟩) := by
            simp [goUp]
          rw [hgu]
          dsimp only
          obtain ⟨S2, hrm⟩ := remakeFrame_shape f T
          rw [if_neg (by simp [hf0])] at hrm
          rw [hrm]
          simp only [rebuildRanksT]
          have hsib : heightT f.sibling = rankT f.sibling :=
            (avlOK_height hfOK).symm
          by_cases hch : f.algData = max (rankT f.sibling) (rankT T) + 1
          · rw [if_neg (by simp [hch])]
          
            refine ⟨_, rfl, ?_, ?_, ?_, ?_, ?_⟩
            · rw [wSeq_eq hL, wSeq_eq hL]
              dsimp only
              rw [hfw]
              simp [framesBefore, framesAfter, hf0, BasicTree.seq,
                BasicTree.applyA_id hL, hseqcur]
            · show avlOK (BasicTree.Root f.value f.sibling T S2 D.idA
                (max (rankT f.sibling) (rankT T) + 1)) = true
              rw [avlOK_root_iff]
              exact ⟨hfOK, hOKT, rfl, by omega, by omega⟩
            · show noRevB (BasicTree.Root f.value f.sibling T S2 D.idA
                (max (rankT f.sibling) (rankT T) + 1)) = true
              rw [noRevB_root_iff]
              exact ⟨hL.idRev, hfn, hnT⟩
            · show framesIns fs (rankT (BasicTree.Root f.value f.sibling T S2
                D.idA (max (rankT f.sibling) (rankT T) + 1)))
              rw [rankT_root]
              have hmax : max (rankT f.sibling) (rankT T)
                  = max (rankT f.sibling) h := by omega
              rw [hmax]
              exact hfrest
            · rfl
          · rw [if_pos (by simp [hch])]
            obtain ⟨w2, hloop, hseq2, hOK2, hn2, hfr2, hne2⟩ :=
              ih (⟨fs, BasicTree.Root f.value f.sibling T S2 D.idA
                  (max (rankT f.sibling) (rankT T) + 1),
                  f.leftCtx, f.rightCtx⟩ : BasicWalker D Nat)
                (max (rankT f.sibling) h + 1)
                (by show fs.length < fuel
                    rw [hfw] at hfu
                    simp only [List.length_cons] at hfu
                    omega)
                rfl hfOK hOKT hfn hnT rfl (by omega) (by omega) (by omega)
                (by omega) hfrest
            refine ⟨w2, hloop, ?_, hOK2, hn2, hfr2, hne2⟩
            rw [hseq2, wSeq_eq hL, wSeq_eq hL]
            dsimp only
            rw [hfw]
            simp [framesBefore, framesAfter, hf0, BasicTree.seq,
              BasicTree.applyA_id hL, hseqcur]

theorem avlOK_leaf {D : DataC} (v : D.Value) (s : D.Summary) (p : D.Action) :
    avlOK (BasicTree.Root v BasicTree.Empty BasicTree.Empty s p 1) = true := by
  rw [avlOK_root_iff]
  exact ⟨rfl, rfl, rfl, by simp [rankT], by simp [rankT]⟩

theorem noRevB_leaf {D : DataC} (hL : DataLaws D) (v : D.Value)
    (s : D.Summary) (b : Nat) :
    noRevB (BasicTree.Root v BasicTree.Empty BasicTree.Empty s D.idA b)
      = true := by
  rw [noRevB_root_iff]
  exact ⟨hL.idRev, rfl, rfl⟩

/-- `AVLWalker::insert` at a rightmost gap whose frame stack satisfies the
insert invariant: it succeeds, places the value exactly at the gap, and
restores the invariant (valid AVL subtree at the walker, right-spine
frames). -/
theorem insertAVL_gap {D : DataC} (hL : DataLaws D) {w : BasicWalker D Nat}
    (v : D.Value) (hc : w.cur = BasicTree.Empty)
    (hfr : framesIns w.frames 0) :
    ∃ w2, insertAVL w v = some (some w2) ∧
      wSeq w2 = framesBefore w.frames ++ v :: framesAfter w.frames ∧
      avlOK w2.cur = true ∧ noRevB w2.cur = true ∧
      framesIns w2.frames (rankT w2.cur) ∧ w2.cur.isEmpty = false := by
  unfold insertAVL
  have hins : insertNew w v 1 = some { w with
      cur := BasicTree.Root v BasicTree.Empty BasicTree.Empty
        (D.toSummary v) D.idA 1 } := by
    unfold insertNew
    rw [hc]
  rw [hins]
  dsimp only
  cases hfw : w.frames with
  | nil =>
      have hgu : avlGoUp (⟨[],
          BasicTree.Root v BasicTree.Empty BasicTree.Empty
            (D.toSummary v) D.idA 1, w.leftCtx, w.rightCtx⟩ :
          BasicWalker D Nat) = none := by
        simp [avlGoUp, goUp]
      simp only [hgu]
      have hne : ((⟨[],
          BasicTree.Root v BasicTree.Empty BasicTree.Empty
            (D.toSummary v) D.idA 1, w.leftCtx, w.rightCtx⟩ :
          BasicWalker D Nat)).isEmpty = false := rfl
      unfold rebalance
      rw [hne]
      simp only [Bool.false_eq_true, if_false]
      obtain ⟨w2, hloop, hseq2, hOK2, hn2, hfr2, hne2⟩ :=
        rebalanceGo_ins hL
          ((⟨[], BasicTree.Root v BasicTree.Empty BasicTree.Empty
              (D.toSummary v) D.idA 1, w.leftCtx, w.rightCtx⟩ :
            BasicWalker D Nat).depth + 1)
          ((⟨[], BasicTree.Root v BasicTree.Empty BasicTree.Empty
              (D.toSummary v) D.idA 1, w.leftCtx, w.rightCtx⟩ :
            BasicWalker D Nat))
          0 (by show (0:Nat) < 0 + 1; omega) rfl rfl rfl rfl rfl rfl
          (by simp [rankT]) (by simp [rankT])
          (by right; rfl) (by intro h; rfl)
          trivial
      refine ⟨w2, by rw [hloop]; rfl, ?_, hOK2, hn2, hfr2, hne2⟩
      rw [hseq2, wSeq_eq hL]
      simp [framesBefore, framesAfter, BasicTree.seq, BasicTree.applyA_id hL]
  | cons f fs =>
      rw [hfw, framesIns_cons] at hfr
      obtain ⟨hf0, hfOK, hfn, hfd1, hfd2, hfalg, hfrest⟩ := hfr
      obtain ⟨S2, hrm⟩ := remakeFrame_shape f
        (BasicTree.Root v BasicTree.Empty BasicTree.Empty (D.toSummary v)
          D.idA 1)
      rw [if_neg (by simp [hf0])] at hrm
      have hgu : avlGoUp (⟨f :: fs,
          BasicTree.Root v BasicTree.Empty BasicTree.Empty
            (D.toSummary v) D.idA 1, w.leftCtx, w.rightCtx⟩ :
            BasicWalker D Nat) =
          some (f.isLeft, ⟨fs,
            BasicTree.Root f.value f.sibling
              (BasicTree.Root v BasicTree.Empty BasicTree.Empty
                (D.toSummary v) D.idA 1) S2 D.idA
              (max (rankT f.sibling)
                (rankT (BasicTree.Root v BasicTree.Empty BasicTree.Empty
                  (D.toSummary v) D.idA 1)) + 1),
            f.leftCtx, f.rightCtx⟩) := by
        simp [avlGoUp, goUp, hrm]
        rfl
      simp only [hgu]
      have hne : (⟨fs,
          BasicTree.Root f.value f.sibling
            (BasicTree.Root v BasicTree.Empty BasicTree.Empty
              (D.toSummary v) D.idA 1) S2 D.idA
            (max (rankT f.sibling)
              (rankT (BasicTree.Root v BasicTree.Empty BasicTree.Empty
                (D.toSummary v) D.idA 1)) + 1),
          f.leftCtx, f.rightCtx⟩ : BasicWalker D Nat).isEmpty = false := rfl
      unfold rebalance
      rw [hne]
      simp only [Bool.false_eq_true, if_false]
      have hrleaf : rankT (BasicTree.Root v BasicTree.Empty BasicTree.Empty
          (D.toSummary v) D.idA 1) = 1 := rfl
      obtain ⟨w2, hloop, hseq2, hOK2, hn2, hfr2, hne2⟩ :=
        rebalanceGo_ins hL ((⟨fs, BasicTree.Root f.value f.sibling (BasicTree.Root v BasicTree.Empty BasicTree.Empty (D.toSummary v) D.idA 1) S2 D.idA (max (rankT f.sibling) (rankT (BasicTree.Root v BasicTree.Empty BasicTree.Empty (D.toSummary v) D.idA 1)) + 1), f.leftCtx, f.rightCtx⟩ : BasicWalker D Nat).depth + 1) (⟨fs, BasicTree.Root f.value f.sibling (BasicTree.Root v BasicTree.Empty BasicTree.Empty (D.toSummary v) D.idA 1) S2 D.idA (max (rankT f.sibling) (rankT (BasicTree.Root v BasicTree.Empty BasicTree.Empty (D.toSummary v) D.idA 1)) + 1), f.leftCtx, f.rightCtx⟩ : BasicWalker D Nat)
          (max (rankT f.sibling) 0 + 1)
          (by show fs.length < fs.length + 1; omega) rfl hfOK
          (avlOK_leaf v (D.toSummary v) D.idA) hfn
          (noRevB_leaf hL v (D.toSummary v) 1) rfl
          (by rw [hrleaf]; omega) (by rw [hrleaf]; omega)
          (by rw [hrleaf]; omega) (by rw [hrleaf]; omega)
          hfrest
      refine ⟨w2, by rw [hloop]; rfl, ?_, hOK2, hn2, hfr2, hne2⟩
      rw [hseq2, wSeq_eq hL]
      dsimp only
      simp [framesBefore, framesAfter, hf0, BasicTree.seq,
        BasicTree.applyA_id hL]

/-- The rightmost descent from a valid AVL position on a right spine:
it ends at a gap, preserves the sequence, and the collected frame stack
satisfies the insert invariant at rank 0. -/
theorem goRightAll_ins {D : DataC} (hL : DataLaws D) :
    ∀ (fuel : Nat) (w : BasicWalker D Nat), w.cur.size < fuel →
      avlOK w.cur = true → noRevB w.cur = true →
      framesIns w.frames (rankT w.cur) →
      (goRightAll fuel w).cur = BasicTree.Empty ∧
      wSeq (goRightAll fuel w) = wSeq w ∧
      framesIns (goRightAll fuel w).frames 0 := by
  intro fuel
  induction fuel with
  | zero => intro w h; omega
  | succ fuel ih =>
      intro w hsz hOK hn hfr
      rw [goRightAll]
      cases hcw : w.cur with
      | Empty =>
          have hg : goRight w = none := (goRight_none_iff w).mpr hcw
          rw [hg]
          refine ⟨hcw, rfl, ?_⟩
          have h0 : rankT w.cur = 0 := by rw [hcw]; rfl
          rw [← h0]
          exact hfr
      | Root v l r s p b =>
          rw [hcw] at hOK hn
          rw [noRevB_root_iff] at hn
          obtain ⟨hp, hnl, hnr⟩ := hn
          rw [avlOK_root_iff] at hOK
          obtain ⟨hOKl, hOKr, hb, hdf1, hdf2⟩ := hOK
          have hg : goRight w = some
              ⟨⟨false, D.actV p v, BasicTree.actTree p l, b,
                  w.leftCtx, w.rightCtx⟩ :: w.frames,
                (BasicTree.actTree p r).propagate,
                D.addS (D.addS w.leftCtx
                  (BasicTree.actTree p l).subtreeSummary)
                  (D.toSummary (D.actV p v)),
                w.rightCtx⟩ := by
            unfold goRight
            rw [hcw]
            simp [BasicTree.propagate, hp]
          rw [hg]
          have hrk : rankT ((BasicTree.actTree p r).propagate) = rankT r := by
            rw [rankT_propagate, rankT_actTree]
          have hszr : ((BasicTree.actTree p r).propagate).size = r.size := by
            rw [BasicTree.size_propagate, BasicTree.size_actTree]
          have hsz2 : ((⟨⟨false, D.actV p v, BasicTree.actTree p l, b,
              w.leftCtx, w.rightCtx⟩ :: w.frames,
              (BasicTree.actTree p r).propagate,
              D.addS (D.addS w.leftCtx
                (BasicTree.actTree p l).subtreeSummary)
                (D.toSummary (D.actV p v)),
              w.rightCtx⟩ : BasicWalker D Nat)).cur.size < fuel := by
            show ((BasicTree.actTree p r).propagate).size < fuel
            rw [hszr]
            rw [hcw] at hsz
            simp only [BasicTree.size] at hsz
            omega
          have hOK2 : avlOK ((BasicTree.actTree p r).propagate) = true := by
            rw [avlOK_propagate, avlOK_actTree]
            exact hOKr
          have hn2 : noRevB ((BasicTree.actTree p r).propagate) = true :=
            noRevB_propagate hL (noRevB_actTree hL hp hnr)
          have hfr2 : framesIns ((⟨false, D.actV p v,
              BasicTree.actTree p l, b, w.leftCtx, w.rightCtx⟩ : Frame D Nat)
              :: w.frames) (rankT ((BasicTree.actTree p r).propagate)) := by
            rw [hrk, framesIns_cons]
            refine ⟨rfl, ?_, ?_, ?_, ?_, ?_, ?_⟩
            · show avlOK (BasicTree.actTree p l) = true
              rw [avlOK_actTree]
              exact hOKl
            · exact noRevB_actTree hL hp hnl
            · show (rankT r : Int) - rankT (BasicTree.actTree p l) ≤ 1
              rw [rankT_actTree]
              omega
            · show (rankT (BasicTree.actTree p l) : Int) - rankT r ≤ 1
              rw [rankT_actTree]
              omega
            · show b = max (rankT (BasicTree.actTree p l)) (rankT r) + 1
              rw [rankT_actTree]
              exact hb
            · show framesIns w.frames
                (max (rankT (BasicTree.actTree p l)) (rankT r) + 1)
              rw [rankT_actTree, ← hb]
              have hbw : rankT w.cur = b := by rw [hcw]; rfl
              rw [← hbw]
              exact hfr
          obtain ⟨h1, h2, h3⟩ := ih _ hsz2 hOK2 hn2 hfr2
          exact ⟨h1, h2.trans (goRight_spec hL hg).1, h3⟩

/-- Modelled from the spec: `iter` (spec §4.2 `iter_subtree` over the whole
tree, §6 `iter`): forward in-order traversal that propagates each visited
node before recursing; `fuel` bounds the recursion depth. -/
def iterT {D : DataC} {B : Type} : Nat → BasicTree D B → List D.Value
  | 0, _ => []
  | fuel+1, t =>
      match t.propagate with
      | BasicTree.Empty => []
      | BasicTree.Root v l r _ _ _ => iterT fuel l ++ v :: iterT fuel r

/-- With enough fuel, in-order iteration yields exactly the logical
in-order sequence of the tree. -/
theorem iterT_eq_seq {D : DataC} {B : Type} (hL : DataLaws D) :
    ∀ (fuel : Nat) (t : BasicTree D B), t.size < fuel →
      iterT fuel t = t.seq := by
  intro fuel
  induction fuel with
  | zero => intro t h; omega
  | succ fuel ih =>
      intro t h
      rw [iterT]
      cases hp : t.propagate with
      | Empty =>
          have hs := seq_propagate hL t
          rw [hp] at hs
          exact hs
      | Root v l r s p b =>
          have hsz := BasicTree.size_propagate t
          rw [hp] at hsz
          simp only [BasicTree.size] at hsz
          have hs := seq_propagate hL t
          rw [hp, propagate_pending hp] at hs
          rw [← hs]
          simp [seq, applyA_id hL, ih l (by omega), ih r (by omega)]

/-- `AVLTree::from_iter` (avl.rs 241-259), the loop body: for each value,
`while let Ok(_) = walker.go_right() {}` and then `walker.insert(val)`
with the returned `Option` discarded (on a refusal the walker is simply
left where it was).  The outer `none` models a panic inside the
rebalancing of an insert. -/
def fromIterGo {D : DataC} : List D.Value → BasicWalker D Nat →
    Option (BasicWalker D Nat)
  | [], w => some w
  | v :: xs, w =>
      match insertAVL (goRightAll (w.cur.size + 1) w) v with
      | none => none
      | some none => fromIterGo xs (goRightAll (w.cur.size + 1) w)
      | some (some w2) => fromIterGo xs w2

/-- `AVLTree::from_iter` (avl.rs 241-259): start from an empty tree,
insert each value at the rightmost position, and drop the walker
(reassembling the tree). -/
def fromIterAVL {D : DataC} (xs : List D.Value) : Option (BasicTree D Nat) :=
  (fromIterGo xs (BasicWalker.new BasicTree.Empty)).map reassemble

theorem framesIns_all_right {D : DataC} :
    ∀ (fs : List (Frame D Nat)) (h : Nat), framesIns fs h →
      ∀ f ∈ fs, f.isLeft = false := by
  intro fs
  induction fs with
  | nil => intro h _ f hf; exact absurd hf (List.not_mem_nil f)
  | cons g gs ih =>
      intro h hfr f hf
      rw [framesIns_cons] at hfr
      rcases List.mem_cons.mp hf with hf | hf
      · rw [hf]; exact hfr.1
      · exact ih _ hfr.2.2.2.2.2.2 f hf

/-- The `from_iter` loop for the AVL tree: starting from any walker
satisfying the insert invariant, it succeeds, appends the values at the
right end of the sequence, and preserves the invariant. -/
theorem fromIterGo_spec {D : DataC} (hL : DataLaws D) :
    ∀ (xs : List D.Value) (w : BasicWalker D Nat),
      avlOK w.cur = true → noRevB w.cur = true →
      framesIns w.frames (rankT w.cur) →
      ∃ w2, fromIterGo xs w = some w2 ∧ wSeq w2 = wSeq w ++ xs ∧
        avlOK w2.cur = true ∧ noRevB w2.cur = true ∧
        framesIns w2.frames (rankT w2.cur) := by
  intro xs
  induction xs with
  | nil =>
      intro w hOK hn hfr
      exact ⟨w, rfl, by simp, hOK, hn, hfr⟩
  | cons v xs ih =>
      intro w hOK hn hfr
      obtain ⟨h1, h2, h3⟩ := goRightAll_ins hL (w.cur.size + 1) w
        (by omega) hOK hn hfr
      obtain ⟨w2, hins, hseq2, hOK2, hn2, hfr2, _⟩ :=
        insertAVL_gap hL v h1 h3
      obtain ⟨w3, hgo, hseq3, hOK3, hn3, hfr3⟩ := ih w2 hOK2 hn2 hfr2
      refine ⟨w3, ?_, ?_, hOK3, hn3, hfr3⟩
      · rw [fromIterGo]
        simp only [hins, hgo]
      · have hall := framesIns_all_right _ _ h3
        have hafter : framesAfter (goRightAll (w.cur.size + 1) w).frames
            = [] := framesAfter_all_right hall
        have hw1 : wSeq (goRightAll (w.cur.size + 1) w) =
            framesBefore (goRightAll (w.cur.size + 1) w).frames := by
          rw [wSeq_eq hL, h1, hafter]
          simp [seq]
        rw [hseq3, hseq2, hafter, ← hw1, h2]
        simp

/-- `AVLTree::from_iter` builds, without panicking, a tree whose logical
in-order sequence is exactly the input sequence. -/
theorem fromIterAVL_spec {D : DataC} (hL : DataLaws D) (xs : List D.Value) :
    ∃ t, fromIterAVL (D := D) xs = some t ∧ t.seq = xs := by
  obtain ⟨w2, hgo, hseq, _, _, _⟩ := fromIterGo_spec hL xs
    (BasicWalker.new BasicTree.Empty) rfl rfl trivial
  refine ⟨reassemble w2, ?_, ?_⟩
  · rw [fromIterAVL, hgo]
    rfl
  · show wSeq w2 = xs
    rw [hseq]
    rfl

/-- Modelled from the spec: `from_in_order_sequence` for the basic tree
(spec §6: "splay: straightforward from_iter"; `SplayTree::from_iter`,
splay.rs 330-334, wraps the basic-tree collect): for each value walk to
the rightmost position and insert a fresh node there. -/
def fromIterGoB {D : DataC} {B : Type} (b : B) :
    List D.Value → BasicWalker D B → Option (BasicWalker D B)
  | [], w => some w
  | v :: xs, w =>
      match insertNew (goRightAll (w.cur.size + 1) w) v b with
      | none => none
      | some w2 => fromIterGoB b xs w2

/-- Modelled from the spec: the basic (and hence splay, splay.rs 330-334)
tree's `from_iter`: repeated rightmost insert starting from the empty
tree, then drop the walker. -/
def fromIterBasicT {D : DataC} {B : Type} (b : B) (xs : List D.Value) :
    Option (BasicTree D B) :=
  (fromIterGoB b xs (BasicWalker.new BasicTree.Empty)).map reassemble

/-- The basic `from_iter` loop: starting from a walker with only
right-descent frames, it succeeds, appends the values at the right end of
the sequence, and keeps all frames right-descents. -/
theorem fromIterGoB_spec {D : DataC} {B : Type} (hL : DataLaws D) (b : B) :
    ∀ (xs : List D.Value) (w : BasicWalker D B),
      (∀ f ∈ w.frames, f.isLeft = false) →
      ∃ w2, fromIterGoB b xs w = some w2 ∧ wSeq w2 = wSeq w ++ xs ∧
        ∀ f ∈ w2.frames, f.isLeft = false := by
  intro xs
  induction xs with
  | nil =>
      intro w hall
      exact ⟨w, rfl, by simp, hall⟩
  | cons v xs ih =>
      intro w hall
      obtain ⟨h1, h2, gs, hgs, hgsall⟩ :=
        goRightAll_spec hL (w.cur.size + 1) w (by omega)
      have hall1 : ∀ f ∈ (goRightAll (w.cur.size + 1) w).frames,
          f.isLeft = false := by
        intro f hf
        rw [hgs] at hf
        rcases List.mem_append.mp hf with hf | hf
        · exact hgsall f hf
        · exact hall f hf
      have hafter1 : framesAfter (goRightAll (w.cur.size + 1) w).frames
          = [] := framesAfter_all_right hall1
      have hins : insertNew (goRightAll (w.cur.size + 1) w) v b = some
          { frames := (goRightAll (w.cur.size + 1) w).frames
            cur := BasicTree.Root v BasicTree.Empty BasicTree.Empty
              (D.toSummary v) D.idA b
            leftCtx := (goRightAll (w.cur.size + 1) w).leftCtx
            rightCtx := (goRightAll (w.cur.size + 1) w).rightCtx } := by
        unfold insertNew
        rw [h1]
      obtain ⟨hseq2, hfr2, _⟩ := insertNew_spec hL hins
      obtain ⟨w3, hgo, hseq3, hall3⟩ := ih _ (by rw [hfr2]; exact hall1)
      refine ⟨w3, ?_, ?_, hall3⟩
      · rw [fromIterGoB]
        simp only [hins, hgo]
      · have hw1 : wSeq (goRightAll (w.cur.size + 1) w) =
            framesBefore (goRightAll (w.cur.size + 1) w).frames := by
          rw [wSeq_eq hL, h1, hafter1]
          simp [seq]
        rw [hseq3, hseq2, hafter1, ← hw1, h2]
        simp

/-- The spec-modelled basic/splay `from_iter` builds a tree whose logical
in-order sequence is exactly the input sequence. -/
theorem fromIterBasicT_spec {D : DataC} {B : Type} (hL : DataLaws D) (b : B)
    (xs : List D.Value) :
    ∃ t, fromIterBasicT b xs = some t ∧ t.seq = xs := by
  have hnil : (BasicWalker.new (BasicTree.Empty : BasicTree D B)).frames
      = [] := rfl
  obtain ⟨w2, hgo, hseq, _⟩ := fromIterGoB_spec hL b xs
    (BasicWalker.new BasicTree.Empty)
    (by rw [hnil]; intro f hf; exact absurd hf (List.not_mem_nil f))
  refine ⟨reassemble w2, ?_, ?_⟩
  · rw [fromIterBasicT, hgo]
    rfl
  · show wSeq w2 = xs
    rw [hseq]
    rfl

/-- The frame-stack invariant of a walker that descended an AVL tree
satisfying the rank invariant: every frame's sibling is a valid AVL tree
without reverse bits and the sibling's rank is within one of the rank the
descent left behind.  (Unlike `framesIns` it allows descents to either
side and does not constrain the cached parent ranks.) -/
def framesOK2 {D : DataC} : List (Frame D Nat) → Nat → Prop
  | [], _ => True
  | f :: fs, h => avlOK f.sibling = true ∧ noRevB f.sibling = true ∧
      (h : Int) - rankT f.sibling ≤ 1 ∧ (rankT f.sibling : Int) - h ≤ 1 ∧
      framesOK2 fs (max (rankT f.sibling) h + 1)

theorem framesOK2_cons {D : DataC} {f : Frame D Nat}
    {fs : List (Frame D Nat)} {h : Nat} :
    framesOK2 (f :: fs) h ↔ avlOK f.sibling = true ∧
      noRevB f.sibling = true ∧
      (h : Int) - rankT f.sibling ≤ 1 ∧ (rankT f.sibling : Int) - h ≤ 1 ∧
      framesOK2 fs (max (rankT f.sibling) h + 1) := Iff.rfl

/-- The frame-stack invariant along the leftmost descent used by
`delete`'s successor search: every frame is a left descent whose sibling
is a valid AVL tree without reverse bits, with the stored parent ranks
threading exactly as in the original tree. -/
def framesDel {D : DataC} : List (Frame D Nat) → Nat → Prop
  | [], _ => True
  | f :: fs, h => f.isLeft = true ∧ avlOK f.sibling = true ∧
      noRevB f.sibling = true ∧
      (h : Int) - rankT f.sibling ≤ 1 ∧ (rankT f.sibling : Int) - h ≤ 1 ∧
      f.algData = max (rankT f.sibling) h + 1 ∧
      framesDel fs (max (rankT f.sibling) h + 1)

theorem framesDel_cons {D : DataC} {f : Frame D Nat}
    {fs : List (Frame D Nat)} {h : Nat} :
    framesDel (f :: fs) h ↔ f.isLeft = true ∧ avlOK f.sibling = true ∧
      noRevB f.sibling = true ∧
      (h : Int) - rankT f.sibling ≤ 1 ∧ (rankT f.sibling : Int) - h ≤ 1 ∧
      f.algData = max (rankT f.sibling) h + 1 ∧
      framesDel fs (max (rankT f.sibling) h + 1) := Iff.rfl

/-- The total rank a frame stack rebuilds on top of a subtree of rank `h`
when every stored parent rank is recomputed as `max` of the children plus
one. -/
def stackRank {D : DataC} : List (Frame D Nat) → Nat → Nat
  | [], h => h
  | f :: fs, h => stackRank fs (max (rankT f.sibling) h + 1)

/-- Rank consistency alone (the first half of the AVL invariant): every
node's cached rank is `max` of the children's cached ranks plus one,
without the balance requirement. -/
def rankGoodB {D : DataC} : BasicTree D Nat → Bool
  | BasicTree.Empty => true
  | BasicTree.Root _ l r _ _ b =>
      rankGoodB l && rankGoodB r && decide (b = max (rankT l) (rankT r) + 1)

theorem rankGoodB_root_iff {D : DataC} {v : D.Value} {l r : BasicTree D Nat}
    {s : D.Summary} {p : D.Action} {b : Nat} :
    rankGoodB (BasicTree.Root v l r s p b) = true ↔
      rankGoodB l = true ∧ rankGoodB r = true ∧
      b = max (rankT l) (rankT r) + 1 := by
  simp [rankGoodB, Bool.and_eq_true, and_assoc]

theorem rankGoodB_of_avlOK {D : DataC} :
    ∀ {t : BasicTree D Nat}, avlOK t = true → rankGoodB t = true := by
  intro t
  induction t with
  | Empty => intro _; rfl
  | Root v l r s p b ihl ihr =>
      intro h
      rw [avlOK_root_iff] at h
      rw [rankGoodB_root_iff]
      exact ⟨ihl h.1, ihr h.2.1, h.2.2.1⟩

theorem rankGood_of_rankGoodB {D : DataC} :
    ∀ {t : BasicTree D Nat}, rankGoodB t = true → rankT t = heightT t := by
  intro t
  induction t with
  | Empty => intro _; rfl
  | Root v l r s p b ihl ihr =>
      intro h
      rw [rankGoodB_root_iff] at h
      show b = heightT (BasicTree.Root v l r s p b)
      rw [heightT, ← ihl h.1, ← ihr h.2.1]
      exact h.2.2

theorem rankGoodB_actTree {D : DataC} (a : D.Action) (t : BasicTree D Nat) :
    rankGoodB (BasicTree.actTree a t) = rankGoodB t := by
  cases t with
  | Empty => rfl
  | Root v l r s p b => simp [BasicTree.actTree, rankGoodB]

theorem rankGoodB_propagate {D : DataC} (t : BasicTree D Nat) :
    rankGoodB t.propagate = rankGoodB t := by
  cases t with
  | Empty => rfl
  | Root v l r s p b =>
      simp only [BasicTree.propagate]
      split
      · simp only [rankGoodB, rankGoodB_actTree, rankT_actTree]
        rw [Nat.max_comm]
        simp [Bool.and_comm, Bool.and_left_comm, Bool.and_assoc]
      · simp [rankGoodB, rankGoodB_actTree, rankT_actTree]

/-- The `-1..=1` arm of the rebalance `match`: at an occupied position
whose children's cached ranks differ by at most one, the step leaves the
walker untouched, regardless of pendings and cached validity. -/
theorem rebalanceStep_balanced {D : DataC} {w : BasicWalker D Nat}
    {v : D.Value} {l r : BasicTree D Nat} {s : D.Summary} {p : D.Action}
    {b : Nat} (hc : w.cur = BasicTree.Root v l r s p b)
    (h1 : -1 ≤ (rankT r : Int) - rankT l) (h2 : (rankT r : Int) - rankT l ≤ 1) :
    rebalanceStep w = some w := by
  unfold rebalanceStep
  rw [hc]
  dsimp only
  rw [if_neg, if_pos]
  · exact ⟨show -1 ≤ (rankT r : Int) - rankT l from h1,
      show (rankT r : Int) - rankT l ≤ 1 from h2⟩
  · show ¬ (rankT r : Int) - rankT l = -2
    omega

/-- The leftmost descent from a valid AVL position: it ends at a gap,
preserves the sequence, the collected frame stack satisfies the
delete-descent invariant at rank 0, and rebuilding the stored ranks back
up recovers the rank of the starting subtree. -/
theorem goLeftAll_del {D : DataC} (hL : DataLaws D) :
    ∀ (fuel : Nat) (w : BasicWalker D Nat), w.cur.size < fuel →
      avlOK w.cur = true → noRevB w.cur = true →
      framesDel w.frames (rankT w.cur) →
      (goLeftAll fuel w).cur = BasicTree.Empty ∧
      wSeq (goLeftAll fuel w) = wSeq w ∧
      framesDel (goLeftAll fuel w).frames 0 ∧
      stackRank (goLeftAll fuel w).frames 0 =
        stackRank w.frames (rankT w.cur) := by
  intro fuel
  induction fuel with
  | zero => intro w h; omega
  | succ fuel ih =>
      intro w hsz hOK hn hfr
      rw [goLeftAll]
      cases hcw : w.cur with
      | Empty =>
          have hg : goLeft w = none := (goLeft_none_iff w).mpr hcw
          rw [hg]
          have h0 : rankT w.cur = 0 := by rw [hcw]; rfl
          rw [h0] at hfr
          exact ⟨hcw, rfl, hfr, rfl⟩
      | Root v l r s p b =>
          rw [hcw] at hOK hn
          rw [noRevB_root_iff] at hn
          obtain ⟨hp, hnl, hnr⟩ := hn
          rw [avlOK_root_iff] at hOK
          obtain ⟨hOKl, hOKr, hb, hdf1, hdf2⟩ := hOK
          have hg : goLeft w = some
              ⟨⟨true, D.actV p v, BasicTree.actTree p r, b,
                  w.leftCtx, w.rightCtx⟩ :: w.frames,
                (BasicTree.actTree p l).propagate,
                w.leftCtx,
                D.addS (D.toSummary (D.actV p v))
                  (D.addS (BasicTree.actTree p r).subtreeSummary
                    w.rightCtx)⟩ := by
            unfold goLeft
            rw [hcw]
            simp [BasicTree.propagate, hp]
          rw [hg]
          have hrk : rankT ((BasicTree.actTree p l).propagate) = rankT l := by
            rw [rankT_propagate, rankT_actTree]
          have hsz2 : ((⟨⟨true, D.actV p v, BasicTree.actTree p r, b,
              w.leftCtx, w.rightCtx⟩ :: w.frames,
              (BasicTree.actTree p l).propagate,
              w.leftCtx,
              D.addS (D.toSummary (D.actV p v))
                (D.addS (BasicTree.actTree p r).subtreeSummary
                  w.rightCtx)⟩ : BasicWalker D Nat)).cur.size < fuel := by
            show ((BasicTree.actTree p l).propagate).size < fuel
            rw [BasicTree.size_propagate, BasicTree.size_actTree]
            rw [hcw] at hsz
            simp only [BasicTree.size] at hsz
            omega
          have hOK2 : avlOK ((BasicTree.actTree p l).propagate) = true := by
            rw [avlOK_propagate, avlOK_actTree]
            exact hOKl
          have hn2 : noRevB ((BasicTree.actTree p l).propagate) = true :=
            noRevB_propagate hL (noRevB_actTree hL hp hnl)
          have hfr2 : framesDel ((⟨true, D.actV p v,
              BasicTree.actTree p r, b, w.leftCtx, w.rightCtx⟩ : Frame D Nat)
              :: w.frames) (rankT ((BasicTree.actTree p l).propagate)) := by
            rw [hrk, framesDel_cons]
            refine ⟨rfl, ?_, ?_, ?_, ?_, ?_, ?_⟩
            · show avlOK (BasicTree.actTree p r) = true
              rw [avlOK_actTree]
              exact hOKr
            · exact noRevB_actTree hL hp hnr
            · show (rankT l : Int) - rankT (BasicTree.actTree p r) ≤ 1
              rw [rankT_actTree]
              omega
            · show (rankT (BasicTree.actTree p r) : Int) - rankT l ≤ 1
              rw [rankT_actTree]
              omega
            · show b = max (rankT (BasicTree.actTree p r)) (rankT l) + 1
              rw [rankT_actTree]
              omega
            · show framesDel w.frames
                (max (rankT (BasicTree.actTree p r)) (rankT l) + 1)
              have hmx : max (rankT (BasicTree.actTree p r)) (rankT l) + 1
                  = b := by
                rw [rankT_actTree]
                omega
              rw [hmx]
              have hbw : rankT w.cur = b := by rw [hcw]; rfl
              rw [← hbw]
              exact hfr
          obtain ⟨h1, h2, h3, h4⟩ := ih _ hsz2 hOK2 hn2 hfr2
          refine ⟨h1, h2.trans (goLeft_spec hL hg).1, h3, ?_⟩
          rw [h4]
          show stackRank w.frames
              (max (rankT (BasicTree.actTree p r))
                (rankT ((BasicTree.actTree p l).propagate)) + 1) = _
          have hmx : max (rankT (BasicTree.actTree p r))
              (rankT ((BasicTree.actTree p l).propagate)) + 1 = b := by
            rw [hrk, rankT_actTree]
            omega
          rw [hmx]
          rfl

theorem framesDel_all_left {D : DataC} :
    ∀ (fs : List (Frame D Nat)) (h : Nat), framesDel fs h →
      ∀ f ∈ fs, f.isLeft = true := by
  intro fs
  induction fs with
  | nil => intro h _ f hf; exact absurd hf (List.not_mem_nil f)
  | cons g gs ih =>
      intro h hfr f hf
      rw [framesDel_cons] at hfr
      rcases List.mem_cons.mp hf with hf | hf
      · rw [hf]; exact hfr.1
      · exact ih _ hfr.2.2.2.2.2.2 f hf

/-- The successor search of `AVLWalker::delete` over a valid AVL right
subtree: it lands on the in-order successor (a node with an empty left
child) whose stored rank is one more than its right child's, the walk's
frame stack is a left spine satisfying the delete-descent invariant, and
the stored ranks rebuild to the rank of `r`. -/
theorem successor_extract_avl {D : DataC} (hL : DataLaws D)
    {r : BasicTree D Nat} (hr : r.isEmpty = false)
    (hOKr : avlOK r = true) (hnr : noRevB r = true) :
    ∃ iw2 mv mr ms, goUp (goLeftAll (r.size + 1) (BasicWalker.new r)) =
        some (true, iw2) ∧
      iw2.cur = BasicTree.Root mv BasicTree.Empty mr ms D.idA (rankT mr + 1) ∧
      mv :: wSeq { iw2 with cur := mr } = r.seq ∧
      avlOK mr = true ∧ noRevB mr = true ∧
      framesDel iw2.frames (rankT mr + 1) ∧
      stackRank iw2.frames (rankT mr + 1) = rankT r := by
  obtain ⟨iw2, mv, mr, ms, mb, hgu, hcur2, hsucc⟩ := successor_extract hL hr
  have hgu3 : goUp (goLeftAll (r.size + 1) (BasicWalker.new r))
      = some (true, iw2) := hgu
  have hsz : (BasicWalker.new r).cur.size < r.size + 1 := by
    simp [BasicWalker.new, BasicTree.size_propagate]
  have hOK0 : avlOK (BasicWalker.new r).cur = true := by
    show avlOK r.propagate = true
    rw [avlOK_propagate]
    exact hOKr
  have hn0 : noRevB (BasicWalker.new r).cur = true := by
    show noRevB r.propagate = true
    exact noRevB_propagate hL hnr
  have hfr0 : framesDel (BasicWalker.new r).frames
      (rankT (BasicWalker.new r).cur) := trivial
  obtain ⟨h1, h2, h3, h4⟩ :=
    goLeftAll_del hL (r.size + 1) (BasicWalker.new r) hsz hOK0 hn0 hfr0
  cases hfw : (goLeftAll (r.size + 1) (BasicWalker.new r)).frames with
  | nil =>
      exfalso
      have hnone : goUp (goLeftAll (r.size + 1) (BasicWalker.new r))
          = none := by
        simp [goUp, hfw]
      rw [hnone] at hgu
      exact absurd hgu (by simp)
  | cons g gs2 =>
      have hgu2 : goUp (goLeftAll (r.size + 1) (BasicWalker.new r)) =
          some (g.isLeft, ⟨gs2,
            remakeFrame g (goLeftAll (r.size + 1) (BasicWalker.new r)).cur,
            g.leftCtx, g.rightCtx⟩) := by
        simp [goUp, hfw]
      rw [hgu2] at hgu
      simp only [Option.some.injEq, Prod.mk.injEq] at hgu
      rw [hfw] at h3 h4
      rw [framesDel_cons] at h3
      obtain ⟨hgl, hgsOK, hgsn, hd1, hd2, halg, hrest⟩ := h3
      have hiw2c : iw2.cur = BasicTree.Root g.value BasicTree.Empty g.sibling
          (D.addS D.idS (D.addS (D.toSummary g.value)
            g.sibling.subtreeSummary)) D.idA g.algData := by
        rw [← hgu.2]
        show remakeFrame g
          (goLeftAll (r.size + 1) (BasicWalker.new r)).cur = _
        rw [h1, remakeFrame, if_pos hgl]
        simp [BasicTree.rebuild, BasicTree.subtreeSummary]
      rw [hcur2] at hiw2c
      simp only [BasicTree.Root.injEq, true_and, and_true] at hiw2c
      obtain ⟨hmv, hmr, hms, hmb⟩ := hiw2c
      have hif : iw2.frames = gs2 := by
        rw [← hgu.2]
      have hmb2 : mb = rankT mr + 1 := by
        rw [hmb, halg, hmr]
        omega
      refine ⟨iw2, mv, mr, ms, hgu3, ?_, hsucc, ?_, ?_, ?_, ?_⟩
      · rw [hcur2, hmb2]
      · rw [hmr]
        exact hgsOK
      · rw [hmr]
        exact hgsn
      · rw [hif]
        have hmm : rankT mr + 1 = max (rankT g.sibling) 0 + 1 := by
          rw [hmr]
          omega
        rw [hmm]
        exact hrest
      · rw [hif]
        have hmm : rankT mr + 1 = max (rankT g.sibling) 0 + 1 := by
          rw [hmr]
          omega
        rw [hmm]
        have h4b : stackRank gs2 (max (rankT g.sibling) 0 + 1) =
            rankT (BasicWalker.new r).cur := h4
        rw [h4b]
        show rankT r.propagate = rankT r
        exact rankT_propagate r

/-- The children's cached ranks at the root differ by at most one. -/
def rootBal {D : DataC} : BasicTree D Nat → Prop
  | BasicTree.Empty => True
  | BasicTree.Root _ l r _ _ _ =>
      (rankT l : Int) - rankT r ≤ 1 ∧ (rankT r : Int) - rankT l ≤ 1

/-- Dropping a walker that stopped on a left-spine descent stack whose
current subtree's rank matches what the stored parent ranks expect: the
reassembled tree is rank-consistent, has no reverse bits, its rank is the
stacked rank, and (when any frame was left) its root is balanced. -/
theorem reassembleGo_del {D : DataC} (hL : DataLaws D) :
    ∀ (fs : List (Frame D Nat)) (h : Nat) (t : BasicTree D Nat),
      framesDel fs h → rankGoodB t = true → noRevB t = true → rankT t = h →
      rankGoodB (reassembleGo fs t) = true ∧
      noRevB (reassembleGo fs t) = true ∧
      rankT (reassembleGo fs t) = stackRank fs h ∧
      (fs = [] ∨ rootBal (reassembleGo fs t)) := by
  intro fs
  induction fs with
  | nil =>
      intro h t hfr hg hn hrk
      exact ⟨hg, hn, hrk, Or.inl rfl⟩
  | cons f fs ih =>
      intro h t hfr hg hn hrk
      rw [framesDel_cons] at hfr
      obtain ⟨hfl, hfOK, hfn, hd1, hd2, halg, hrest⟩ := hfr
      obtain ⟨S2, hrm⟩ := remakeFrame_shape f t
      rw [if_pos hfl] at hrm
      have hg2 : rankGoodB (remakeFrame f t) = true := by
        rw [hrm, rankGoodB_root_iff]
        refine ⟨hg, rankGoodB_of_avlOK hfOK, ?_⟩
        rw [hrk]
        omega
      have hn2 : noRevB (remakeFrame f t) = true := by
        rw [hrm, noRevB_root_iff]
        exact ⟨hL.idRev, hn, hfn⟩
      have hrk2 : rankT (remakeFrame f t) = max (rankT f.sibling) h + 1 := by
        rw [hrm, rankT_root, halg]
      obtain ⟨ih1, ih2, ih3, ih4⟩ := ih _ _ hrest hg2 hn2 hrk2
      refine ⟨ih1, ih2, ih3, Or.inr ?_⟩
      rcases ih4 with hnil | hbal
      · show rootBal (reassembleGo fs (remakeFrame f t))
        rw [hnil]
        show rootBal (remakeFrame f t)
        rw [hrm]
        show (rankT t : Int) - rankT f.sibling ≤ 1 ∧
          (rankT f.sibling : Int) - rankT t ≤ 1
        rw [hrk]
        exact ⟨hd1, hd2⟩
      · exact hbal

/-- What `delete`'s inner rebalance leaves behind once the walker is
dropped, relative to the original rank `R` of the subtree: a
rank-consistent, reverse-free tree whose rank dropped by at most one,
whose root children's ranks differ by at most two, and where a
deeper-by-two root child is a fully valid AVL tree with no overall rank
drop (the rebalancing loop stops as soon as a stored rank is unchanged,
which can leave exactly this much imbalance at its stopping point). -/
def delOut {D : DataC} (t : BasicTree D Nat) (R : Nat) : Prop :=
  rankGoodB t = true ∧ noRevB t = true ∧ (rankT t = R ∨ rankT t + 1 = R) ∧
  (match t with
   | BasicTree.Empty => True
   | BasicTree.Root _ l r _ _ _ =>
       (rankT l : Int) - rankT r ≤ 2 ∧ (rankT r : Int) - rankT l ≤ 2 ∧
       ((rankT l : Int) - rankT r = 2 → avlOK l = true ∧ rankT t = R) ∧
       ((rankT r : Int) - rankT l = 2 → avlOK r = true ∧ rankT t = R))

/-- The rebalancing loop of `delete`'s successor extraction: the walker
sits on a left-spine stack over the original right subtree, its current
subtree having shrunk by at most one rank.  The loop terminates without
panicking, preserves the sequence, and dropping the resulting walker
yields a `delOut` tree for the original rank of the whole stack. -/
theorem rebalanceGo_inner {D : DataC} (hL : DataLaws D) :
    ∀ (fuel : Nat) (w : BasicWalker D Nat) (h : Nat)
      {v : D.Value} {l r : BasicTree D Nat} {s : D.Summary} {p : D.Action}
      {b : Nat},
      w.frames.length < fuel →
      w.cur = BasicTree.Root v l r s p b →
      D.toReverse p = false →
      ((rankT r : Int) - rankT l = 2 → p = D.idA) →
      avlOK l = true → avlOK r = true →
      noRevB l = true → noRevB r = true →
      b = max (rankT l) (rankT r) + 1 →
      (rankT l : Int) - rankT r ≤ 1 →
      (rankT r : Int) - rankT l ≤ 2 →
      (b = h ∨ b + 1 = h) →
      ((rankT r : Int) - rankT l = 2 → b = h) →
      framesDel w.frames h →
      ∃ w2, rebalanceGo fuel w = some w2 ∧ wSeq w2 = wSeq w ∧
        delOut (reassemble w2) (stackRank w.frames h) := by
  intro fuel
  induction fuel with
  | zero =>
      intro w h v l r s p b hfu
      omega
  | succ fuel ih =>
      intro w h v l r s p b hfu hc hrev hpd hOKl hOKr hnl hnr hb hd1 hd2
        hdrift hdeep hfr
      have hstep : ∃ T, rebalanceStep w = some { w with cur := T } ∧
          avlOK T = true ∧ noRevB T = true ∧ T.seq = w.cur.seq ∧
          (rankT T = h ∨ rankT T + 1 = h) := by
        by_cases hdd : (rankT r : Int) - rankT l ≤ 1
        · refine ⟨w.cur, ?_, ?_, ?_, rfl, ?_⟩
          · exact rebalanceStep_balanced hc (by omega) hdd
          · rw [hc, avlOK_root_iff]
            exact ⟨hOKl, hOKr, hb, hd1, hdd⟩
          · rw [hc, noRevB_root_iff]
            exact ⟨hrev, hnl, hnr⟩
          · have : rankT w.cur = b := by rw [hc]; rfl
            omega
        · have hd2e : (rankT r : Int) - rankT l = 2 := by omega
          have hpe := hpd hd2e
          rw [hpe] at hc
          obtain ⟨T, hstepT, hgT, hnT, hseqT, hrange, hsmall, hOKTc⟩ :=
            rebalanceStep_spec hL hc hb (avlOK_height hOKl)
              (avlOK_height hOKr) hnl hnr (by omega) hd2
              (fun hh => absurd hh (by omega)) (fun _ => hOKr)
          have hbh : b = h := hdeep hd2e
          refine ⟨T, hstepT, hOKTc hOKl hOKr hd1, hnT, ?_, by omega⟩
          rw [hseqT, hc, BasicTree.seq, BasicTree.applyA_id hL]
      obtain ⟨T, hstepEq, hOKT, hnT, hseqcur, hTdrift⟩ := hstep
      simp only [rebalanceGo]
      rw [hstepEq]
      dsimp only
      cases hfw : w.frames with
      | nil =>
          have hgu : goUp (⟨[], T, w.leftCtx, w.rightCtx⟩ :
              BasicWalker D Nat) = none := by
            simp [goUp]
          rw [hgu]
          have hT2 : (rebuildRanksT T).2 = T := rebuildRanks_of_avlOK hOKT
          refine ⟨_, rfl, ?_, ?_⟩
          · rw [wSeq_eq hL, wSeq_eq hL, hfw]
            dsimp only
            simp [framesBefore, framesAfter, seq_rebuildRanks, hseqcur]
          · show delOut (reassemble
              (⟨[], (rebuildRanksT T).2, w.leftCtx, w.rightCtx⟩ :
                BasicWalker D Nat)) (stackRank ([] : List (Frame D Nat)) h)
            have hre : reassemble (⟨[], (rebuildRanksT T).2, w.leftCtx,
                w.rightCtx⟩ : BasicWalker D Nat) = T := by
              unfold reassemble
              rw [hT2]
              rfl
            rw [hre]
            refine ⟨rankGoodB_of_avlOK hOKT, hnT, hTdrift, ?_⟩
            cases hTc : T with
            | Empty => trivial
            | Root tv tl tr ts tp tb =>
                rw [hTc, avlOK_root_iff] at hOKT
                exact ⟨by omega, by omega,
                  fun hh => absurd hh (by omega),
                  fun hh => absurd hh (by omega)⟩
      | cons f fs =>
          rw [hfw, framesDel_cons] at hfr
          obtain ⟨hfl, hfOK, hfn, hfd1, hfd2, hfalg, hfrest⟩ := hfr
          have hgu : goUp (⟨f :: fs, T, w.leftCtx, w.rightCtx⟩ :
              BasicWalker D Nat) =
              some (f.isLeft, ⟨fs, remakeFrame f T, f.leftCtx, f.rightCtx⟩) := by
            simp [goUp]
          rw [hgu]
          dsimp only
          obtain ⟨S2, hrm⟩ := remakeFrame_shape f T
          rw [if_pos hfl] at hrm
          rw [hrm]
          simp only [rebuildRanksT]
          have hsib : heightT f.sibling = rankT f.sibling :=
            (avlOK_height hfOK).symm
          by_cases hch : f.algData = max (rankT T) (rankT f.sibling) + 1
          · rw [if_neg (by simp [hch])]
            refine ⟨_, rfl, ?_, ?_⟩
            · rw [wSeq_eq hL, wSeq_eq hL]
              dsimp only
              rw [hfw]
              simp [framesBefore, framesAfter, hfl, BasicTree.seq,
                BasicTree.applyA_id hL, hseqcur]
            · show delOut (reassembleGo fs
                (BasicTree.Root f.value T f.sibling S2 D.idA
                  (max (rankT T) (rankT f.sibling) + 1)))
                (stackRank (f :: fs) h)
              have hgStop : rankGoodB (BasicTree.Root f.value T f.sibling S2
                  D.idA (max (rankT T) (rankT f.sibling) + 1)) = true := by
                rw [rankGoodB_root_iff]
                exact ⟨rankGoodB_of_avlOK hOKT, rankGoodB_of_avlOK hfOK, rfl⟩
              have hnStop : noRevB (BasicTree.Root f.value T f.sibling S2
                  D.idA (max (rankT T) (rankT f.sibling) + 1)) = true := by
                rw [noRevB_root_iff]
                exact ⟨hL.idRev, hnT, hfn⟩
              have hrkStop : rankT (BasicTree.Root f.value T f.sibling S2
                  D.idA (max (rankT T) (rankT f.sibling) + 1))
                  = max (rankT f.sibling) h + 1 := by
                rw [rankT_root, ← hfalg, hch]
              obtain ⟨hr1, hr2, hr3, hr4⟩ :=
                reassembleGo_del hL fs (max (rankT f.sibling) h + 1) _
                  hfrest hgStop hnStop hrkStop
              refine ⟨hr1, hr2, Or.inl hr3, ?_⟩
              rcases hr4 with hnil | hbal
              · rw [hnil]
                simp only [reassembleGo, stackRank]
                refine ⟨by omega, by omega, fun hh => absurd hh (by omega),
                  fun hh => ⟨hfOK, ?_⟩⟩
                rw [rankT_root, ← hch]
                exact hfalg
              · cases hRc : reassembleGo fs (BasicTree.Root f.value T
                    f.sibling S2 D.idA
                    (max (rankT T) (rankT f.sibling) + 1)) with
                | Empty => trivial
                | Root zv zl zr zs zp zb =>
                    rw [hRc] at hbal
                    obtain ⟨hb1, hb2⟩ := hbal
                    exact ⟨by omega, by omega,
                      fun hh => absurd hh (by omega),
                      fun hh => absurd hh (by omega)⟩
          · rw [if_pos (by simp [hch])]
            obtain ⟨w2, hloop, hseq2, hdel⟩ :=
              ih (⟨fs, BasicTree.Root f.value T f.sibling S2 D.idA
                  (max (rankT T) (rankT f.sibling) + 1),
                  f.leftCtx, f.rightCtx⟩ : BasicWalker D Nat)
                (max (rankT f.sibling) h + 1)
                (by show fs.length < fuel
                    rw [hfw] at hfu
                    simp only [List.length_cons] at hfu
                    omega)
                rfl hL.idRev (fun _ => rfl) hOKT hfOK hnT hfn rfl
                (by show (rankT T : Int) - rankT f.sibling ≤ 1
                    omega)
                (by show (rankT f.sibling : Int) - rankT T ≤ 2
                    omega)
                (by show max (rankT T) (rankT f.sibling) + 1
                      = max (rankT f.sibling) h + 1 ∨
                    max (rankT T) (rankT f.sibling) + 1 + 1
                      = max (rankT f.sibling) h + 1
                    omega)
                (by intro hh
                    show max (rankT T) (rankT f.sibling) + 1
                      = max (rankT f.sibling) h + 1
                    omega)
                hfrest
            refine ⟨w2, hloop, ?_, hdel⟩
            rw [hseq2, wSeq_eq hL, wSeq_eq hL]
            dsimp only
            rw [hfw]
            simp [framesBefore, framesAfter, hfl, BasicTree.seq,
              BasicTree.applyA_id hL, hseqcur]

/-- The rebalancing loop after a deletion, ascending an arbitrary-side
descent stack over a valid AVL tree with the current subtree shrunk by at
most one rank: it terminates without panicking and preserves the
sequence.  (No validity of the result is claimed: the left-deep
double-rotation arm and the early stop can leave stale ranks, see C1.) -/
theorem rebalanceGo_del {D : DataC} (hL : DataLaws D) :
    ∀ (fuel : Nat) (w : BasicWalker D Nat) (h : Nat)
      {v : D.Value} {l r : BasicTree D Nat} {s : D.Summary} {p : D.Action}
      {b : Nat},
      w.frames.length < fuel →
      w.cur = BasicTree.Root v l r s p b →
      D.toReverse p = false →
      (((rankT l : Int) - rankT r = 2 ∨ (rankT r : Int) - rankT l = 2) →
        p = D.idA) →
      rankT l = heightT l → rankT r = heightT r →
      noRevB l = true → noRevB r = true →
      b = max (rankT l) (rankT r) + 1 →
      (rankT l : Int) - rankT r ≤ 2 →
      (rankT r : Int) - rankT l ≤ 2 →
      ((rankT l : Int) - rankT r = 2 → avlOK l = true) →
      ((rankT r : Int) - rankT l = 2 → avlOK r = true) →
      (b = h ∨ b + 1 = h) →
      (((rankT l : Int) - rankT r = 2 ∨ (rankT r : Int) - rankT l = 2) →
        b = h) →
      framesOK2 w.frames h →
      ∃ w2, rebalanceGo fuel w = some w2 ∧ wSeq w2 = wSeq w := by
  intro fuel
  induction fuel with
  | zero =>
      intro w h v l r s p b hfu
      omega
  | succ fuel ih =>
      intro w h v l r s p b hfu hc hrev hpd hgl hgr hnl hnr hb hd1 hd2
        hdeepL hdeepR hdrift hdeep hfr
      have hstep : ∃ T, rebalanceStep w = some { w with cur := T } ∧
          rankT T = heightT T ∧ noRevB T = true ∧ T.seq = w.cur.seq ∧
          (rankT T = h ∨ rankT T + 1 = h) := by
        by_cases hdd : (rankT l : Int) - rankT r ≤ 1 ∧
            (rankT r : Int) - rankT l ≤ 1
        · refine ⟨w.cur, ?_, ?_, ?_, rfl, ?_⟩
          · exact rebalanceStep_balanced hc (by omega) hdd.2
          · rw [hc]
            show b = max (heightT l) (heightT r) + 1
            rw [← hgl, ← hgr]
            exact hb
          · rw [hc, noRevB_root_iff]
            exact ⟨hrev, hnl, hnr⟩
          · have : rankT w.cur = b := by rw [hc]; rfl
            omega
        · have hd2e : (rankT l : Int) - rankT r = 2 ∨
              (rankT r : Int) - rankT l = 2 := by omega
          have hpe := hpd hd2e
          rw [hpe] at hc
          obtain ⟨T, hstepT, hgT, hnT, hseqT, hrange, hsmall, hOKTc⟩ :=
            rebalanceStep_spec hL hc hb hgl hgr hnl hnr hd1 hd2 hdeepL hdeepR
          have hbh : b = h := hdeep hd2e
          refine ⟨T, hstepT, hgT, hnT, ?_, by omega⟩
          rw [hseqT, hc, BasicTree.seq, BasicTree.applyA_id hL]
      obtain ⟨T, hstepEq, hgT, hnT, hseqcur, hTdrift⟩ := hstep
      simp only [rebalanceGo]
      rw [hstepEq]
      dsimp only
      cases hfw : w.frames with
      | nil =>
          have hgu : goUp (⟨[], T, w.leftCtx, w.rightCtx⟩ :
              BasicWalker D Nat) = none := by
            simp [goUp]
          rw [hgu]
          refine ⟨_, rfl, ?_⟩
          rw [wSeq_eq hL, wSeq_eq hL, hfw]
          dsimp only
          simp [framesBefore, framesAfter, seq_rebuildRanks, hseqcur]
      | cons f fs =>
          rw [hfw, framesOK2_cons] at hfr
          obtain ⟨hfOK, hfn, hfd1, hfd2, hfrest⟩ := hfr
          have hgu : goUp (⟨f :: fs, T, w.leftCtx, w.rightCtx⟩ :
              BasicWalker D Nat) =
              some (f.isLeft, ⟨fs, remakeFrame f T, f.leftCtx, f.rightCtx⟩) := by
            simp [goUp]
          rw [hgu]
          dsimp only
          obtain ⟨S2, hrm⟩ := remakeFrame_shape f T
          have hsib : heightT f.sibling = rankT f.sibling :=
            (avlOK_height hfOK).symm
          cases hfl : f.isLeft with
          | true =>
              rw [if_pos hfl] at hrm
              rw [hrm]
              simp only [rebuildRanksT]
              by_cases hch : f.algData = max (rankT T) (rankT f.sibling) + 1
              · rw [if_neg (by simp [hch])]
                refine ⟨_, rfl, ?_⟩
                rw [wSeq_eq hL, wSeq_eq hL]
                dsimp only
                rw [hfw]
                simp [framesBefore, framesAfter, hfl, BasicTree.seq,
                  BasicTree.applyA_id hL, hseqcur]
              · rw [if_pos (by simp [hch])]
                obtain ⟨w2, hloop, hseq2⟩ :=
                  ih (⟨fs, BasicTree.Root f.value T f.sibling S2 D.idA
                      (max (rankT T) (rankT f.sibling) + 1),
                      f.leftCtx, f.rightCtx⟩ : BasicWalker D Nat)
                    (max (rankT f.sibling) h + 1)
                    (by show fs.length < fuel
                        rw [hfw] at hfu
                        simp only [List.length_cons] at hfu
                        omega)
                    rfl hL.idRev (fun _ => rfl) hgT
                    ((avlOK_height hfOK).symm.symm) hnT hfn rfl
                    (by show (rankT T : Int) - rankT f.sibling ≤ 2
                        omega)
                    (by show (rankT f.sibling : Int) - rankT T ≤ 2
                        omega)
                    (by intro hh
                        exact absurd hh (by omega))
                    (by intro hh
                        exact hfOK)
                    (by show max (rankT T) (rankT f.sibling) + 1
                          = max (rankT f.sibling) h + 1 ∨
                        max (rankT T) (rankT f.sibling) + 1 + 1
                          = max (rankT f.sibling) h + 1
                        omega)
                    (by intro hh
                        show max (rankT T) (rankT f.sibling) + 1
                          = max (rankT f.sibling) h + 1
                        rcases hh with hh | hh
                        · exact absurd hh (by omega)
                        · omega)
                    hfrest
                refine ⟨w2, hloop, ?_⟩
                rw [hseq2, wSeq_eq hL, wSeq_eq hL]
                dsimp only
                rw [hfw]
                simp [framesBefore, framesAfter, hfl, BasicTree.seq,
                  BasicTree.applyA_id hL, hseqcur]
          | false =>
              rw [if_neg (by simp [hfl])] at hrm
              rw [hrm]
              simp only [rebuildRanksT]
              by_cases hch : f.algData = max (rankT f.sibling) (rankT T) + 1
              · rw [if_neg (by simp [hch])]
                refine ⟨_, rfl, ?_⟩
                rw [wSeq_eq hL, wSeq_eq hL]
                dsimp only
                rw [hfw]
                simp [framesBefore, framesAfter, hfl, BasicTree.seq,
                  BasicTree.applyA_id hL, hseqcur]
              · rw [if_pos (by simp [hch])]
                obtain ⟨w2, hloop, hseq2⟩ :=
                  ih (⟨fs, BasicTree.Root f.value f.sibling T S2 D.idA
                      (max (rankT f.sibling) (rankT T) + 1),
                      f.leftCtx, f.rightCtx⟩ : BasicWalker D Nat)
                    (max (rankT f.sibling) h + 1)
                    (by show fs.length < fuel
                        rw [hfw] at hfu
                        simp only [List.length_cons] at hfu
                        omega)
                    rfl hL.idRev (fun _ => rfl)
                    ((avlOK_height hfOK).symm.symm) hgT hfn hnT rfl
                    (by show (rankT f.sibling : Int) - rankT T ≤ 2
                        omega)
                    (by show (rankT T : Int) - rankT f.sibling ≤ 2
                        omega)
                    (by intro hh
                        exact hfOK)
                    (by intro hh
                        exact absurd hh (by omega))
                    (by show max (rankT f.sibling) (rankT T) + 1
                          = max (rankT f.sibling) h + 1 ∨
                        max (rankT f.sibling) (rankT T) + 1 + 1
                          = max (rankT f.sibling) h + 1
                        omega)
                    (by intro hh
                        show max (rankT f.sibling) (rankT T) + 1
                          = max (rankT f.sibling) h + 1
                        rcases hh with hh | hh
                        · omega
                        · exact absurd hh (by omega))
                    hfrest
                refine ⟨w2, hloop, ?_⟩
                rw [hseq2, wSeq_eq hL, wSeq_eq hL]
                dsimp only
                rw [hfw]
                simp [framesBefore, framesAfter, hfl, BasicTree.seq,
                  BasicTree.applyA_id hL, hseqcur]

/-- Reassembling two or more delete-descent frames always produces a tree
whose root has the identity pending and balanced stored child ranks (the
stored ranks above the lowest frame are mutually consistent because they
were never touched). -/
theorem reassembleGo_top {D : DataC} : ∀ (rest : List (Frame D Nat))
    (g2 : Frame D Nat) (h : Nat) (t : BasicTree D Nat),
    framesDel (g2 :: rest) h → rankT t = h →
    ∃ zv zl zr zs zb, reassembleGo (g2 :: rest) t =
        BasicTree.Root zv zl zr zs D.idA zb ∧
      (rankT zl : Int) - rankT zr ≤ 1 ∧ (rankT zr : Int) - rankT zl ≤ 1 := by
  intro rest
  induction rest with
  | nil =>
      intro g2 h t hfr hrk
      rw [framesDel_cons] at hfr
      obtain ⟨hgl, hgOK, hgn, hd1, hd2, halg, -⟩ := hfr
      obtain ⟨S2, hrm⟩ := remakeFrame_shape g2 t
      rw [if_pos hgl] at hrm
      refine ⟨g2.value, t, g2.sibling, S2, g2.algData, ?_, ?_, ?_⟩
      · show remakeFrame g2 t = _
        rw [hrm]
      · rw [hrk]
        exact hd1
      · rw [hrk]
        exact hd2
  | cons g3 rest ih =>
      intro g2 h t hfr hrk
      rw [framesDel_cons] at hfr
      obtain ⟨hgl, hgOK, hgn, hd1, hd2, halg, hrest⟩ := hfr
      obtain ⟨S2, hrm⟩ := remakeFrame_shape g2 t
      rw [if_pos hgl] at hrm
      have hrk2 : rankT (remakeFrame g2 t) = max (rankT g2.sibling) h + 1 := by
        rw [hrm, rankT_root, halg]
      exact ih g3 _ _ hrest hrk2

/-- The closing segment of `AVLWalker::delete` in the successor branch:
substitute the rebuilt replacement node, `go_right` into its right
subtree, and rebalance.  `r2` is what the inner rebalance left there;
it is either empty, or a node with a non-reversing pending that is
either already balanced at the root (then the loop stops immediately
above) or satisfies the full entry conditions of the rebalancing loop. -/
theorem deleteAVL_finish {D : DataC} (hL : DataLaws D)
    (w : BasicWalker D Nat) (mv : D.Value) (l r2 : BasicTree D Nat)
    (ms : D.Summary) (mb R : Nat)
    (hfr : framesOK2 w.frames (max (rankT l) R + 1))
    (hdlr1 : (rankT l : Int) - R ≤ 1) (hdlr2 : (R : Int) - rankT l ≤ 1)
    (hOKl : avlOK l = true) (hnl : noRevB l = true)
    (hfin : r2 = BasicTree.Empty ∨
      ∃ zv zl zr zs zp zb, r2 = BasicTree.Root zv zl zr zs zp zb ∧
        D.toReverse zp = false ∧
        (((rankT zl : Int) - rankT zr ≤ 1 ∧
          (rankT zr : Int) - rankT zl ≤ 1) ∨
         (zb = max (rankT zl) (rankT zr) + 1 ∧
          rankT zl = heightT zl ∧ rankT zr = heightT zr ∧
          noRevB zl = true ∧ noRevB zr = true ∧
          (rankT zl : Int) - rankT zr ≤ 2 ∧
          (rankT zr : Int) - rankT zl ≤ 2 ∧
          ((rankT zl : Int) - rankT zr = 2 → avlOK zl = true) ∧
          ((rankT zr : Int) - rankT zl = 2 → avlOK zr = true) ∧
          (zb = R ∨ zb + 1 = R) ∧
          (((rankT zl : Int) - rankT zr = 2 ∨
            (rankT zr : Int) - rankT zl = 2) → zb = R)))) :
    ∃ w2 w3, goRight (putSubtree
        (⟨w.frames, BasicTree.Empty, w.leftCtx, w.rightCtx⟩ :
          BasicWalker D Nat)
        ((rebuildRanksT (BasicTree.rebuild
          (BasicTree.Root mv l r2 ms D.idA mb))).2)) = some w2 ∧
      rebalance w2 = some w3 ∧
      wSeq w3 = framesBefore w.frames ++ (l.seq ++ mv :: r2.seq) ++
        framesAfter w.frames := by
  have hrepl : (rebuildRanksT (BasicTree.rebuild
      (BasicTree.Root mv l r2 ms D.idA mb))).2 =
      BasicTree.Root mv l r2
        (D.addS l.subtreeSummary
          (D.addS (D.toSummary mv) r2.subtreeSummary))
        D.idA (max (rankT l) (rankT r2) + 1) := rfl
  rw [hrepl]
  have hgr2 : goRight (putSubtree
      (⟨w.frames, BasicTree.Empty, w.leftCtx, w.rightCtx⟩ :
        BasicWalker D Nat)
      (BasicTree.Root mv l r2
        (D.addS l.subtreeSummary
          (D.addS (D.toSummary mv) r2.subtreeSummary))
        D.idA (max (rankT l) (rankT r2) + 1))) = some
      ⟨⟨false, D.actV D.idA mv, BasicTree.actTree D.idA l,
          max (rankT l) (rankT r2) + 1, w.leftCtx, w.rightCtx⟩ :: w.frames,
        (BasicTree.actTree D.idA r2).propagate,
        D.addS (D.addS w.leftCtx
          (BasicTree.actTree D.idA l).subtreeSummary)
          (D.toSummary (D.actV D.idA mv)),
        w.rightCtx⟩ := by
    unfold goRight putSubtree
    simp [BasicTree.propagate, hL.idRev]
  have hw2seq : wSeq (⟨⟨false, D.actV D.idA mv, BasicTree.actTree D.idA l,
      max (rankT l) (rankT r2) + 1, w.leftCtx, w.rightCtx⟩ :: w.frames,
      (BasicTree.actTree D.idA r2).propagate,
      D.addS (D.addS w.leftCtx
        (BasicTree.actTree D.idA l).subtreeSummary)
        (D.toSummary (D.actV D.idA mv)),
      w.rightCtx⟩ : BasicWalker D Nat) =
      framesBefore w.frames ++ (l.seq ++ mv :: r2.seq) ++
        framesAfter w.frames := by
    rw [(goRight_spec hL hgr2).1, wSeq_eq hL]
    simp only [putSubtree]
    rw [BasicTree.seq, BasicTree.applyA_id hL]
  rcases hfin with hre | ⟨zv, zl, zr, zs, zp, zb, hr2, hzrev, hcase⟩
  · subst hre
    refine ⟨_, _, hgr2, ?_, hw2seq⟩
    unfold rebalance
    exact rfl
  · have hq : D.toReverse (D.comp D.idA zp) = false := toRev_comp_id hL hzrev
    have hcur : ((BasicTree.actTree D.idA r2).propagate : BasicTree D Nat) =
        BasicTree.Root (D.actV (D.comp D.idA zp) zv)
          (BasicTree.actTree (D.comp D.idA zp) zl)
          (BasicTree.actTree (D.comp D.idA zp) zr)
          (D.actS D.idA zs) D.idA zb := by
      rw [hr2]
      simp [BasicTree.actTree, BasicTree.propagate, hq]
    have hrkcur : rankT ((BasicTree.actTree D.idA r2).propagate) = zb := by
      rw [hcur]
      rfl
    have hrkr2 : rankT r2 = zb := by rw [hr2]; rfl
    have hne : rebalance (⟨⟨false, D.actV D.idA mv,
        BasicTree.actTree D.idA l, max (rankT l) (rankT r2) + 1,
        w.leftCtx, w.rightCtx⟩ :: w.frames,
        (BasicTree.actTree D.idA r2).propagate,
        D.addS (D.addS w.leftCtx
          (BasicTree.actTree D.idA l).subtreeSummary)
          (D.toSummary (D.actV D.idA mv)),
        w.rightCtx⟩ : BasicWalker D Nat) =
        rebalanceGo ((⟨⟨false, D.actV D.idA mv,
          BasicTree.actTree D.idA l, max (rankT l) (rankT r2) + 1,
          w.leftCtx, w.rightCtx⟩ :: w.frames,
          (BasicTree.actTree D.idA r2).propagate,
          D.addS (D.addS w.leftCtx
            (BasicTree.actTree D.idA l).subtreeSummary)
            (D.toSummary (D.actV D.idA mv)),
          w.rightCtx⟩ : BasicWalker D Nat).depth + 1)
          (⟨⟨false, D.actV D.idA mv,
          BasicTree.actTree D.idA l, max (rankT l) (rankT r2) + 1,
          w.leftCtx, w.rightCtx⟩ :: w.frames,
          (BasicTree.actTree D.idA r2).propagate,
          D.addS (D.addS w.leftCtx
            (BasicTree.actTree D.idA l).subtreeSummary)
            (D.toSummary (D.actV D.idA mv)),
          w.rightCtx⟩ : BasicWalker D Nat) := by
      unfold rebalance
      rw [if_neg]
      show ¬ ((BasicTree.actTree D.idA r2).propagate.isEmpty = true)
      rw [hcur]
      simp [BasicTree.isEmpty]
    rcases hcase with ⟨hz1, hz2⟩ | ⟨hzb, hgzl, hgzr, hnzl, hnzr, hzd1, hzd2,
        hzdeepL, hzdeepR, hzdrift, hzdeep⟩
    · -- balanced at the root: one trivial step, then the stored rank above
      -- is unchanged and the loop stops
      have hstep : rebalanceStep (⟨⟨false, D.actV D.idA mv,
          BasicTree.actTree D.idA l, max (rankT l) (rankT r2) + 1,
          w.leftCtx, w.rightCtx⟩ :: w.frames,
          (BasicTree.actTree D.idA r2).propagate,
          D.addS (D.addS w.leftCtx
            (BasicTree.actTree D.idA l).subtreeSummary)
            (D.toSummary (D.actV D.idA mv)),
          w.rightCtx⟩ : BasicWalker D Nat) = some _ :=
        rebalanceStep_balanced hcur
          (by rw [rankT_actTree, rankT_actTree]; omega)
          (by rw [rankT_actTree, rankT_actTree]; omega)
      have hgu : goUp (⟨⟨false, D.actV D.idA mv,
          BasicTree.actTree D.idA l, max (rankT l) (rankT r2) + 1,
          w.leftCtx, w.rightCtx⟩ :: w.frames,
          (BasicTree.actTree D.idA r2).propagate,
          D.addS (D.addS w.leftCtx
            (BasicTree.actTree D.idA l).subtreeSummary)
            (D.toSummary (D.actV D.idA mv)),
          w.rightCtx⟩ : BasicWalker D Nat) = some (false,
          ⟨w.frames, remakeFrame ⟨false, D.actV D.idA mv,
            BasicTree.actTree D.idA l, max (rankT l) (rankT r2) + 1,
            w.leftCtx, w.rightCtx⟩
            ((BasicTree.actTree D.idA r2).propagate),
            w.leftCtx, w.rightCtx⟩) := by
        simp [goUp]
      obtain ⟨S3, hrm⟩ := remakeFrame_shape
        (⟨false, D.actV D.idA mv, BasicTree.actTree D.idA l,
          max (rankT l) (rankT r2) + 1, w.leftCtx, w.rightCtx⟩ : Frame D Nat)
        ((BasicTree.actTree D.idA r2).propagate)
      rw [if_neg (by simp)] at hrm
      have hreb : ∃ w3, rebalance (⟨⟨false, D.actV D.idA mv,
          BasicTree.actTree D.idA l, max (rankT l) (rankT r2) + 1,
          w.leftCtx, w.rightCtx⟩ :: w.frames,
          (BasicTree.actTree D.idA r2).propagate,
          D.addS (D.addS w.leftCtx
            (BasicTree.actTree D.idA l).subtreeSummary)
            (D.toSummary (D.actV D.idA mv)),
          w.rightCtx⟩ : BasicWalker D Nat) = some w3 ∧
          wSeq w3 = framesBefore w.frames ++ (l.seq ++ mv :: r2.seq) ++
            framesAfter w.frames := by
        rw [hne]
        simp only [rebalanceGo]
        rw [hstep]
        dsimp only
        rw [hgu]
        dsimp only
        rw [hrm]
        simp only [rebuildRanksT]
        rw [if_neg (by
          simp only [decide_eq_true_eq, ne_eq, not_not]
          show max (rankT l) (rankT r2) + 1 = _
          rw [rankT_actTree, hrkcur, hrkr2])]
        refine ⟨_, rfl, ?_⟩
        rw [wSeq_eq hL]
        dsimp only
        rw [BasicTree.seq, BasicTree.applyA_id hL]
        rw [show (BasicTree.actTree D.idA l).seq = l.seq from by
          rw [seq_actTree hL, BasicTree.applyA_id hL]]
        rw [show ((BasicTree.actTree D.idA r2).propagate).seq = r2.seq from by
          rw [seq_propagate hL, seq_actTree hL, BasicTree.applyA_id hL]]
        rw [hL.idActV mv]
      obtain ⟨w3, hx1, hx2⟩ := hreb
      exact ⟨_, w3, hgr2, hx1, hx2⟩
    · -- loop entry conditions hold: run the general delete rebalance loop
      obtain ⟨w3, hloop, hseq3⟩ := rebalanceGo_del hL
        ((⟨⟨false, D.actV D.idA mv,
          BasicTree.actTree D.idA l, max (rankT l) (rankT r2) + 1,
          w.leftCtx, w.rightCtx⟩ :: w.frames,
          (BasicTree.actTree D.idA r2).propagate,
          D.addS (D.addS w.leftCtx
            (BasicTree.actTree D.idA l).subtreeSummary)
            (D.toSummary (D.actV D.idA mv)),
          w.rightCtx⟩ : BasicWalker D Nat).depth + 1)
        (⟨⟨false, D.actV D.idA mv,
          BasicTree.actTree D.idA l, max (rankT l) (rankT r2) + 1,
          w.leftCtx, w.rightCtx⟩ :: w.frames,
          (BasicTree.actTree D.idA r2).propagate,
          D.addS (D.addS w.leftCtx
            (BasicTree.actTree D.idA l).subtreeSummary)
            (D.toSummary (D.actV D.idA mv)),
          w.rightCtx⟩ : BasicWalker D Nat)
        R (Nat.lt_succ_self _) hcur hL.idRev (fun _ => rfl)
        (by rw [rankT_actTree, heightT_actTree]; exact hgzl)
        (by rw [rankT_actTree, heightT_actTree]; exact hgzr)
        (noRevB_actTree hL hq hnzl) (noRevB_actTree hL hq hnzr)
        (by rw [rankT_actTree, rankT_actTree]; exact hzb)
        (by rw [rankT_actTree, rankT_actTree]; exact hzd1)
        (by rw [rankT_actTree, rankT_actTree]; exact hzd2)
        (by rw [rankT_actTree, rankT_actTree, avlOK_actTree]; exact hzdeepL)
        (by rw [rankT_actTree, rankT_actTree, avlOK_actTree]; exact hzdeepR)
        hzdrift
        (by rw [rankT_actTree, rankT_actTree]; exact hzdeep)
        (by rw [framesOK2_cons]
            refine ⟨?_, ?_, ?_, ?_, ?_⟩
            · show avlOK (BasicTree.actTree D.idA l) = true
              rw [avlOK_actTree]
              exact hOKl
            · exact noRevB_actTree hL hL.idRev hnl
            · show (R : Int) - rankT (BasicTree.actTree D.idA l) ≤ 1
              rw [rankT_actTree]
              exact hdlr2
            · show (rankT (BasicTree.actTree D.idA l) : Int) - R ≤ 1
              rw [rankT_actTree]
              exact hdlr1
            · show framesOK2 w.frames
                (max (rankT (BasicTree.actTree D.idA l)) R + 1)
              rw [rankT_actTree]
              exact hfr)
      refine ⟨_, w3, hgr2, ?_, hseq3.trans hw2seq⟩
      rw [hne]
      exact hloop

/-- `AVLWalker::delete` at an occupied position of a valid AVL tree (seen
through a walker whose frame stack records a descent through valid
siblings): it succeeds, returns the stored value, and the tree's sequence
afterwards is the original sequence with exactly that element removed. -/
theorem deleteAVL_spec {D : DataC} (hL : DataLaws D) {w : BasicWalker D Nat}
    {v : D.Value} {l r : BasicTree D Nat} {s : D.Summary} {b : Nat}
    (hc : w.cur = BasicTree.Root v l r s D.idA b)
    (hOK : avlOK w.cur = true) (hn : noRevB w.cur = true)
    (hfr : framesOK2 w.frames b) :
    ∃ w2, deleteAVL w = some (some (v, w2)) ∧
      wSeq w2 = framesBefore w.frames ++ (l.seq ++ r.seq) ++
        framesAfter w.frames := by
  rw [hc] at hOK hn
  rw [avlOK_root_iff] at hOK
  obtain ⟨hOKl, hOKr, hb, hd1, hd2⟩ := hOK
  rw [noRevB_root_iff] at hn
  obtain ⟨-, hnl, hnr⟩ := hn
  unfold deleteAVL
  rw [hc]
  dsimp only
  cases hre : r.isEmpty with
  | true =>
      rw [if_pos rfl]
      have hrr : r = BasicTree.Empty :=
        (BasicTree.isEmpty_iff_eq_empty r).mp hre
      have hr0 : rankT r = 0 := by rw [hrr]; rfl
      cases hle : l with
      | Empty =>
          refine ⟨⟨w.frames, BasicTree.Empty, w.leftCtx, w.rightCtx⟩,
            rfl, ?_⟩
          rw [wSeq_eq hL]
          dsimp only
          rw [hrr]
          simp [BasicTree.seq]
      | Root lv ll lr ls lp lb =>
          rw [hle] at hnl
          rw [noRevB_root_iff] at hnl
          obtain ⟨hlp, hnll, hnlr⟩ := hnl
          rw [hle] at hOKl
          rw [avlOK_root_iff] at hOKl
          obtain ⟨hOKll, hOKlr, hlb, hld1, hld2⟩ := hOKl
          have hrl : rankT l = lb := by rw [hle]; rfl
          obtain ⟨w2, hloop, hseq⟩ := rebalanceGo_del hL
            ((⟨w.frames, BasicTree.Root lv ll lr ls lp lb, w.leftCtx,
              w.rightCtx⟩ : BasicWalker D Nat).depth + 1)
            (⟨w.frames, BasicTree.Root lv ll lr ls lp lb, w.leftCtx,
              w.rightCtx⟩ : BasicWalker D Nat)
            b (Nat.lt_succ_self _) rfl hlp
            (fun hh => absurd hh (by omega))
            (avlOK_height hOKll) (avlOK_height hOKlr) hnll hnlr hlb
            (by omega) (by omega)
            (fun hh => absurd hh (by omega))
            (fun hh => absurd hh (by omega))
            (by omega)
            (fun hh => absurd hh (by omega))
            hfr
          refine ⟨w2, ?_, ?_⟩
          · rw [show rebalance (putSubtree { w with cur := BasicTree.Empty }
                (BasicTree.Root lv ll lr ls lp lb)) =
              rebalanceGo ((⟨w.frames, BasicTree.Root lv ll lr ls lp lb,
                w.leftCtx, w.rightCtx⟩ : BasicWalker D Nat).depth + 1)
                (⟨w.frames, BasicTree.Root lv ll lr ls lp lb, w.leftCtx,
                  w.rightCtx⟩ : BasicWalker D Nat) from rfl]
            rw [hloop]
            rfl
          · rw [hseq, wSeq_eq hL]
            dsimp only
            rw [hrr]
            simp [BasicTree.seq]
  | false =>
      rw [if_neg (by simp)]
      obtain ⟨iw2, mv, mr, ms, hgu, hcur2, hsucc, hOKmr, hnmr, hfrD, hstk⟩ :=
        successor_extract_avl hL hre hOKr hnr
      rw [hgu]
      dsimp only
      rw [hcur2]
      dsimp only
      simp only [BasicTree.isEmpty]
      rw [if_pos trivial]
      have hfr2 : framesOK2 w.frames (max (rankT l) (rankT r) + 1) := by
        rw [← hb]
        exact hfr
      cases hmre : mr with
      | Empty =>
          rw [hmre] at hfrD hstk hsucc
          have hreb : rebalance (putSubtree { iw2 with
              cur := BasicTree.Empty } BasicTree.Empty) =
              some { iw2 with cur := BasicTree.Empty } := rfl
          rw [hreb]
          dsimp only
          have hr2eq : reassemble { iw2 with cur := BasicTree.Empty } =
              reassembleGo iw2.frames BasicTree.Empty := rfl
          have hfin : reassembleGo iw2.frames BasicTree.Empty
                = BasicTree.Empty ∨
              ∃ zv zl zr zs zp zb, reassembleGo iw2.frames BasicTree.Empty
                  = BasicTree.Root zv zl zr zs zp zb ∧
                D.toReverse zp = false ∧
                (((rankT zl : Int) - rankT zr ≤ 1 ∧
                  (rankT zr : Int) - rankT zl ≤ 1) ∨
                 (zb = max (rankT zl) (rankT zr) + 1 ∧
                  rankT zl = heightT zl ∧ rankT zr = heightT zr ∧
                  noRevB zl = true ∧ noRevB zr = true ∧
                  (rankT zl : Int) - rankT zr ≤ 2 ∧
                  (rankT zr : Int) - rankT zl ≤ 2 ∧
                  ((rankT zl : Int) - rankT zr = 2 → avlOK zl = true) ∧
                  ((rankT zr : Int) - rankT zl = 2 → avlOK zr = true) ∧
                  (zb = rankT r ∨ zb + 1 = rankT r) ∧
                  (((rankT zl : Int) - rankT zr = 2 ∨
                    (rankT zr : Int) - rankT zl = 2) → zb = rankT r))) := by
            cases hfs : iw2.frames with
            | nil => exact Or.inl rfl
            | cons g rest =>
                rw [hfs] at hfrD hstk
                rw [framesDel_cons] at hfrD
                obtain ⟨hgl, hgOK, hgn, hgd1, hgd2, hgalg, hgrest⟩ := hfrD
                obtain ⟨S4, hrmg⟩ := remakeFrame_shape g BasicTree.Empty
                rw [if_pos hgl] at hrmg
                cases hrest : rest with
                | nil =>
                    refine Or.inr ⟨g.value, BasicTree.Empty, g.sibling, S4,
                      D.idA, g.algData, ?_, hL.idRev, ?_⟩
                    · show remakeFrame g BasicTree.Empty = _
                      rw [hrmg]
                    · by_cases hsib : rankT g.sibling = 0
                      · have h0 : rankT (BasicTree.Empty :
                            BasicTree D Nat) = 0 := rfl
                        refine Or.inl ⟨?_, ?_⟩
                        · show (rankT (BasicTree.Empty :
                              BasicTree D Nat) : Int) - rankT g.sibling ≤ 1
                          omega
                        · show (rankT g.sibling : Int) -
                              rankT (BasicTree.Empty : BasicTree D Nat) ≤ 1
                          omega
                      · have hstk2 : g.algData = rankT r := by
                          rw [← hstk, hrest, hgalg]
                          rfl
                        refine Or.inr ⟨?_, rfl, avlOK_height hgOK, rfl, hgn,
                          ?_, ?_, fun hh => absurd hh (by
                            have h0 : rankT (BasicTree.Empty :
                              BasicTree D Nat) = 0 := rfl
                            omega),
                          fun _ => hgOK, Or.inl hstk2, fun _ => hstk2⟩
                        · have h0 : rankT (BasicTree.Empty :
                            BasicTree D Nat) = 0 := rfl
                          rw [hgalg, h0]
                          omega
                        · show (rankT (BasicTree.Empty :
                            BasicTree D Nat) : Int) - rankT g.sibling ≤ 2
                          have h0 : rankT (BasicTree.Empty :
                            BasicTree D Nat) = 0 := rfl
                          omega
                        · show (rankT g.sibling : Int) -
                            rankT (BasicTree.Empty : BasicTree D Nat) ≤ 2
                          have h0 : rankT (BasicTree.Empty :
                            BasicTree D Nat) = 0 := rfl
                          omega
                | cons g2 rest2 =>
                    rw [hrest] at hgrest
                    have hrkg : rankT (remakeFrame g BasicTree.Empty)
                        = max (rankT g.sibling)
                          (rankT (BasicTree.Empty : BasicTree D Nat) + 1)
                          + 1 := by
                      rw [hrmg, rankT_root, hgalg]
                    obtain ⟨zv, zl, zr, zs, zb, hre2, hz1, hz2⟩ :=
                      reassembleGo_top rest2 g2 _ _ hgrest hrkg
                    refine Or.inr ⟨zv, zl, zr, zs, D.idA, zb, ?_,
                      hL.idRev, Or.inl ⟨hz1, hz2⟩⟩
                    show reassembleGo (g2 :: rest2)
                      (remakeFrame g BasicTree.Empty) = _
                    exact hre2
          obtain ⟨w2f, w3f, hgrE, hrebE, hseqE⟩ := deleteAVL_finish hL w mv l
            (reassembleGo iw2.frames BasicTree.Empty) ms
            (rankT (BasicTree.Empty : BasicTree D Nat) + 1) (rankT r)
            hfr2 hd1 hd2 hOKl hnl hfin
          rw [show reassemble { iw2 with cur := BasicTree.Empty } =
            reassembleGo iw2.frames BasicTree.Empty from rfl]
          rw [hgrE]
          dsimp only
          rw [hrebE]
          refine ⟨w3f, rfl, ?_⟩
          rw [hseqE]
          have hr2seq : (reassembleGo iw2.frames BasicTree.Empty).seq =
              wSeq { iw2 with cur := BasicTree.Empty } := rfl
          rw [hr2seq, hsucc]
      | Root m1v m1l m1r m1s m1p m1b =>
          rw [hmre] at hfrD hstk hsucc hOKmr hnmr
          rw [noRevB_root_iff] at hnmr
          obtain ⟨hm1p, hnm1l, hnm1r⟩ := hnmr
          rw [avlOK_root_iff] at hOKmr
          obtain ⟨hOKm1l, hOKm1r, hm1b, hmd1, hmd2⟩ := hOKmr
          obtain ⟨iw4, hloop, hseqI, hdelI⟩ := rebalanceGo_inner hL
            ((⟨iw2.frames, BasicTree.Root m1v m1l m1r m1s m1p m1b,
              iw2.leftCtx, iw2.rightCtx⟩ : BasicWalker D Nat).depth + 1)
            (⟨iw2.frames, BasicTree.Root m1v m1l m1r m1s m1p m1b,
              iw2.leftCtx, iw2.rightCtx⟩ : BasicWalker D Nat)
            (rankT (BasicTree.Root m1v m1l m1r m1s m1p m1b :
              BasicTree D Nat) + 1)
            (Nat.lt_succ_self _) rfl hm1p
            (fun hh => absurd hh (by omega))
            hOKm1l hOKm1r hnm1l hnm1r hm1b
            (by omega) (by omega)
            (by rw [rankT_root]
                omega)
            (fun hh => absurd hh (by omega))
            hfrD
          have hreb : rebalance (putSubtree { iw2 with
              cur := BasicTree.Empty }
              (BasicTree.Root m1v m1l m1r m1s m1p m1b)) =
              rebalanceGo ((⟨iw2.frames,
                BasicTree.Root m1v m1l m1r m1s m1p m1b,
                iw2.leftCtx, iw2.rightCtx⟩ : BasicWalker D Nat).depth + 1)
                (⟨iw2.frames, BasicTree.Root m1v m1l m1r m1s m1p m1b,
                  iw2.leftCtx, iw2.rightCtx⟩ : BasicWalker D Nat) := rfl
          rw [hreb, hloop]
          dsimp only
          have hfin : reassemble iw4 = BasicTree.Empty ∨
              ∃ zv zl zr zs zp zb, reassemble iw4
                  = BasicTree.Root zv zl zr zs zp zb ∧
                D.toReverse zp = false ∧
                (((rankT zl : Int) - rankT zr ≤ 1 ∧
                  (rankT zr : Int) - rankT zl ≤ 1) ∨
                 (zb = max (rankT zl) (rankT zr) + 1 ∧
                  rankT zl = heightT zl ∧ rankT zr = heightT zr ∧
                  noRevB zl = true ∧ noRevB zr = true ∧
                  (rankT zl : Int) - rankT zr ≤ 2 ∧
                  (rankT zr : Int) - rankT zl ≤ 2 ∧
                  ((rankT zl : Int) - rankT zr = 2 → avlOK zl = true) ∧
                  ((rankT zr : Int) - rankT zl = 2 → avlOK zr = true) ∧
                  (zb = rankT r ∨ zb + 1 = rankT r) ∧
                  (((rankT zl : Int) - rankT zr = 2 ∨
                    (rankT zr : Int) - rankT zl = 2) → zb = rankT r))) := by
            have hR : stackRank iw2.frames
                (rankT (BasicTree.Root m1v m1l m1r m1s m1p m1b :
                  BasicTree D Nat) + 1) = rankT r := hstk
            rw [hR] at hdelI
            obtain ⟨hdg, hdn, hddrift, hdroot⟩ := hdelI
            cases hric : reassemble iw4 with
            | Empty => exact Or.inl rfl
            | Root zv zl zr zs zp zb =>
                rw [hric] at hdg hdn hddrift hdroot
                rw [rankGoodB_root_iff] at hdg
                obtain ⟨hdgl, hdgr, hdb⟩ := hdg
                rw [noRevB_root_iff] at hdn
                obtain ⟨hdp, hdnl, hdnr⟩ := hdn
                have hrz : rankT (BasicTree.Root zv zl zr zs zp zb :
                    BasicTree D Nat) = zb := rfl
                rw [hrz] at hddrift
                obtain ⟨he1, he2, he3, he4⟩ := hdroot
                refine Or.inr ⟨zv, zl, zr, zs, zp, zb, rfl, hdp,
                  Or.inr ⟨hdb, rankGood_of_rankGoodB hdgl,
                    rankGood_of_rankGoodB hdgr, hdnl, hdnr, he1, he2,
                    fun hh => (he3 hh).1, fun hh => (he4 hh).1, hddrift,
                    ?_⟩⟩
                intro hh
                rcases hh with hh | hh
                · rw [← hrz]
                  exact (he3 hh).2
                · rw [← hrz]
                  exact (he4 hh).2
          obtain ⟨w2f, w3f, hgrE, hrebE, hseqE⟩ := deleteAVL_finish hL w mv l
            (reassemble iw4) ms
            (rankT (BasicTree.Root m1v m1l m1r m1s m1p m1b :
              BasicTree D Nat) + 1) (rankT r)
            hfr2 hd1 hd2 hOKl hnl hfin
          rw [hgrE]
          dsimp only
          rw [hrebE]
          refine ⟨w3f, rfl, ?_⟩
          rw [hseqE]
          have hr2seq : (reassemble iw4).seq = wSeq iw4 := rfl
          rw [hr2seq, hseqI]
          have hwm : wSeq (⟨iw2.frames,
              BasicTree.Root m1v m1l m1r m1s m1p m1b,
              iw2.leftCtx, iw2.rightCtx⟩ : BasicWalker D Nat) =
              wSeq { iw2 with cur :=
                BasicTree.Root m1v m1l m1r m1s m1p m1b } := rfl
          rw [hwm, hsucc]

/-! ## Concrete evaluation inputs -/

/-- A one-node right subtree used by the delete witness. -/
def cexDelSub : BasicTree SizeData Nat :=
  BasicTree.Root 2 BasicTree.Empty BasicTree.Empty ⟨1⟩ () 1

/-- An AVL walker at the root of the two-node tree `[1, 2]`. -/
def cexDelAVL : BasicWalker SizeData Nat :=
  ⟨[], BasicTree.Root 1 BasicTree.Empty cexDelSub ⟨2⟩ () 2, ⟨0⟩, ⟨0⟩⟩

/-- An AVL walker at an empty position. -/
def cexDelAVLe : BasicWalker SizeData Nat :=
  ⟨[], BasicTree.Empty, ⟨0⟩, ⟨0⟩⟩

/-- A one-node right subtree used by the splay delete witness. -/
def cexDelSplayT : BasicTree SizeData Unit :=
  BasicTree.Root 6 BasicTree.Empty BasicTree.Empty ⟨1⟩ () ()

/-- A splay walker at the root of the two-node tree `[5, 6]`. -/
def cexDelSplay : BasicWalker SizeData Unit :=
  ⟨[], BasicTree.Root 5 BasicTree.Empty cexDelSplayT ⟨2⟩ () (), ⟨0⟩, ⟨0⟩⟩

/-- A splay walker at an empty position. -/
def cexDelSplayE : BasicWalker SizeData Unit :=
  ⟨[], BasicTree.Empty, ⟨0⟩, ⟨0⟩⟩


/-- A valid 4-node AVL tree over `SizeData`, in-order `[1, 2, 3, 4]`:
root `2` (rank 3) with left child the leaf `1` (rank 1) and right child
`4` (rank 2) whose left child is the leaf `3` (rank 1). -/
def cexAvlTree : BasicTree SizeData Nat :=
  BasicTree.Root 2
    (BasicTree.Root 1 BasicTree.Empty BasicTree.Empty ⟨1⟩ () 1)
    (BasicTree.Root 4
      (BasicTree.Root 3 BasicTree.Empty BasicTree.Empty ⟨1⟩ () 1)
      BasicTree.Empty ⟨2⟩ () 2)
    ⟨4⟩ () 3

/-- A 2-node tree over `SizeData` (no rank augmentation), in-order
`[5, 10]`: root `10` with the left child leaf `5`. -/
def cexBasicTree : BasicTree SizeData Unit :=
  BasicTree.Root 10
    (BasicTree.Root 5 BasicTree.Empty BasicTree.Empty ⟨1⟩ () ())
    BasicTree.Empty ⟨2⟩ () ()

/-- The same 2-node tree with AVL rank augmentation. -/
def cexAvlTree2 : BasicTree SizeData Nat :=
  BasicTree.Root 10
    (BasicTree.Root 5 BasicTree.Empty BasicTree.Empty ⟨1⟩ () 1)
    BasicTree.Empty ⟨2⟩ () 2

/-! ## Claims -/

/-- **C1**: the claim states that after any `AVLWalker::delete` at an
occupied position of a rank-invariant AVL tree (including the subsequent
rebalancing), every node again satisfies
`rank(n) = 1 + max(rank(left(n)), rank(right(n)))` and
`|rank(left(n)) − rank(right(n))| ≤ 1`.  This theorem evaluates the code
at a failing input: `cexAvlTree` satisfies the invariant (first
conjunct); walking to its leftmost leaf gives an occupied position
(second conjunct); `delete` there succeeds, returns the stored value `1`,
but the resulting tree violates the invariant (third conjunct): the
deleted leaf's position is empty, so `rebalance` returns immediately
(avl.rs 410) and the root is left with child ranks `0` and `2`. -/
theorem claim_C1_delete_breaks_rank_invariant :
    avlOK cexAvlTree = true ∧
    (goLeft (BasicWalker.new cexAvlTree)).map BasicWalker.isEmpty = some false ∧
    ((goLeft (BasicWalker.new cexAvlTree)).bind deleteAVL).map
        (Option.map (fun p => (p.1, avlOK (reassemble p.2)))) =
      some (some ((1 : Int), false)) := by
  decide

/-- **C5**: the claim states that `right_summary()` at a non-empty
position equals the subtree summary of the current node's *right* child
combined with `far_right_summary()`.  Evaluating the source
`right_summary` (mod.rs 82-89, which reads `node.left`) at the root of
`cexBasicTree` yields size `1` (the *left* child), while the claimed
value (`rightSummarySpec`) is size `0`: the code diverges from the claim
and from its own doc comment. -/
theorem claim_C5_right_summary_uses_left_child :
    BasicWalker.rightSummary (BasicWalker.new cexBasicTree) = ⟨1⟩ ∧
    rightSummarySpec (BasicWalker.new cexBasicTree) = ⟨0⟩ ∧
    (BasicWalker.new cexBasicTree).isEmpty = false ∧
    (⟨1⟩ : Size) ≠ ⟨0⟩ := by
  decide

/-- **C6**: the claim states `AVLWalker::far_right_summary()` returns the
summary of the values to the right of the position that are outside the
current subtree, symmetric to `far_left_summary`.  After `go_right` from
the root of `cexAvlTree2` the left context has size `2` and the right
context size `0`; the source `far_right_summary` (avl.rs 300-302) returns
the *left* context, size `2`, equal to `far_left_summary` and different
from the symmetric value `0`. -/
theorem claim_C6_avl_far_right_summary_is_left :
    (goRight (BasicWalker.new cexAvlTree2)).map
        (fun w => (avlFarRightSummary w, BasicWalker.farRightSummary w,
          avlFarLeftSummary w)) =
      some (⟨2⟩, ⟨0⟩, ⟨2⟩) ∧ (⟨2⟩ : Size) ≠ ⟨0⟩ := by
  decide

/-- **C7**: the claim states `by_key` returns `GoLeft` when the node's
key is *greater* than the searched key and `GoRight` when it is *less*.
The source (`locate_by_key`, locator.rs 83-90) does the opposite: with
searched key `2`, a node with key `1` (less) yields `GoLeft` and a node
with key `3` (greater) yields `GoRight`; equality does yield `Accept`.
This also contradicts the locator contract in the module header
(locator.rs 6-8). -/
theorem claim_C7_locate_by_key_reversed :
    locateByKey (2 : Int) 1 = LocResult.GoLeft ∧
    locateByKey (2 : Int) 3 = LocResult.GoRight ∧
    locateByKey (2 : Int) 2 = LocResult.Accept ∧
    LocResult.GoLeft ≠ LocResult.GoRight := by
  decide

/-- **C8**: the claim states that `act_segment` with a reversing action
on the AVL tree reports a distinguishable, recoverable refusal value
(not an abort/panic).  The source (avl.rs 176-184) runs `todo!()` — a
panic — on any action whose reverse bit is set: evaluated on the
reversing `RevAction`, the outcome is `panicked`, not a completion, and
the `fn act_segment(&mut self, ...)` signature has no refusal value to
return. -/
theorem claim_C8_reversing_act_segment_panics :
    RevSizeData.toReverse ⟨true⟩ = true ∧
    actSegmentOutcome RevSizeData ⟨true⟩ = ActSegmentOutcome.panicked ∧
    ActSegmentOutcome.panicked ≠ ActSegmentOutcome.completed := by
  decide

/-- A splay walker at depth 1 (standing at the left child of the root of
`cexBasicTree`), used as a concrete witness input. -/
def cexSplayWalker : BasicWalker SizeData Unit :=
  { frames := [⟨true, 10, BasicTree.Empty, (), ⟨0⟩, ⟨0⟩⟩],
    cur := BasicTree.Root 5 BasicTree.Empty BasicTree.Empty ⟨1⟩ () (),
    leftCtx := ⟨0⟩, rightCtx := ⟨0⟩ }

/-- **C9**: for every splay walker whose current depth is at least `d`,
`splay_to_depth(d)` terminates and leaves the walker at depth exactly
`d`; in particular `splay()` (= `splay_to_depth(0)`) always terminates
with the walker at depth 0, so the splayed element (or, from an empty
position, a nearby node) becomes the root. -/
theorem claim_C9_splay_to_depth_terminates :
    (∀ (D : DataC) (B : Type) (w : BasicWalker D B) (d : Nat),
        DataLaws D → d ≤ w.depth →
        ∃ w', splayToDepth d w = some w' ∧ w'.depth = d) ∧
    (∀ (D : DataC) (B : Type) (w : BasicWalker D B),
        DataLaws D → ∃ w', splayW w = some w' ∧ w'.depth = 0) := by
  constructor
  · intro D B w d hL hd
    obtain ⟨w', h1, h2, _⟩ := splayToDepth_spec hL hd
    exact ⟨w', h1, h2⟩
  · intro D B w hL
    obtain ⟨w', h1, h2, _⟩ := splayToDepth_spec hL (Nat.zero_le w.depth)
    exact ⟨w', h1, h2⟩

/-- Witness for C9: applied at the concrete walker `cexSplayWalker`. -/
theorem claim_C9_witness :
    1 ≤ cexSplayWalker.depth ∧
    (∃ w', splayToDepth 1 cexSplayWalker = some w' ∧ w'.depth = 1) ∧
    (∃ w', splayW cexSplayWalker = some w' ∧ w'.depth = 0) :=
  ⟨by decide,
    claim_C9_splay_to_depth_terminates.1 SizeData Unit cexSplayWalker 1
      SizeData_laws (by decide),
    claim_C9_splay_to_depth_terminates.2 SizeData Unit cexSplayWalker
      SizeData_laws⟩

/-- **C4**: for every splay tree and every gap (an empty walker
position), `split_right` returns `Some` of a tree holding exactly the
elements at or after the gap, the walker retains exactly the elements
before the gap (at the root), and concatenating the retained tree with
the returned tree restores the original in-order sequence; concatenating
with an empty left tree yields the right tree. -/
theorem claim_C4_split_right_concat_roundtrip {D : DataC} (hL : DataLaws D)
    (w : BasicWalker D Unit) (hc : w.cur = BasicTree.Empty) :
    (∃ t2 w2, splitRight w = some (some (t2, w2)) ∧
      t2.seq = framesAfter w.frames ∧
      (reassemble w2).seq = framesBefore w.frames ∧
      ∃ t3, concatenateRight (reassemble w2) t2 = some t3 ∧
        t3.seq = wSeq w) ∧
    (∀ other : BasicTree D Unit,
      concatenateRight BasicTree.Empty other = some other) := by
  constructor
  · obtain ⟨t2, w2, h1, hfr, ht2, hw2⟩ := splitRight_spec hL hc
    have hre : reassemble w2 = w2.cur := by
      unfold reassemble
      rw [hfr]
      rfl
    obtain ⟨t3, h3, hseq3⟩ := concatenateRight_seq hL (reassemble w2) t2
    refine ⟨t2, w2, h1, ht2, by rw [hre]; exact hw2, t3, h3, ?_⟩
    rw [hseq3, hre, hw2, ht2, wSeq_eq hL, hc]
    simp [BasicTree.seq]
  · intro other
    exact concatenateRight_empty other

/-- Witness for C4: applied at the concrete gap walker
`cexSplitWalker`. -/
theorem claim_C4_witness :
    cexSplitWalker.cur = BasicTree.Empty ∧
    ((∃ t2 w2, splitRight cexSplitWalker = some (some (t2, w2)) ∧
      t2.seq = framesAfter cexSplitWalker.frames ∧
      (reassemble w2).seq = framesBefore cexSplitWalker.frames ∧
      ∃ t3, concatenateRight (reassemble w2) t2 = some t3 ∧
        t3.seq = wSeq cexSplitWalker) ∧
    (∀ other : BasicTree SizeData Unit,
      concatenateRight BasicTree.Empty other = some other)) :=
  ⟨rfl, claim_C4_split_right_concat_roundtrip SizeData_laws cexSplitWalker rfl⟩

/-- **C10**: `split_left` returns `None` (leaving the tree untouched)
when the current position is occupied; at a gap it returns `Some` of a
tree holding exactly the elements strictly before the gap, while the
walker's own tree afterwards holds exactly the elements after the
gap. -/
theorem claim_C10_split_left_spec {D : DataC} (hL : DataLaws D)
    (w : BasicWalker D Unit) :
    (w.cur.isEmpty = false → splitLeft w = some none) ∧
    (w.cur = BasicTree.Empty →
      ∃ t2 w2, splitLeft w = some (some (t2, w2)) ∧
        t2.seq = framesBefore w.frames ∧
        (reassemble w2).seq = framesAfter w.frames) := by
  constructor
  · intro hemp
    unfold splitLeft
    rw [splitRight_occupied hemp]
  · intro hc
    obtain ⟨t2, w2, h1, hfr, ht2, hw2⟩ := splitRight_spec hL hc
    unfold splitLeft
    rw [h1]
    dsimp only
    refine ⟨w2.cur, _, rfl, hw2, ?_⟩
    show (reassembleGo w2.frames t2).seq = framesAfter w.frames
    rw [hfr]
    exact ht2

/-- Witness for C10: applied at the concrete gap walker
`cexSplitWalker2` (and, for the occupied case, at the same walker moved
onto its parent node by `go_up`). -/
theorem claim_C10_witness :
    (∃ t2 w2, splitLeft cexSplitWalker2 = some (some (t2, w2)) ∧
      t2.seq = framesBefore cexSplitWalker2.frames ∧
      (reassemble w2).seq = framesAfter cexSplitWalker2.frames) :=
  (claim_C10_split_left_spec SizeData_laws cexSplitWalker2).2 rfl


/-- C3: for every finite sequence `xs` of values, building a tree from
`xs` with `from_iter` — both the AVL tree's repeated rightmost insert
(avl.rs 241-259) and the splay/basic tree's straightforward collect
(splay.rs 330-334 over the spec-modelled basic build) — succeeds, and
iterating the result in-order yields exactly `xs`, in the same order. -/
theorem claim_C3_from_iter_roundtrip {D : DataC} {B : Type} (hL : DataLaws D)
    (b : B) (xs : List D.Value) :
    (∃ t, fromIterAVL (D := D) xs = some t ∧ iterT (t.size + 1) t = xs) ∧
    (∃ t, fromIterBasicT b xs = some t ∧ iterT (t.size + 1) t = xs) := by
  constructor
  · obtain ⟨t, h1, h2⟩ := fromIterAVL_spec hL xs
    exact ⟨t, h1, by rw [iterT_eq_seq hL _ t (by omega)]; exact h2⟩
  · obtain ⟨t, h1, h2⟩ := fromIterBasicT_spec hL b xs
    exact ⟨t, h1, by rw [iterT_eq_seq hL _ t (by omega)]; exact h2⟩

theorem claim_C3_witness :
    (∃ t, fromIterAVL (D := SizeData) [3, 1, 2] = some t ∧
        iterT (t.size + 1) t = [3, 1, 2]) ∧
    (∃ t, fromIterBasicT (D := SizeData) () [3, 1, 2] = some t ∧
        iterT (t.size + 1) t = [3, 1, 2]) :=
  claim_C3_from_iter_roundtrip SizeData_laws () [3, 1, 2]


/-- C2: for both the AVL tree and the splay tree, `delete` at an occupied
position succeeds, returns the value stored there, and leaves a tree
whose in-order sequence is the original one with exactly that element
removed; at an empty position `delete` returns `None`.  The AVL walker is
assumed to stand in a valid AVL tree: current subtree propagated and
satisfying the rank invariant with no reverse bits, frame stack recording
a descent through valid siblings. -/
theorem claim_C2_delete_removes_element {D : DataC} (hL : DataLaws D)
    (wa : BasicWalker D Nat) (ws : BasicWalker D Unit) :
    (∀ v l r s b, wa.cur = BasicTree.Root v l r s D.idA b →
      avlOK wa.cur = true → noRevB wa.cur = true →
      framesOK2 wa.frames b →
      ∃ w2, deleteAVL wa = some (some (v, w2)) ∧
        wSeq wa = framesBefore wa.frames ++ (l.seq ++ v :: r.seq) ++
          framesAfter wa.frames ∧
        wSeq w2 = framesBefore wa.frames ++ (l.seq ++ r.seq) ++
          framesAfter wa.frames) ∧
    (wa.cur = BasicTree.Empty → deleteAVL wa = some none) ∧
    (∀ v l r s b, ws.cur = BasicTree.Root v l r s D.idA b →
      ∃ w2, deleteSplay ws = some (some (v, w2)) ∧
        wSeq ws = framesBefore ws.frames ++ (l.seq ++ v :: r.seq) ++
          framesAfter ws.frames ∧
        wSeq w2 = framesBefore ws.frames ++ (l.seq ++ r.seq) ++
          framesAfter ws.frames) ∧
    (ws.cur = BasicTree.Empty → deleteSplay ws = some none) := by
  refine ⟨?_, ?_, ?_, ?_⟩
  · intro v l r s b hc hOK hn hfr
    obtain ⟨w2, h1, h2⟩ := deleteAVL_spec hL hc hOK hn hfr
    refine ⟨w2, h1, ?_, h2⟩
    rw [wSeq_eq hL, hc, BasicTree.seq, BasicTree.applyA_id hL]
  · intro h
    unfold deleteAVL
    rw [h]
  · intro v l r s b hc
    obtain ⟨w2, h1, h2⟩ := deleteSplay_spec hL hc
    refine ⟨w2, h1, ?_, h2⟩
    rw [wSeq_eq hL, hc, BasicTree.seq, BasicTree.applyA_id hL]
  · intro h
    unfold deleteSplay
    rw [h]

theorem claim_C2_witness :
    (∃ w2, deleteAVL cexDelAVL = some (some ((1 : Int), w2)) ∧
      wSeq cexDelAVL = framesBefore cexDelAVL.frames ++
        ((BasicTree.Empty : BasicTree SizeData Nat).seq ++
          (1 : Int) :: cexDelSub.seq) ++ framesAfter cexDelAVL.frames ∧
      wSeq w2 = framesBefore cexDelAVL.frames ++
        ((BasicTree.Empty : BasicTree SizeData Nat).seq ++ cexDelSub.seq) ++
        framesAfter cexDelAVL.frames) ∧
    deleteAVL cexDelAVLe = some none ∧
    (∃ w2, deleteSplay cexDelSplay = some (some ((5 : Int), w2)) ∧
      wSeq cexDelSplay = framesBefore cexDelSplay.frames ++
        ((BasicTree.Empty : BasicTree SizeData Unit).seq ++
          (5 : Int) :: cexDelSplayT.seq) ++ framesAfter cexDelSplay.frames ∧
      wSeq w2 = framesBefore cexDelSplay.frames ++
        ((BasicTree.Empty : BasicTree SizeData Unit).seq ++
          cexDelSplayT.seq) ++ framesAfter cexDelSplay.frames) ∧
    deleteSplay cexDelSplayE = some none :=
  ⟨(claim_C2_delete_removes_element SizeData_laws cexDelAVL cexDelSplay).1
      1 BasicTree.Empty cexDelSub ⟨2⟩ 2 rfl rfl rfl trivial,
   (claim_C2_delete_removes_element SizeData_laws cexDelAVLe
      cexDelSplay).2.1 rfl,
   (claim_C2_delete_removes_element SizeData_laws cexDelAVL
      cexDelSplay).2.2.1 5 BasicTree.Empty cexDelSplayT ⟨2⟩ () rfl,
   (claim_C2_delete_removes_element SizeData_laws cexDelAVL
      cexDelSplayE).2.2.2 rfl⟩

end Orchard
